import Mathlib

/-!
# Profile resolution (`pkg/profile/artifact.go`)

A shallow embedding of the resolver `MakeArtifacts` / `Profile.makeArtifacts`
and of the naming helpers `profileRepo`, `containsKey`, `makeArtifactName`,
`join`, followed by theorems about them.

Conventions of the embedding.

* Go strings are Lean strings.  The only separator characters the code looks
  at (`/`, `-`, `:`) are ASCII, so splitting on characters and splitting on
  bytes agree on every well-formed (UTF-8) string.
* A Go result pair `([]Artifact, error)` is the pair
  `List Artifact × Option Err`; `nil` is `[]`, a `nil` error is `none`.
* The recursion of `makeArtifacts` follows fetched data and is not structural,
  so it carries a fuel argument bounding the nesting depth; `none` means the
  fuel ran out before the call returned.
* The receiver `p` is mutated by the loop (`p.nestedName = ""`), and the local
  variables `profileRepos` and `artifacts` are re-assigned by it: the three
  form the explicit loop state `LoopState`.
* The receiver is a pointer.  A second embedding (namespace `heap`) keeps the
  `Profile` objects in a store threaded through every call, so that the
  assignments of lines 88 and 99 outlive the call that makes them; it is shown
  to return what the first embedding returns, in whatever store it is started.
-/

set_option autoImplicit false

/-! ## Standard-library functions used by the source -/

namespace strings

/-- The pieces of a character list between occurrences of `sep`: the
character-level content of `strings.Split` with a one-character separator.
The result is never empty (`Split("", "/")` is `[""]`). -/
def splitChars (sep : Char) : List Char → List (List Char)
  | [] => [[]]
  | c :: cs =>
    if c = sep then [] :: splitChars sep cs
    else (c :: (splitChars sep cs).headD []) :: (splitChars sep cs).tail

/-- `strings.Split(s, string(sep))` for a one-character separator. -/
def Split (s : String) (sep : Char) : List String :=
  (splitChars sep s.data).map String.mk

/-- `strings.Contains(s, string(c))` for a one-character substring. -/
def Contains (s : String) (c : Char) : Bool :=
  decide (c ∈ s.data)

/-- `strings.Join(elems, sep)`. -/
def Join : List String → String → String
  | [], _ => ""
  | [a], _ => a
  | a :: b :: rest, sep => a ++ sep ++ Join (b :: rest) sep

end strings

namespace filepath

/-- One element of the path being cleaned, applied to the elements written so
far (`stack`, last element first).  Empty elements and `.` are dropped; `..`
removes the last real element when there is one, is dropped at the root of a
rooted path, and is kept otherwise; any other element is appended. -/
def cleanStep (rooted : Bool) (stack : List (List Char)) (seg : List Char) : List (List Char) :=
  if seg = [] ∨ seg = ['.'] then stack
  else if seg = ['.', '.'] then
    match stack with
    | [] => if rooted then [] else [seg]
    | top :: below =>
      if top = ['.', '.'] then (if rooted then stack else seg :: stack) else below
  else seg :: stack

/-- `filepath.Clean` (Unix, separator `/`): the shortest equivalent path. -/
def Clean (path : String) : String :=
  if path = "" then "."
  else
    let rooted : Bool := path.data.head? = some '/'
    let stack := (strings.splitChars '/' path.data).foldl (cleanStep rooted) []
    let out := (if rooted then ['/'] else []) ++ List.intercalate ['/'] stack.reverse
    if out = [] then "." else String.mk out

/-- `filepath.Join(elem...)`: the elements from the first non-empty one on,
joined with `/` and cleaned; the empty string when every element is empty. -/
def Join (elem : List String) : String :=
  match elem.dropWhile (fun e => e = "") with
  | [] => ""
  | rest => Clean (strings.Join rest "/")

/-- Strip trailing `/` characters (first loop of `filepath.Base`). -/
def stripTrailingSlashes (cs : List Char) : List Char :=
  (cs.reverse.dropWhile (fun c => c = '/')).reverse

/-- The part of a character list after its last `/` (second loop of
`filepath.Base`); the whole list if there is none. -/
def lastElement (cs : List Char) : List Char :=
  (cs.reverse.takeWhile (fun c => c ≠ '/')).reverse

/-- `filepath.Base(path)`: the last element of the path, trailing slashes
removed first; `.` for the empty path and `/` for a path of slashes only. -/
def Base (path : String) : String :=
  if path = "" then "."
  else
    let stripped := stripTrailingSlashes path.data
    let last := lastElement stripped
    if last = [] then "/" else String.mk last

end filepath

namespace strconv

/-- `lowerhex[n & 0xF]`: a hexadecimal digit. -/
def lowerhex (n : Nat) : Char :=
  if n % 16 < 10 then Char.ofNat (48 + n % 16) else Char.ofNat (87 + n % 16)

/-- The `width` hexadecimal digits of `n`, most significant first. -/
def hex : Nat → Nat → List Char
  | 0, _ => []
  | width + 1, n => lowerhex (n / 16 ^ width) :: hex width n

/-- `strconv.IsPrint(r)`.  Up to U+00FF the answer is computed as in the
library; beyond, the library consults its Unicode tables, which are the
parameter `table`. -/
def IsPrint (table : Char → Bool) (r : Char) : Bool :=
  if r.toNat ≤ 0xFF then
    (0x20 ≤ r.toNat && r.toNat ≤ 0x7E) || (0xA1 ≤ r.toNat && r.toNat ≤ 0xFF && r.toNat != 0xAD)
  else table r

/-- What `appendEscapedRune` appends for the rune `r` inside double quotes. -/
def escapedRune (table : Char → Bool) (r : Char) : List Char :=
  if r = Char.ofNat 34 ∨ r = Char.ofNat 92 then [Char.ofNat 92, r]
  else if IsPrint table r then [r]
  else if r = Char.ofNat 7 then [Char.ofNat 92, 'a']
  else if r = Char.ofNat 8 then [Char.ofNat 92, 'b']
  else if r = Char.ofNat 12 then [Char.ofNat 92, 'f']
  else if r = Char.ofNat 10 then [Char.ofNat 92, 'n']
  else if r = Char.ofNat 13 then [Char.ofNat 92, 'r']
  else if r = Char.ofNat 9 then [Char.ofNat 92, 't']
  else if r = Char.ofNat 11 then [Char.ofNat 92, 'v']
  else if r.toNat < 0x20 ∨ r.toNat = 0x7F then Char.ofNat 92 :: 'x' :: hex 2 r.toNat
  else if r.toNat < 0x10000 then Char.ofNat 92 :: 'u' :: hex 4 r.toNat
  else Char.ofNat 92 :: 'U' :: hex 8 r.toNat

/-- The escaped runes of a character list, one after the other. -/
def escaped (table : Char → Bool) : List Char → List Char
  | [] => []
  | r :: rest => escapedRune table r ++ escaped table rest

/-- `strconv.Quote(s)`, what the verb `%q` prints for a string: the string in
double quotes, with Go escape sequences for the quote, the backslash and the
characters that are not printable. -/
def Quote (table : Char → Bool) (s : String) : String :=
  String.mk (Char.ofNat 34 :: escaped table s.data ++ [Char.ofNat 34])

end strconv

/-! ## Data model -/

namespace profilesv1

/-- Reference to a remote chart (`artifact.Chart`, a pointer in the source). -/
structure Chart where
  URL : String
  Name : String
  deriving DecidableEq

/-- Reference to a nested profile (`artifact.Profile`): the fields the resolver
reads. -/
structure Profile where
  URL : String
  Branch : String
  Version : String
  Path : String
  deriving DecidableEq

/-- A declared artifact, one entry of a profile definition.  `Chart` is a
pointer, which the source tests against `nil`; `Profile` is read without such
a test and is a value here. -/
structure Artifact where
  Name : String
  Kind : String
  Path : String
  Chart : Option Chart
  Profile : Profile
  deriving DecidableEq

structure ProfileDefinitionSpec where
  Artifacts : List Artifact
  deriving DecidableEq

/-- A fetched profile definition: its name and its declared artifacts. -/
structure ProfileDefinition where
  Name : String
  Spec : ProfileDefinitionSpec
  deriving DecidableEq

structure ProfileSubscriptionSpec where
  ProfileURL : String
  Branch : String
  Tag : String
  Path : String
  deriving DecidableEq

/-- A profile subscription: object name and namespace, and where the profile
lives.  These are the fields the resolver reads or writes; the deep copy of
line 73 is the value itself. -/
structure ProfileSubscription where
  Name : String
  Namespace : String
  Spec : ProfileSubscriptionSpec
  deriving DecidableEq

/-- Modelled from the spec: the kind constants are declared outside the source
at hand; the spec names the three kinds `profile`, `helm-chart`, `kustomize`. -/
def ProfileKind : String := "profile"

/-- Modelled from the spec: see `ProfileKind`. -/
def HelmChartKind : String := "helm-chart"

/-- Modelled from the spec: see `ProfileKind`. -/
def KustomizeKind : String := "kustomize"

end profilesv1

namespace profile

/-- Errors of the resolver.  The first constructor carries an error of a
collaborator (Fetcher or Validator); the others are the `fmt.Errorf` sites of
`artifact.go`, those with a `cause` wrapping it with `%w`. -/
inductive Err where
  /-- an error returned by the Fetcher or by the Validator -/
  | external (msg : String)
  /-- line 35: `failed to get profile definition: %w` -/
  | getDefinition (cause : Err)
  /-- line 54: `validation failed for artifact %s: %w` -/
  | validation (name : String) (cause : Err)
  /-- line 71: `failed to get profile definition %s on branch %s: %w` -/
  | nestedDefinition (url branchOrTag : String) (cause : Err)
  /-- line 91: `recursive artifact detected: profile %s on branch %s ...` -/
  | recursive (url branch : String)
  /-- line 96: `failed to generate resources for nested profile %q: %w` -/
  | nestedProfile (name : String) (cause : Err)
  /-- lines 105 and 124: `in case of local resources, the flux gitrepository
  object's details must be provided` -/
  | missingSource
  /-- line 138: `artifact kind %q not recognized` -/
  | unknownKind (kind : String)
  deriving DecidableEq

/-- The innermost error of a `%w` chain (what repeated `errors.Unwrap` ends at). -/
def Err.rootCause : Err → Err
  | .getDefinition cause => cause.rootCause
  | .validation _ cause => cause.rootCause
  | .nestedDefinition _ _ cause => cause.rootCause
  | .nestedProfile _ cause => cause.rootCause
  | e => e

/-- The text of an error (`err.Error()`), as the `fmt.Errorf` calls of
`artifact.go` format it; `table` is the printability table of `%q`. -/
def Err.message (table : Char → Bool) : Err → String
  | .external msg => msg
  | .getDefinition cause => "failed to get profile definition: " ++ cause.message table
  | .validation name cause =>
    "validation failed for artifact " ++ name ++ ": " ++ cause.message table
  | .nestedDefinition url branchOrTag cause =>
    "failed to get profile definition " ++ url ++ " on branch " ++ branchOrTag ++ ": "
      ++ cause.message table
  | .recursive url branch =>
    "recursive artifact detected: profile " ++ url ++ " on branch " ++ branch
      ++ " contains an artifact that points recursively back at itself"
  | .nestedProfile name cause =>
    "failed to generate resources for nested profile " ++ strconv.Quote table name ++ ": "
      ++ cause.message table
  | .missingSource =>
    "in case of local resources, the flux gitrepository object's details must be provided"
  | .unknownKind kind => "artifact kind " ++ strconv.Quote table kind ++ " not recognized"

/-- An error wrapped by line 96 once for each of the given nested-profile
names, the first name outermost. -/
def wrapNested (names : List String) (e : Err) : Err :=
  names.foldr Err.nestedProfile e

/-- The context that the layers of `wrapNested` print before the text of the
wrapped error: one `failed to generate resources for nested profile "name": `
for each name, the first name first. -/
def nestedContext (table : Char → Bool) : List String → String
  | [] => ""
  | name :: names =>
    "failed to generate resources for nested profile " ++ strconv.Quote table name ++ ": "
      ++ nestedContext table names

/-- Release object built for a helm-chart artifact. -/
structure HelmRelease where
  Name : String
  Namespace : String
  /-- the chart reference `Spec.Chart.Spec.Chart` -/
  Chart : String
  deriving DecidableEq

/-- Chart-repository object built for a remote chart. -/
structure HelmRepository where
  Name : String
  Namespace : String
  URL : String
  deriving DecidableEq

/-- Overlay object built for a kustomize artifact. -/
structure Kustomization where
  Name : String
  Namespace : String
  Path : String
  SourceRefName : String
  SourceRefNamespace : String
  deriving DecidableEq

/-- The configuration objects an artifact carries (`runtime.Object`). -/
inductive Object where
  | helmRelease (o : HelmRelease)
  | helmRepository (o : HelmRepository)
  | kustomization (o : Kustomization)
  deriving DecidableEq

/-- Artifact contains the name and objects belonging to a profile artifact. -/
structure Artifact where
  Objects : List Object := []
  Name : String
  RepoURL : String := ""
  PathsToCopy : List String := []
  SparseFolder : String := ""
  Branch : String := ""
  deriving DecidableEq

/-- The resolver state for one profile (the receiver `p`). -/
structure Profile where
  definition : profilesv1.ProfileDefinition
  subscription : profilesv1.ProfileSubscription
  rootDir : String
  gitRepositoryNamespace : String
  gitRepositoryName : String
  nestedName : String
  deriving DecidableEq

/-- The collaborators of the resolver: `getProfileDefinition(url, ref, path)`
(the Fetcher, reached through the git client) and `artifact.Validate()` (the
Validator; `none` is a `nil` error).  Their errors are opaque messages. -/
structure Env where
  getProfileDefinition : String → String → String → Except String profilesv1.ProfileDefinition
  Validate : profilesv1.Artifact → Option String

/-- Modelled from the spec: `newProfile` is declared outside the source at
hand.  It stores its five arguments; the nested-name prefix is empty until the
caller sets it ("non-empty only while resolving inside a nested profile"). -/
def newProfile (definition : profilesv1.ProfileDefinition) (subscription : profilesv1.ProfileSubscription)
    (rootDir gitRepositoryNamespace gitRepositoryName : String) : Profile :=
  { definition := definition, subscription := subscription, rootDir := rootDir,
    gitRepositoryNamespace := gitRepositoryNamespace, gitRepositoryName := gitRepositoryName,
    nestedName := "" }

/-! ## Naming utilities -/

/-- `join(s...)`: the arguments separated by `-`. -/
def join (s : List String) : String :=
  strings.Join s "-"

/-- `p.makeArtifactName(name)`. -/
def Profile.makeArtifactName (p : Profile) (name : String) : String :=
  -- if this is a nested artifact, it's name contains a /
  let name := if strings.Contains name '/' then filepath.Base name else name
  join [p.subscription.Name, p.definition.Name, name]

/-- `p.profileRepo()`: the repo key of the profile's subscription. -/
def Profile.profileRepo (p : Profile) : String :=
  if p.subscription.Spec.Tag ≠ "" then
    p.subscription.Spec.ProfileURL ++ ":" ++ p.subscription.Spec.Tag
  else
    p.subscription.Spec.ProfileURL ++ ":" ++ p.subscription.Spec.Branch ++ ":" ++ p.subscription.Spec.Path

/-- `containsKey(list, key)`: linear search. -/
def containsKey : List String → String → Bool
  | [], _ => false
  | value :: rest, key => if value = key then true else containsKey rest key

/-! ## Object builder -/

/-- Modelled from the spec: `makeHelmRelease` is declared outside the source at
hand.  The release object is named by `makeArtifactName`, lives in the
subscription's namespace, and its chart reference is the named remote chart
(for a co-located chart the caller rewrites it). -/
def Profile.makeHelmRelease (p : Profile) (artifact : profilesv1.Artifact) (_repoPath : String) : HelmRelease :=
  { Name := p.makeArtifactName artifact.Name
    Namespace := p.subscription.Namespace
    Chart := match artifact.Chart with
      | some chart => chart.Name
      | none => "" }

/-- Modelled from the spec: `makeHelmRepository` is declared outside the source
at hand.  The chart-repository object of a remote chart. -/
def Profile.makeHelmRepository (p : Profile) (url name : String) : HelmRepository :=
  { Name := p.makeArtifactName name
    Namespace := p.subscription.Namespace
    URL := url }

/-- Modelled from the spec: `makeKustomization` is declared outside the source
at hand.  The overlay object with the given source path, referencing the
configured git-source. -/
def Profile.makeKustomization (p : Profile) (artifact : profilesv1.Artifact) (repoPath : String) : Kustomization :=
  { Name := p.makeArtifactName artifact.Name
    Namespace := p.subscription.Namespace
    Path := repoPath
    SourceRefName := p.gitRepositoryName
    SourceRefNamespace := p.gitRepositoryNamespace }

/-! ## Profile resolver -/

/-- The ref fetched for a nested profile (lines 63 and 65-66): the version tag
when it is set, the branch otherwise. -/
def nestedBranchOrTag (artifact : profilesv1.Artifact) : String :=
  if artifact.Profile.Version ≠ "" then artifact.Profile.Version else artifact.Profile.Branch

/-- The path fetched for a nested profile (lines 64 and 65-67): the first
element of the version tag split at `/` when the tag is set, the declared path
otherwise. -/
def nestedFetchPath (artifact : profilesv1.Artifact) : String :=
  if artifact.Profile.Version ≠ "" then
    (strings.Split artifact.Profile.Version '/').headD ""
  else artifact.Profile.Path

/-- The nested subscription (lines 73-85): a copy of the enclosing subscription
with URL, branch, tag and path replaced. -/
def nestedSubscription (subscription : profilesv1.ProfileSubscription) (artifact : profilesv1.Artifact) :
    profilesv1.ProfileSubscription :=
  let splitTag := strings.Split artifact.Profile.Version '/'
  let path :=
    if artifact.Profile.Version ≠ "" then
      (if splitTag.length > 1 then splitTag.headD "" else ".")
    else artifact.Profile.Path
  { subscription with
    Spec := { ProfileURL := artifact.Profile.URL
              Branch := artifact.Profile.Branch
              Tag := artifact.Profile.Version
              Path := path } }

/-- The value of a call: the Go pair `([]Artifact, error)`. -/
abbrev Result := List Artifact × Option Err

/-- The state of the loop of `makeArtifacts`: the receiver (whose `nestedName`
line 99 resets) and the locals `profileRepos` and `artifacts`. -/
structure LoopState where
  p : Profile
  profileRepos : List String
  artifacts : List Artifact
  deriving DecidableEq

/-- How one iteration of the loop ends: it goes on to the next entry with a
new state, or the function returns. -/
inductive Step where
  | next (st : LoopState)
  | ret (r : Result)
  deriving DecidableEq

/-- The `HelmChartKind` case (lines 100-121); `artifact` has its name already
qualified and `a` is the artifact under construction. -/
def helmChartCase (st : LoopState) (artifact : profilesv1.Artifact) (a : Artifact) : Step :=
  let p := st.p
  let profileRepoPath := p.subscription.Spec.Path
  let helmRelease := p.makeHelmRelease artifact profileRepoPath
  if artifact.Path ≠ "" then
    if p.gitRepositoryNamespace = "" ∧ p.gitRepositoryName = "" then
      .ret ([], some .missingSource)
    else
      -- the release object is shared with `a.Objects`, so the rewrite of its
      -- chart reference is seen there
      let helmRelease := { helmRelease with
        Chart := filepath.Join [p.rootDir, "artifacts", artifact.Name, artifact.Path] }
      let branch := if p.subscription.Spec.Tag ≠ "" then p.subscription.Spec.Tag else p.subscription.Spec.Branch
      let a := { a with
        Objects := a.Objects ++ [Object.helmRelease helmRelease]
        RepoURL := p.subscription.Spec.ProfileURL
        SparseFolder := p.definition.Name
        Branch := branch
        PathsToCopy := a.PathsToCopy ++ [artifact.Path] }
      let a := match artifact.Chart with
        | some chart =>
          { a with Objects := a.Objects ++ [Object.helmRepository (p.makeHelmRepository chart.URL chart.Name)] }
        | none => a
      .next { st with artifacts := st.artifacts ++ [a] }
  else
    let a := { a with Objects := a.Objects ++ [Object.helmRelease helmRelease] }
    let a := match artifact.Chart with
      | some chart =>
        { a with Objects := a.Objects ++ [Object.helmRepository (p.makeHelmRepository chart.URL chart.Name)] }
      | none => a
    .next { st with artifacts := st.artifacts ++ [a] }

/-- The `KustomizeKind` case (lines 122-136). -/
def kustomizeCase (st : LoopState) (artifact : profilesv1.Artifact) (a : Artifact) : Step :=
  let p := st.p
  if p.gitRepositoryNamespace = "" ∧ p.gitRepositoryName = "" then
    .ret ([], some .missingSource)
  else
    let path := filepath.Join [p.rootDir, "artifacts", artifact.Name, artifact.Path]
    let branch := if p.subscription.Spec.Tag ≠ "" then p.subscription.Spec.Tag else p.subscription.Spec.Branch
    let a := { a with
      Objects := a.Objects ++ [Object.kustomization (p.makeKustomization artifact path)]
      RepoURL := p.subscription.Spec.ProfileURL
      SparseFolder := p.definition.Name
      Branch := branch
      PathsToCopy := a.PathsToCopy ++ [artifact.Path] }
    .next { st with artifacts := st.artifacts ++ [a] }

/-- The receiver of the recursive call (lines 73-88): the profile of the
nested definition under the nested subscription, with the same root directory
and git-source, its nested-name prefix being the (qualified) artifact name. -/
def nestedSub (p : Profile) (artifact : profilesv1.Artifact)
    (nestedProfileDef : profilesv1.ProfileDefinition) : Profile :=
  { newProfile nestedProfileDef (nestedSubscription p.subscription artifact) p.rootDir
      p.gitRepositoryNamespace p.gitRepositoryName with nestedName := artifact.Name }

/-- The `ProfileKind` case up to the recursive call (lines 63-93): either the
function returns (fetch failure, cycle), or the call is made on the returned
receiver with the returned, extended `profileRepos`. -/
def nestedCall (env : Env) (st : LoopState) (artifact : profilesv1.Artifact) :
    Except Result (Profile × List String) :=
  let branchOrTag := nestedBranchOrTag artifact
  let path := nestedFetchPath artifact
  match env.getProfileDefinition artifact.Profile.URL branchOrTag path with
  | .error err =>
    .error ([], some (.nestedDefinition artifact.Profile.URL branchOrTag (.external err)))
  | .ok nestedProfileDef =>
    let nestedSub := nestedSub st.p artifact nestedProfileDef
    let profileRepoName := nestedSub.profileRepo
    if containsKey st.profileRepos profileRepoName then
      .error ([], some (.recursive artifact.Profile.URL artifact.Profile.Branch))
    else
      .ok (nestedSub, st.profileRepos ++ [profileRepoName])

/-- The `ProfileKind` case (lines 62-99).  `recurse` is the recursive call
`nestedSub.makeArtifacts(profileRepos, gitClient)`; it yields `none` when the
fuel does not suffice. -/
def profileCase (env : Env) (recurse : Profile → List String → Option Result)
    (st : LoopState) (artifact : profilesv1.Artifact) : Option Step :=
  match nestedCall env st artifact with
  | .error r => some (.ret r)
  | .ok (nestedSub, profileRepos) =>
    match recurse nestedSub profileRepos with
    | none => none
    | some (_, some err) => some (.ret ([], some (.nestedProfile artifact.Name err)))
    | some (nestedArtifacts, none) =>
      some (.next { p := { st.p with nestedName := "" }
                    profileRepos := profileRepos
                    artifacts := st.artifacts ++ nestedArtifacts })

/-- The name an entry carries after lines 56-58: qualified by the nested-name
prefix when one is set. -/
def qualify (p : Profile) (artifact : profilesv1.Artifact) : profilesv1.Artifact :=
  if p.nestedName ≠ "" then
    { artifact with Name := filepath.Join [p.nestedName, artifact.Name] }
  else artifact

/-- One iteration of the loop of `makeArtifacts` (lines 53-139). -/
def iteration (env : Env) (recurse : Profile → List String → Option Result)
    (st : LoopState) (artifact : profilesv1.Artifact) : Option Step :=
  match env.Validate artifact with
  | some err => some (.ret ([], some (.validation artifact.Name (.external err))))
  | none =>
    let artifact := qualify st.p artifact
    let a : Artifact := { Name := artifact.Name }
    if artifact.Kind = profilesv1.ProfileKind then
      profileCase env recurse st artifact
    else if artifact.Kind = profilesv1.HelmChartKind then
      some (helmChartCase st artifact a)
    else if artifact.Kind = profilesv1.KustomizeKind then
      some (kustomizeCase st artifact a)
    else
      some (.ret ([], some (.unknownKind artifact.Kind)))

/-- The loop of `makeArtifacts` over the declared artifacts still to visit
(lines 52-141). -/
def loop (env : Env) (recurse : Profile → List String → Option Result) :
    LoopState → List profilesv1.Artifact → Option Result
  | st, [] => some (st.artifacts, none)
  | st, artifact :: rest =>
    match iteration env recurse st artifact with
    | none => none
    | some (.ret r) => some r
    | some (.next st) => loop env recurse st rest

/-- `p.makeArtifacts(profileRepos, gitClient)`; `fuel` bounds the depth of
nested calls. -/
def Profile.makeArtifacts (env : Env) : Nat → Profile → List String → Option Result
  | 0, _, _ => none
  | fuel + 1, p, profileRepos =>
    loop env (Profile.makeArtifacts env fuel)
      { p := p, profileRepos := profileRepos, artifacts := [] } p.definition.Spec.Artifacts

/-- `MakeArtifacts(sub, gitClient, rootDir, gitRepoNamespace, gitRepoName)`:
generates artifacts without owners for manual applying to a personal cluster. -/
def MakeArtifacts (env : Env) (fuel : Nat) (sub : profilesv1.ProfileSubscription)
    (rootDir gitRepoNamespace gitRepoName : String) : Option Result :=
  let path := sub.Spec.Path
  let branchOrTag := if sub.Spec.Tag = "" then sub.Spec.Branch else sub.Spec.Tag
  match env.getProfileDefinition sub.Spec.ProfileURL branchOrTag path with
  | .error err => some ([], some (.getDefinition (.external err)))
  | .ok definition =>
    let p := newProfile definition sub rootDir gitRepoNamespace gitRepoName
    p.makeArtifacts env fuel [p.profileRepo]

/-! ## Reaching an entry

The specification speaks of a resolution that *reaches* a declared artifact.  An entry
is addressed by its index path: `[i]` is entry `i` of the root definition,
`i :: rest` is the entry addressed by `rest` in the definition of the nested
profile declared by entry `i`.  `reach` runs the resolver itself up to the
moment the loop of the enclosing call arrives at that entry. -/

/-- The loop run up to its arrival at entry `i` of the list: the loop state at
that moment and the entry, or `none` if the loop does not get there (an earlier
entry returns, or the list is shorter). -/
def loopUpTo (env : Env) (recurse : Profile → List String → Option Result) :
    LoopState → List profilesv1.Artifact → Nat → Option (LoopState × profilesv1.Artifact)
  | _, [], _ => none
  | st, artifact :: _, 0 => some (st, artifact)
  | st, artifact :: rest, i + 1 =>
    match iteration env recurse st artifact with
    | some (.next st) => loopUpTo env recurse st rest i
    | _ => none

/-- The moment a loop arrives at an entry. -/
structure Arrival where
  /-- fuel of the nested calls made by this loop -/
  fuel : Nat
  /-- the state of the loop (of the call enclosing the entry) -/
  st : LoopState
  /-- the entry, as declared -/
  artifact : profilesv1.Artifact
  /-- the repo keys of the root profile and of the nested profiles entered on the
  way, outermost first: the ancestors of the entry -/
  ancestors : List String
  /-- the (qualified) names of the nested-profile entries entered on the way,
  outermost first -/
  nesting : List String
  deriving DecidableEq

/-- Arrival at the entry addressed by an index path, inside the call
`p.makeArtifacts(profileRepos, _)`. -/
def Profile.arrive (env : Env) :
    Nat → Profile → List String → List String → List String → List Nat → Option Arrival
  | 0, _, _, _, _, _ => none
  | _ + 1, _, _, _, _, [] => none
  | fuel + 1, p, profileRepos, ancestors, nesting, i :: rest =>
    match loopUpTo env (Profile.makeArtifacts env fuel)
        { p := p, profileRepos := profileRepos, artifacts := [] } p.definition.Spec.Artifacts i with
    | none => none
    | some (st, artifact) =>
      match rest with
      | [] =>
        some { fuel := fuel, st := st, artifact := artifact, ancestors := ancestors,
               nesting := nesting }
      | _ :: _ =>
        if env.Validate artifact = none ∧ (qualify st.p artifact).Kind = profilesv1.ProfileKind then
          match nestedCall env st (qualify st.p artifact) with
          | .ok (nestedSub, profileRepos) =>
            Profile.arrive env fuel nestedSub profileRepos (ancestors ++ [nestedSub.profileRepo])
              (nesting ++ [(qualify st.p artifact).Name]) rest
          | .error _ => none
        else none

/-- Arrival at the entry addressed by an index path, inside `MakeArtifacts`. -/
def reach (env : Env) (fuel : Nat) (sub : profilesv1.ProfileSubscription)
    (rootDir gitRepoNamespace gitRepoName : String) (path : List Nat) : Option Arrival :=
  let branchOrTag := if sub.Spec.Tag = "" then sub.Spec.Branch else sub.Spec.Tag
  match env.getProfileDefinition sub.Spec.ProfileURL branchOrTag sub.Spec.Path with
  | .error _ => none
  | .ok definition =>
    let p := newProfile definition sub rootDir gitRepoNamespace gitRepoName
    p.arrive env fuel [p.profileRepo] [p.profileRepo] [] path

/-- What the iteration at an arrival does: the loop body run on the entry in
the state of the arrival, nested calls having the fuel of the arrival. -/
def Arrival.iteration (env : Env) (arr : Arrival) : Option Step :=
  profile.iteration env (Profile.makeArtifacts env arr.fuel) arr.st arr.artifact

/-! ## The flattening of a definition, in the words of the specification

"Sibling artifacts appear in the output in the same order they appear in the
Definition; nested-profile expansion is inserted in place of the
nested-profile entry."  `flatten` lists the leaf entries of a definition in
that order; it builds no artifact and knows nothing of the loop state. -/

/-- A leaf entry of the flattened document: a declared helm-chart or kustomize
artifact, with the subscription and the definition of the profile declaring
it. -/
structure Leaf where
  subscription : profilesv1.ProfileSubscription
  definition : profilesv1.ProfileDefinition
  artifact : profilesv1.Artifact
  deriving DecidableEq

/-- The leaves of a list of declared entries in document order: a
nested-profile entry is replaced in place by the leaves of its nested
definition (`flattenNested`), any other entry stands for itself. -/
def flattenEntries (env : Env)
    (flattenNested : profilesv1.ProfileSubscription → profilesv1.ProfileDefinition → List Leaf)
    (sub : profilesv1.ProfileSubscription) (definition : profilesv1.ProfileDefinition) :
    List profilesv1.Artifact → List Leaf
  | [] => []
  | artifact :: rest =>
    (if artifact.Kind = profilesv1.ProfileKind then
      match env.getProfileDefinition artifact.Profile.URL (nestedBranchOrTag artifact)
          (nestedFetchPath artifact) with
      | .ok nested => flattenNested (nestedSubscription sub artifact) nested
      | .error _ => []
    else [{ subscription := sub, definition := definition, artifact := artifact }])
    ++ flattenEntries env flattenNested sub definition rest

/-- The depth-first flattening of a definition, nested definitions being
followed `depth` levels deep. -/
def flatten (env : Env) : Nat → profilesv1.ProfileSubscription → profilesv1.ProfileDefinition → List Leaf
  | 0, _, _ => []
  | depth + 1, sub, definition =>
    flattenEntries env (flatten env depth) sub definition definition.Spec.Artifacts

/-- The artifact `art` is the one the loop body builds for the leaf: the
iteration on the leaf's entry, in a profile with the leaf's subscription and
definition and the given root directory and git-source, appends exactly `art`
and goes on. -/
def BuiltFrom (env : Env) (rootDir gitRepoNamespace gitRepoName : String) (art : Artifact) (leaf : Leaf) :
    Prop :=
  (leaf.artifact.Kind = profilesv1.HelmChartKind ∨ leaf.artifact.Kind = profilesv1.KustomizeKind) ∧
  leaf.artifact.Kind ≠ profilesv1.ProfileKind ∧
  ∃ (st : LoopState) (recurse : Profile → List String → Option Result),
    st.p.subscription = leaf.subscription ∧ st.p.definition = leaf.definition ∧
    st.p.rootDir = rootDir ∧ st.p.gitRepositoryNamespace = gitRepoNamespace ∧
    st.p.gitRepositoryName = gitRepoName ∧
    iteration env recurse st leaf.artifact =
      some (.next { st with artifacts := st.artifacts ++ [art] })

/-- The (repository URL, ref, path) tuple of a subscription, in the words of
the specification: the ref is the tag if it is set and the branch otherwise. -/
def subscriptionTuple (sub : profilesv1.ProfileSubscription) : String × String × String :=
  (sub.Spec.ProfileURL, (if sub.Spec.Tag ≠ "" then sub.Spec.Tag else sub.Spec.Branch), sub.Spec.Path)

/-- The path `path` lies under the directory `dir`: it is `dir`, a `/` and
more. -/
def liesUnder (dir path : String) : Prop :=
  ∃ rest, path.data = dir.data ++ '/' :: rest

/-! ## Calls, reachable profiles and the expected cycle-guard list -/

/-- The call of `makeArtifacts` addressed by an index path, as its receiver and
its `profileRepos` argument: `[]` is the call made by `MakeArtifacts` (line 38),
a non-empty path is the call made for the nested-profile entry it addresses
(line 94). -/
def call (env : Env) (fuel : Nat) (sub : profilesv1.ProfileSubscription)
    (rootDir gitRepoNamespace gitRepoName : String) : List Nat → Option (Profile × List String)
  | [] =>
    match env.getProfileDefinition sub.Spec.ProfileURL
        (if sub.Spec.Tag = "" then sub.Spec.Branch else sub.Spec.Tag) sub.Spec.Path with
    | .error _ => none
    | .ok definition =>
      let p := newProfile definition sub rootDir gitRepoNamespace gitRepoName
      some (p, [p.profileRepo])
  | i :: rest =>
    match reach env fuel sub rootDir gitRepoNamespace gitRepoName (i :: rest) with
    | none => none
    | some arr =>
      if env.Validate arr.artifact = none ∧ arr.artifact.Kind = profilesv1.ProfileKind then
        match nestedCall env arr.st (qualify arr.st.p arr.artifact) with
        | .ok c => some c
        | .error _ => none
      else none

/-- The repo key of a subscription: `profileRepo` of a profile with it. -/
def repoKey (sub : profilesv1.ProfileSubscription) : String :=
  (newProfile { Name := "", Spec := { Artifacts := [] } } sub "" "" "").profileRepo

/-- The repo key of a declared nested profile: the key of its nested
subscription (which depends on the entry only). -/
def nestedKey (artifact : profilesv1.Artifact) : String :=
  repoKey (nestedSubscription
    { Name := "", Namespace := "", Spec := { ProfileURL := "", Branch := "", Tag := "", Path := "" } }
    artifact)

/-- The profiles reachable from a root subscription through the Fetcher: the
root profile, and every nested profile declared in the definition of a
reachable profile whose definition the Fetcher returns. -/
inductive Reachable (env : Env) (root : profilesv1.ProfileSubscription) :
    profilesv1.ProfileSubscription → profilesv1.ProfileDefinition → Prop where
  | root {definition : profilesv1.ProfileDefinition} :
    env.getProfileDefinition root.Spec.ProfileURL
      (if root.Spec.Tag = "" then root.Spec.Branch else root.Spec.Tag) root.Spec.Path
      = .ok definition →
    Reachable env root root definition
  | nested {sub : profilesv1.ProfileSubscription} {definition nestedDef : profilesv1.ProfileDefinition}
      {artifact : profilesv1.Artifact} :
    Reachable env root sub definition →
    artifact ∈ definition.Spec.Artifacts →
    artifact.Kind = profilesv1.ProfileKind →
    env.getProfileDefinition artifact.Profile.URL (nestedBranchOrTag artifact)
      (nestedFetchPath artifact) = .ok nestedDef →
    Reachable env root (nestedSubscription sub artifact) nestedDef

/-- The keys of the nested-profile entries of a list of declared entries. -/
def nestedKeys (artifacts : List profilesv1.Artifact) : List String :=
  (artifacts.filter (fun a => a.Kind = profilesv1.ProfileKind)).map nestedKey

/-- The cycle-guard list expected below the root key on arrival at the entry
addressed by an index path in a definition: for every definition on the way
the keys of its nested-profile entries up to and including the one on the
path, then the keys of the nested-profile entries before the addressed entry
in its own definition. -/
def guardKeys (env : Env) : profilesv1.ProfileDefinition → List Nat → List String
  | _, [] => []
  | definition, [i] => nestedKeys (definition.Spec.Artifacts.take i)
  | definition, i :: j :: rest =>
    nestedKeys (definition.Spec.Artifacts.take (i + 1)) ++
      (match definition.Spec.Artifacts.get? i with
      | some artifact =>
        match env.getProfileDefinition artifact.Profile.URL (nestedBranchOrTag artifact)
            (nestedFetchPath artifact) with
        | .ok nestedDef => guardKeys env nestedDef (j :: rest)
        | .error _ => []
      | none => [])

/-! ## The resolver over an explicit store of `Profile` objects

The receiver of `makeArtifacts` is a pointer (`func (p *Profile)`), and lines 88
and 99 assign to a field of the object it points to.  Here the objects live in
a store that is threaded through every call, so that what one invocation leaves
behind is what the next one starts from. -/

/-- The `Profile` objects allocated so far: `size` is their number (and the
address of the next one), `obj` the object at an address. -/
structure Store where
  size : Nat
  obj : Nat → Profile

/-- Assignment to the object at an address. -/
def Store.write (σ : Store) (ptr : Nat) (p : Profile) : Store :=
  { size := σ.size, obj := fun b => if b = ptr then p else σ.obj b }

namespace heap

/-- Modelled from the spec: `newProfile` is declared outside the source at
hand.  It creates a new resolution context: the object is placed at the next
free address, which is returned with the extended store. -/
def newProfile (σ : Store) (definition : profilesv1.ProfileDefinition)
    (subscription : profilesv1.ProfileSubscription)
    (rootDir gitRepositoryNamespace gitRepositoryName : String) : Nat × Store :=
  (σ.size,
    { size := σ.size + 1
      obj := fun b =>
        if b = σ.size then
          profile.newProfile definition subscription rootDir gitRepositoryNamespace gitRepositoryName
        else σ.obj b })

/-- How one iteration of the loop ends, the receiver being in the store: it
goes on with new values of the locals `profileRepos` and `artifacts`, or the
function returns. -/
inductive Step where
  | next (profileRepos : List String) (artifacts : List Artifact)
  | ret (r : Result)
  deriving DecidableEq

/-- The end of an iteration that does not assign to the receiver. -/
def Step.ofStep : profile.Step → Step
  | .next st => .next st.profileRepos st.artifacts
  | .ret r => .ret r

/-- The receiver of the recursive call (lines 73-88), created in the store:
`newProfile` allocates it from fields read off the receiver at address `p`,
then line 88 assigns its nested-name prefix. -/
def nestedSub (σ : Store) (p : Nat) (artifact : profilesv1.Artifact)
    (nestedProfileDef : profilesv1.ProfileDefinition) : Nat × Store :=
  let nestedProfile := nestedSubscription (σ.obj p).subscription artifact
  let allocated := newProfile σ nestedProfileDef nestedProfile (σ.obj p).rootDir
    (σ.obj p).gitRepositoryNamespace (σ.obj p).gitRepositoryName
  let nestedSub := allocated.1
  -- nestedSub.nestedName = artifact.Name
  (nestedSub,
    allocated.2.write nestedSub { allocated.2.obj nestedSub with nestedName := artifact.Name })

/-- The `ProfileKind` case (lines 62-99) on the receiver at address `p`. -/
def profileCase (env : Env) (recurse : Nat → List String → Store → Option (Result × Store))
    (p : Nat) (profileRepos : List String) (artifacts : List Artifact)
    (artifact : profilesv1.Artifact) (σ : Store) : Option (Step × Store) :=
  let branchOrTag := nestedBranchOrTag artifact
  let path := nestedFetchPath artifact
  match env.getProfileDefinition artifact.Profile.URL branchOrTag path with
  | .error err =>
    some (.ret ([], some (.nestedDefinition artifact.Profile.URL branchOrTag (.external err))), σ)
  | .ok nestedProfileDef =>
    let created := nestedSub σ p artifact nestedProfileDef
    let nestedSub := created.1
    let σ := created.2
    let profileRepoName := (σ.obj nestedSub).profileRepo
    if containsKey profileRepos profileRepoName then
      some (.ret ([], some (.recursive artifact.Profile.URL artifact.Profile.Branch)), σ)
    else
      let profileRepos := profileRepos ++ [profileRepoName]
      match recurse nestedSub profileRepos σ with
      | none => none
      | some ((_, some err), σ) => some (.ret ([], some (.nestedProfile artifact.Name err)), σ)
      | some ((nestedArtifacts, none), σ) =>
        -- p.nestedName = ""
        some (.next profileRepos (artifacts ++ nestedArtifacts),
          σ.write p { σ.obj p with nestedName := "" })

/-- One iteration of the loop of `makeArtifacts` (lines 53-139) on the
receiver at address `p`.  The helm-chart and kustomize cases read the receiver
and assign to locals only. -/
def iteration (env : Env) (recurse : Nat → List String → Store → Option (Result × Store))
    (p : Nat) (profileRepos : List String) (artifacts : List Artifact)
    (artifact : profilesv1.Artifact) (σ : Store) : Option (Step × Store) :=
  match env.Validate artifact with
  | some err => some (.ret ([], some (.validation artifact.Name (.external err))), σ)
  | none =>
    let artifact := qualify (σ.obj p) artifact
    let a : Artifact := { Name := artifact.Name }
    let st : LoopState := { p := σ.obj p, profileRepos := profileRepos, artifacts := artifacts }
    if artifact.Kind = profilesv1.ProfileKind then
      profileCase env recurse p profileRepos artifacts artifact σ
    else if artifact.Kind = profilesv1.HelmChartKind then
      some (Step.ofStep (helmChartCase st artifact a), σ)
    else if artifact.Kind = profilesv1.KustomizeKind then
      some (Step.ofStep (kustomizeCase st artifact a), σ)
    else
      some (.ret ([], some (.unknownKind artifact.Kind)), σ)

/-- The loop of `makeArtifacts` over the declared artifacts still to visit
(lines 52-141), on the receiver at address `p`. -/
def loop (env : Env) (recurse : Nat → List String → Store → Option (Result × Store)) (p : Nat) :
    List String → List Artifact → List profilesv1.Artifact → Store → Option (Result × Store)
  | _, artifacts, [], σ => some ((artifacts, none), σ)
  | profileRepos, artifacts, artifact :: rest, σ =>
    match iteration env recurse p profileRepos artifacts artifact σ with
    | none => none
    | some (.ret r, σ) => some (r, σ)
    | some (.next profileRepos artifacts, σ) => loop env recurse p profileRepos artifacts rest σ

/-- `p.makeArtifacts(profileRepos, gitClient)` on the receiver at address `p`;
`fuel` bounds the depth of nested calls.  The range expression
`p.definition.Spec.Artifacts` is evaluated once, before the first iteration. -/
def makeArtifacts (env : Env) : Nat → Nat → List String → Store → Option (Result × Store)
  | 0, _, _, _ => none
  | fuel + 1, p, profileRepos, σ =>
    loop env (makeArtifacts env fuel) p profileRepos [] (σ.obj p).definition.Spec.Artifacts σ

/-- `MakeArtifacts(sub, gitClient, rootDir, gitRepoNamespace, gitRepoName)`
run in a store: the result and the store it leaves. -/
def MakeArtifacts (env : Env) (fuel : Nat) (sub : profilesv1.ProfileSubscription)
    (rootDir gitRepoNamespace gitRepoName : String) (σ : Store) : Option (Result × Store) :=
  let path := sub.Spec.Path
  let branchOrTag := if sub.Spec.Tag = "" then sub.Spec.Branch else sub.Spec.Tag
  match env.getProfileDefinition sub.Spec.ProfileURL branchOrTag path with
  | .error err => some (([], some (.getDefinition (.external err))), σ)
  | .ok definition =>
    let allocated := newProfile σ definition sub rootDir gitRepoNamespace gitRepoName
    let p := allocated.1
    makeArtifacts env fuel p [(allocated.2.obj p).profileRepo] allocated.2

/-- What a call may do to the store it is given, `p` being its receiver: it
allocates, and it leaves every other object that was there as it was. -/
def Frame (p : Nat) (σ σ' : Store) : Prop :=
  σ.size ≤ σ'.size ∧ ∀ b, b < σ.size → b ≠ p → σ'.obj b = σ.obj b

end heap

/-! ## Fixtures -/

namespace demo

def rootURL : String := "https://example.com/root"

/-- A leaf entry of kind kustomize. -/
def kustomize (name path : String) : profilesv1.Artifact :=
  { Name := name, Kind := profilesv1.KustomizeKind, Path := path, Chart := none,
    Profile := { URL := "", Branch := "", Version := "", Path := "" } }

/-- A leaf entry of kind helm-chart naming a remote chart. -/
def remoteChart (name : String) : profilesv1.Artifact :=
  { Name := name, Kind := profilesv1.HelmChartKind, Path := "",
    Chart := some { URL := "https://charts.example.com", Name := name },
    Profile := { URL := "", Branch := "", Version := "", Path := "" } }

/-- A nested-profile entry given by URL, branch and path. -/
def nested (name url branch path : String) : profilesv1.Artifact :=
  { Name := name, Kind := profilesv1.ProfileKind, Path := "", Chart := none,
    Profile := { URL := url, Branch := branch, Version := "", Path := path } }

/-- A nested-profile entry given by URL and version tag. -/
def nestedTag (name url version : String) : profilesv1.Artifact :=
  { Name := name, Kind := profilesv1.ProfileKind, Path := "", Chart := none,
    Profile := { URL := url, Branch := "", Version := version, Path := "" } }

/-- The definitions served by the demonstration Fetcher, by repository URL. -/
def definitions (url : String) : Option profilesv1.ProfileDefinition :=
  if url = "https://example.com/root" then
    some { Name := "nginx-1", Spec := { Artifacts :=
      [kustomize "foo" "overlay",
       nested "p" "https://example.com/p" "main" "p-path",
       remoteChart "redis"] } }
  else if url = "https://example.com/p" then
    some { Name := "p-def", Spec := { Artifacts :=
      [kustomize "a" "a-path",
       nested "q" "https://example.com/q" "main" "q-path",
       kustomize "k" "k-path"] } }
  else if url = "https://example.com/q" then
    some { Name := "q-def", Spec := { Artifacts := [kustomize "leaf" "leaf-path"] } }
  else if url = "https://example.com/self" then
    some { Name := "self-def", Spec := { Artifacts :=
      [kustomize "first" "first-path",
       nested "again" "https://example.com/self" "main" "self-path"] } }
  else if url = "https://example.com/deep" then
    some { Name := "deep-def", Spec := { Artifacts :=
      [nested "down" "https://example.com/back" "main" "back-path"] } }
  else if url = "https://example.com/back" then
    some { Name := "back-def", Spec := { Artifacts :=
      [nested "up" "https://example.com/deep" "main" "deep-path"] } }
  else if url = "https://example.com/twice" then
    some { Name := "twice-def", Spec := { Artifacts :=
      [nested "one" "https://example.com/q" "main" "q-path",
       nested "two" "https://example.com/q" "main" "q-path"] } }
  else if url = "https://example.com/odd" then
    some { Name := "odd-def", Spec := { Artifacts :=
      [kustomize "foo" "overlay",
       { kustomize "bar" "overlay" with Kind := "unknown" }] } }
  else if url = "https://example.com/outer" then
    some { Name := "outer-def", Spec := { Artifacts :=
      [kustomize "base" "base-path",
       nested "inner" "https://example.com/odd" "main" "odd-path"] } }
  else if url = "https://example.com/top" then
    some { Name := "top-def", Spec := { Artifacts :=
      [nested "lvl" "https://example.com/outer" "main" "outer-path"] } }
  else if url = "https://example.com/escape" then
    some { Name := "escape-def", Spec := { Artifacts := [kustomize "foo" "../../../etc"] } }
  else if url = "https://example.com/tagged" then
    some { Name := "tagged-def", Spec := { Artifacts :=
      [nestedTag "t" "https://example.com/q" "v1"] } }
  else none

/-- The demonstration collaborators: the Fetcher serves `definitions`
whatever the ref and the path, the Validator rejects the name `invalid`. -/
def env : Env where
  getProfileDefinition := fun url _ _ =>
    match definitions url with
    | some d => .ok d
    | none => .error "repository not found"
  Validate := fun artifact => if artifact.Name = "invalid" then some "invalid artifact" else none

/-- Collaborators with a Fetcher that looks at the path: the profile `q` at the
tag `v1` is served at the path `.` only; everything else is as in `env`. -/
def pathEnv : Env where
  getProfileDefinition := fun url ref path =>
    if url = "https://example.com/q" ∧ ref = "v1" ∧ path ≠ "." then
      .error ("no profile definition at path " ++ path)
    else env.getProfileDefinition url ref path
  Validate := env.Validate

/-- A branch subscription named `mysub` in namespace `default`. -/
def sub (url path : String) : profilesv1.ProfileSubscription :=
  { Name := "mysub", Namespace := "default",
    Spec := { ProfileURL := url, Branch := "main", Tag := "", Path := path } }

/-- A subscription of the profile `q` by tag, at the given path. -/
def tagSub (tag path : String) : profilesv1.ProfileSubscription :=
  { Name := "mysub", Namespace := "default",
    Spec := { ProfileURL := "https://example.com/q", Branch := "", Tag := tag, Path := path } }

/-- The profile of a subscription, its definition left empty. -/
def profileOf (s : profilesv1.ProfileSubscription) : Profile :=
  newProfile { Name := "", Spec := { Artifacts := [] } } s "root" "flux-system" "repo"

/-- A placeholder arrival, the value of a failed lookup. -/
def noArrival : Arrival :=
  { fuel := 0
    st := { p := newProfile { Name := "", Spec := { Artifacts := [] } } (sub "" "") "" "" "",
            profileRepos := [], artifacts := [] }
    artifact := kustomize "" ""
    ancestors := []
    nesting := [] }

/-- The arrival at the entry addressed by `path` when the profile at `url` is
resolved with the given git-source, nesting followed three levels deep. -/
def arrival (url path : String) (gitRepoNamespace gitRepoName : String) (entry : List Nat) : Arrival :=
  (reach env 3 (sub url path) "root" gitRepoNamespace gitRepoName entry).getD noArrival

/-- The definition served for a URL, empty if there is none. -/
def definitionAt (url : String) : profilesv1.ProfileDefinition :=
  (definitions url).getD { Name := "", Spec := { Artifacts := [] } }

/-- The profile of the demonstration root: subscription `mysub`, definition
`nginx-1`. -/
def rootProfile : Profile :=
  newProfile (definitionAt rootURL) (sub rootURL "nginx") "root" "flux-system" "repo"

/-- A store in which two objects are allocated already, both with a non-empty
nested-name prefix. -/
def store : Store :=
  { size := 2
    obj := fun _ => { rootProfile with nestedName := "stale" } }

/-- The store the first invocation on the demonstration root leaves, started
in `store`. -/
def storeAfter : Store :=
  ((heap.MakeArtifacts env 3 (sub rootURL "nginx") "root" "flux-system" "repo" store).getD
    (([], none), store)).2

/-- A store holding one object: the profile `p` as a nested call receives it,
under the prefix `p`. -/
def nestedStore : Store :=
  { size := 1
    obj := fun _ =>
      { newProfile (definitionAt "https://example.com/p") (sub "https://example.com/p" "p-path")
          "root" "flux-system" "repo" with nestedName := "p" } }

/-- What `MakeArtifacts` returns for the demonstration root profile. -/
def resolved : List Artifact :=
  ((MakeArtifacts env 3 (sub rootURL "nginx") "root" "flux-system" "repo").getD ([], none)).1

end demo

end profile

/-! ## Basic facts about one iteration and the loop -/

namespace profile

theorem helmChartCase_ret {st : LoopState} {artifact : profilesv1.Artifact} {a : Artifact} {r : Result}
    (h : helmChartCase st artifact a = .ret r) :
    r = ([], some .missingSource) ∧ artifact.Path ≠ "" ∧
      st.p.gitRepositoryNamespace = "" ∧ st.p.gitRepositoryName = "" := by
  unfold helmChartCase at h
  by_cases hp : artifact.Path ≠ ""
  · by_cases hg : st.p.gitRepositoryNamespace = "" ∧ st.p.gitRepositoryName = ""
    · simp only [hp, hg, and_self, if_true, ne_eq, not_false_eq_true] at h
      injection h with h
      exact ⟨h.symm, hp, hg.1, hg.2⟩
    · simp only [hp, hg, if_true, if_false, ne_eq, not_false_eq_true] at h
      cases h
  · simp only [hp, if_false] at h
    cases h

theorem kustomizeCase_ret {st : LoopState} {artifact : profilesv1.Artifact} {a : Artifact} {r : Result}
    (h : kustomizeCase st artifact a = .ret r) :
    r = ([], some .missingSource) ∧
      st.p.gitRepositoryNamespace = "" ∧ st.p.gitRepositoryName = "" := by
  unfold kustomizeCase at h
  by_cases hg : st.p.gitRepositoryNamespace = "" ∧ st.p.gitRepositoryName = ""
  · simp only [hg, and_self, if_true] at h
    injection h with h
    exact ⟨h.symm, hg.1, hg.2⟩
  · simp only [hg, if_false] at h
    cases h

theorem helmChartCase_next {st st' : LoopState} {artifact : profilesv1.Artifact} {a : Artifact}
    (h : helmChartCase st artifact a = .next st') :
    ∃ art, st' = { st with artifacts := st.artifacts ++ [art] } := by
  unfold helmChartCase at h
  by_cases hp : artifact.Path ≠ ""
  · by_cases hg : st.p.gitRepositoryNamespace = "" ∧ st.p.gitRepositoryName = ""
    · simp only [hp, hg, and_self, if_true, ne_eq, not_false_eq_true] at h
      cases h
    · simp only [hp, hg, if_true, if_false, ne_eq, not_false_eq_true] at h
      injection h with h
      exact ⟨_, h.symm⟩
  · simp only [hp, if_false] at h
    injection h with h
    exact ⟨_, h.symm⟩

theorem kustomizeCase_next {st st' : LoopState} {artifact : profilesv1.Artifact} {a : Artifact}
    (h : kustomizeCase st artifact a = .next st') :
    ∃ art, st' = { st with artifacts := st.artifacts ++ [art] } := by
  unfold kustomizeCase at h
  by_cases hg : st.p.gitRepositoryNamespace = "" ∧ st.p.gitRepositoryName = ""
  · simp only [hg, and_self, if_true] at h
    cases h
  · simp only [hg, if_false] at h
    injection h with h
    exact ⟨_, h.symm⟩

theorem nestedCall_error {env : Env} {st : LoopState} {artifact : profilesv1.Artifact} {r : Result}
    (h : nestedCall env st artifact = .error r) : ∃ e, r = ([], some e) := by
  unfold nestedCall at h
  dsimp only at h
  split at h
  · injection h with h
    exact ⟨_, h.symm⟩
  · split at h
    · injection h with h
      exact ⟨_, h.symm⟩
    · cases h

theorem nestedCall_ok {env : Env} {st : LoopState} {artifact : profilesv1.Artifact}
    {q : Profile} {repos : List String}
    (h : nestedCall env st artifact = .ok (q, repos)) :
    ∃ d, env.getProfileDefinition artifact.Profile.URL (nestedBranchOrTag artifact)
          (nestedFetchPath artifact) = .ok d ∧
      q = nestedSub st.p artifact d ∧
      containsKey st.profileRepos q.profileRepo = false ∧
      repos = st.profileRepos ++ [q.profileRepo] := by
  unfold nestedCall at h
  dsimp only at h
  split at h
  · cases h
  · rename_i d hd
    split at h
    · cases h
    · rename_i hc
      injection h with h
      injection h with h1 h2
      subst h1
      exact ⟨d, hd, rfl, by simpa using hc, h2.symm⟩

theorem profileCase_ret {env : Env} {recurse : Profile → List String → Option Result}
    {st : LoopState} {artifact : profilesv1.Artifact} {r : Result}
    (h : profileCase env recurse st artifact = some (.ret r)) : ∃ e, r = ([], some e) := by
  unfold profileCase at h
  split at h
  · rename_i r' hr
    injection h with h
    injection h with h
    subst h
    exact nestedCall_error hr
  · split at h
    · cases h
    · injection h with h
      injection h with h
      exact ⟨_, h.symm⟩
    · injection h with h
      cases h

theorem iteration_ret {env : Env} {recurse : Profile → List String → Option Result}
    {st : LoopState} {artifact : profilesv1.Artifact} {r : Result}
    (h : iteration env recurse st artifact = some (.ret r)) : ∃ e, r = ([], some e) := by
  unfold iteration at h
  split at h
  · injection h with h
    injection h with h
    exact ⟨_, h.symm⟩
  · simp only at h
    split_ifs at h
    · exact profileCase_ret h
    · injection h with h
      exact ⟨_, (helmChartCase_ret h).1⟩
    · injection h with h
      exact ⟨_, (kustomizeCase_ret h).1⟩
    · injection h with h
      injection h with h
      exact ⟨_, h.symm⟩

theorem loop_shape {env : Env} {recurse : Profile → List String → Option Result} :
    ∀ (l : List profilesv1.Artifact) (st : LoopState) (arts : List Artifact) (err : Option Err),
      loop env recurse st l = some (arts, err) → err = none ∨ (arts = [] ∧ err ≠ none)
  | [], st, arts, err, h => by
    simp only [loop] at h
    injection h with h
    injection h with h1 h2
    exact Or.inl h2.symm
  | a :: rest, st, arts, err, h => by
    simp only [loop] at h
    split at h
    · cases h
    · rename_i r hr
      injection h with h
      obtain ⟨e, he⟩ := iteration_ret hr
      rw [he] at h
      injection h with h1 h2
      exact Or.inr ⟨h1.symm, by rw [← h2]; simp⟩
    · exact loop_shape rest _ arts err h

theorem makeArtifacts_shape {env : Env} {fuel : Nat} {p : Profile} {repos : List String}
    {arts : List Artifact} {err : Option Err}
    (h : p.makeArtifacts env fuel repos = some (arts, err)) :
    err = none ∨ (arts = [] ∧ err ≠ none) := by
  cases fuel with
  | zero => simp [Profile.makeArtifacts] at h
  | succ n =>
    simp only [Profile.makeArtifacts] at h
    exact loop_shape _ _ _ _ h

@[simp] theorem qualify_Kind (p : Profile) (a : profilesv1.Artifact) : (qualify p a).Kind = a.Kind := by
  unfold qualify; split <;> rfl

@[simp] theorem qualify_Profile (p : Profile) (a : profilesv1.Artifact) :
    (qualify p a).Profile = a.Profile := by
  unfold qualify; split <;> rfl

@[simp] theorem qualify_Path (p : Profile) (a : profilesv1.Artifact) : (qualify p a).Path = a.Path := by
  unfold qualify; split <;> rfl

@[simp] theorem qualify_Chart (p : Profile) (a : profilesv1.Artifact) :
    (qualify p a).Chart = a.Chart := by
  unfold qualify; split <;> rfl

@[simp] theorem nestedBranchOrTag_qualify (p : Profile) (a : profilesv1.Artifact) :
    nestedBranchOrTag (qualify p a) = nestedBranchOrTag a := by
  simp [nestedBranchOrTag]

@[simp] theorem nestedFetchPath_qualify (p : Profile) (a : profilesv1.Artifact) :
    nestedFetchPath (qualify p a) = nestedFetchPath a := by
  simp [nestedFetchPath]

@[simp] theorem nestedSubscription_qualify (sub : profilesv1.ProfileSubscription) (p : Profile)
    (a : profilesv1.Artifact) : nestedSubscription sub (qualify p a) = nestedSubscription sub a := by
  simp [nestedSubscription]

theorem containsKey_iff (list : List String) (key : String) :
    containsKey list key = true ↔ key ∈ list := by
  induction list with
  | nil => simp [containsKey]
  | cons v rest ih =>
    by_cases hv : v = key
    · simp [containsKey, hv]
    · have hv' : ¬ key = v := fun h => hv h.symm
      simp [containsKey, hv, hv', ih]

/-- What an iteration that goes on has done: the entry passed validation, and
either it is a nested profile whose call returned without error, or it is a
leaf that added one artifact. -/
theorem iteration_next {env : Env} {recurse : Profile → List String → Option Result}
    {st st' : LoopState} {artifact : profilesv1.Artifact}
    (h : iteration env recurse st artifact = some (.next st')) :
    env.Validate artifact = none ∧
    ((artifact.Kind = profilesv1.ProfileKind ∧ ∃ q repos nestedArtifacts,
        nestedCall env st (qualify st.p artifact) = .ok (q, repos) ∧
        recurse q repos = some (nestedArtifacts, none) ∧
        st' = { p := { st.p with nestedName := "" }, profileRepos := repos,
                artifacts := st.artifacts ++ nestedArtifacts }) ∨
     (artifact.Kind ≠ profilesv1.ProfileKind ∧
        (artifact.Kind = profilesv1.HelmChartKind ∨ artifact.Kind = profilesv1.KustomizeKind) ∧
        ∃ art, st' = { st with artifacts := st.artifacts ++ [art] })) := by
  unfold iteration at h
  split at h
  · cases h
  · rename_i hv
    refine ⟨hv, ?_⟩
    simp only [qualify_Kind] at h
    split_ifs at h with h1 h2 h3
    · left
      refine ⟨h1, ?_⟩
      unfold profileCase at h
      split at h
      · cases h
      · rename_i q repos hq
        split at h
        · cases h
        · cases h
        · rename_i nestedArtifacts hr
          injection h with h
          injection h with h
          exact ⟨q, repos, nestedArtifacts, hq, hr, h.symm⟩
    · right
      injection h with h
      exact ⟨h1, Or.inl h2, helmChartCase_next h⟩
    · right
      injection h with h
      exact ⟨h1, Or.inr h3, kustomizeCase_next h⟩
    · injection h with h
      cases h

/-- The frame of an iteration that goes on: the profile changes at most in its
nested-name prefix, `profileRepos` and `artifacts` only grow. -/
theorem iteration_next_frame {env : Env} {recurse : Profile → List String → Option Result}
    {st st' : LoopState} {artifact : profilesv1.Artifact}
    (h : iteration env recurse st artifact = some (.next st')) :
    (∃ n, st'.p = { st.p with nestedName := n }) ∧
    (∃ extra, st'.profileRepos = st.profileRepos ++ extra) ∧
    (∃ more, st'.artifacts = st.artifacts ++ more) := by
  obtain ⟨_, h | h⟩ := iteration_next h
  · obtain ⟨_, q, repos, nestedArtifacts, hq, _, rfl⟩ := h
    obtain ⟨d, _, _, _, hrepos⟩ := nestedCall_ok hq
    exact ⟨⟨"", rfl⟩, ⟨[q.profileRepo], hrepos⟩, ⟨nestedArtifacts, rfl⟩⟩
  · obtain ⟨_, _, art, rfl⟩ := h
    exact ⟨⟨st.p.nestedName, rfl⟩, ⟨[], by simp⟩, ⟨[art], rfl⟩⟩

theorem loopUpTo_frame {env : Env} {recurse : Profile → List String → Option Result} :
    ∀ (l : List profilesv1.Artifact) (i : Nat) (st st' : LoopState) (a : profilesv1.Artifact),
      loopUpTo env recurse st l i = some (st', a) →
      (∃ n, st'.p = { st.p with nestedName := n }) ∧
      (∃ extra, st'.profileRepos = st.profileRepos ++ extra)
  | [], _, _, _, _, h => by simp [loopUpTo] at h
  | x :: _, 0, st, st', a, h => by
    simp only [loopUpTo] at h
    injection h with h
    injection h with h1 h2
    subst h1
    exact ⟨⟨st.p.nestedName, rfl⟩, ⟨[], by simp⟩⟩
  | x :: rest, i + 1, st, st', a, h => by
    simp only [loopUpTo] at h
    split at h
    · rename_i st1 hit
      obtain ⟨⟨n1, hp1⟩, ⟨e1, hr1⟩, _⟩ := iteration_next_frame hit
      obtain ⟨⟨n2, hp2⟩, ⟨e2, hr2⟩⟩ := loopUpTo_frame rest i st1 st' a h
      refine ⟨⟨n2, ?_⟩, ⟨e1 ++ e2, ?_⟩⟩
      · rw [hp2, hp1]
      · rw [hr2, hr1, List.append_assoc]
    · cases h

/-- If the loop arrives at an entry and the iteration there returns, the loop
returns that result. -/
theorem loop_of_loopUpTo {env : Env} {recurse : Profile → List String → Option Result} :
    ∀ (l : List profilesv1.Artifact) (i : Nat) (st st' : LoopState) (a : profilesv1.Artifact)
      (r : Result), loopUpTo env recurse st l i = some (st', a) →
      iteration env recurse st' a = some (.ret r) → loop env recurse st l = some r
  | [], _, _, _, _, _, h, _ => by simp [loopUpTo] at h
  | x :: _, 0, st, st', a, r, h, hit => by
    simp only [loopUpTo] at h
    injection h with h
    injection h with h1 h2
    subst h1; subst h2
    simp only [loop, hit]
  | x :: rest, i + 1, st, st', a, r, h, hit => by
    simp only [loopUpTo] at h
    split at h
    · rename_i st1 hit1
      simp only [loop, hit1]
      exact loop_of_loopUpTo rest i st1 st' a r h hit
    · cases h

/-- If the iteration at a reached entry returns, the enclosing call returns
an error and no artifacts; the error has the root cause of the one the
iteration returned. -/
theorem arrive_fail (env : Env) :
    ∀ (fuel : Nat) (p : Profile) (repos anc nest : List String) (path : List Nat) (arr : Arrival)
      (r : Result), p.arrive env fuel repos anc nest path = some arr →
      arr.iteration env = some (.ret r) →
      ∃ e e0, p.makeArtifacts env fuel repos = some ([], some e) ∧ r = ([], some e0) ∧
        e.rootCause = e0.rootCause
  | 0, _, _, _, _, _, _, _, h, _ => by simp [Profile.arrive] at h
  | _ + 1, _, _, _, _, [], _, _, h, _ => by simp [Profile.arrive] at h
  | fuel + 1, p, repos, anc, nest, i :: rest, arr, r, h, hit => by
    simp only [Profile.arrive] at h
    split at h
    · cases h
    · rename_i st a hup
      split at h
      · injection h with h
        subst h
        obtain ⟨e0, he0⟩ := iteration_ret hit
        refine ⟨e0, e0, ?_, he0, rfl⟩
        simp only [Profile.makeArtifacts]
        rw [← he0]
        exact loop_of_loopUpTo _ _ _ _ _ _ hup hit
      · rename_i j rest'
        split_ifs at h with hc
        split at h
        · rename_i q repos' hq
          obtain ⟨e, e0, hm, hr, hroot⟩ :=
            arrive_fail env fuel q repos' _ _ (j :: rest') arr r h hit
          refine ⟨.nestedProfile (qualify st.p a).Name e, e0, ?_, hr, ?_⟩
          · simp only [Profile.makeArtifacts]
            apply loop_of_loopUpTo _ _ _ _ _ _ hup
            unfold iteration
            simp only [hc.1, hc.2, if_true]
            unfold profileCase
            simp only [hq, hm]
          · simpa [Err.rootCause] using hroot
        · cases h

/-- The ancestors of a reached entry are all in the `profileRepos` list its
loop holds. -/
theorem arrive_ancestors (env : Env) :
    ∀ (fuel : Nat) (p : Profile) (repos anc nest : List String) (path : List Nat) (arr : Arrival),
      p.arrive env fuel repos anc nest path = some arr → anc ⊆ repos →
      arr.ancestors ⊆ arr.st.profileRepos
  | 0, _, _, _, _, _, _, h, _ => by simp [Profile.arrive] at h
  | _ + 1, _, _, _, _, [], _, h, _ => by simp [Profile.arrive] at h
  | fuel + 1, p, repos, anc, nest, i :: rest, arr, h, hsub => by
    simp only [Profile.arrive] at h
    split at h
    · cases h
    · rename_i st a hup
      obtain ⟨_, ⟨extra, hextra⟩⟩ := loopUpTo_frame _ _ _ _ _ hup
      simp only at hextra
      split at h
      · injection h with h
        subst h
        simp only
        rw [hextra]
        exact fun x hx => List.mem_append_left _ (hsub hx)
      · rename_i j rest'
        split_ifs at h with hc
        split at h
        · rename_i q repos' hq
          obtain ⟨d, _, _, _, hrepos⟩ := nestedCall_ok hq
          apply arrive_ancestors env fuel q repos' _ _ (j :: rest') arr h
          intro x hx
          rw [hrepos, hextra]
          rcases List.mem_append.1 hx with hx | hx
          · exact List.mem_append_left _ (List.mem_append_left _ (hsub hx))
          · exact List.mem_append_right _ hx
        · cases h

/-! ## More fuel does not change a result -/

theorem profileCase_mono {env : Env} {recurse recurse' : Profile → List String → Option Result}
    (hrec : ∀ q repos r, recurse q repos = some r → recurse' q repos = some r)
    {st : LoopState} {artifact : profilesv1.Artifact} {s : Step}
    (h : profileCase env recurse st artifact = some s) :
    profileCase env recurse' st artifact = some s := by
  unfold profileCase at h ⊢
  split at h
  · rename_i r hr
    simp only [hr, h]
  · rename_i q repos hq
    simp only [hq]
    cases hcall : recurse q repos with
    | none => simp [hcall] at h
    | some r =>
      rw [hcall] at h
      rw [hrec q repos r hcall]
      exact h

theorem iteration_mono {env : Env} {recurse recurse' : Profile → List String → Option Result}
    (hrec : ∀ q repos r, recurse q repos = some r → recurse' q repos = some r)
    {st : LoopState} {artifact : profilesv1.Artifact} {s : Step}
    (h : iteration env recurse st artifact = some s) :
    iteration env recurse' st artifact = some s := by
  unfold iteration at h ⊢
  split at h
  · rename_i e he
    simp only [he, h]
  · rename_i hv
    simp only [hv]
    simp only at h
    split_ifs at h with h1 h2 h3
    · rw [if_pos h1]
      exact profileCase_mono hrec h
    · rw [if_neg h1, if_pos h2]
      exact h
    · rw [if_neg h1, if_neg h2, if_pos h3]
      exact h
    · rw [if_neg h1, if_neg h2, if_neg h3]
      exact h

theorem loop_mono {env : Env} {recurse recurse' : Profile → List String → Option Result}
    (hrec : ∀ q repos r, recurse q repos = some r → recurse' q repos = some r) :
    ∀ (l : List profilesv1.Artifact) (st : LoopState) (r : Result),
      loop env recurse st l = some r → loop env recurse' st l = some r
  | [], _, _, h => by simpa [loop] using h
  | a :: rest, st, r, h => by
    simp only [loop] at h ⊢
    cases hit : iteration env recurse st a with
    | none => simp [hit] at h
    | some s =>
      rw [hit] at h
      rw [iteration_mono hrec hit]
      cases s with
      | ret r' => exact h
      | next st' => exact loop_mono hrec rest st' r h

theorem makeArtifacts_succ (env : Env) :
    ∀ (fuel : Nat) (p : Profile) (repos : List String) (r : Result),
      p.makeArtifacts env fuel repos = some r → p.makeArtifacts env (fuel + 1) repos = some r
  | 0, _, _, _, h => by simp [Profile.makeArtifacts] at h
  | fuel + 1, p, repos, r, h => by
    simp only [Profile.makeArtifacts] at h ⊢
    exact loop_mono (fun q repos' r' hq => by
      have := makeArtifacts_succ env fuel q repos' r' hq
      simpa only [Profile.makeArtifacts] using this) _ _ _ h

/-- A result obtained with some fuel is the result with any larger fuel. -/
theorem makeArtifacts_mono (env : Env) {fuel fuel' : Nat} (hle : fuel ≤ fuel') {p : Profile}
    {repos : List String} {r : Result} (h : p.makeArtifacts env fuel repos = some r) :
    p.makeArtifacts env fuel' repos = some r := by
  induction hle with
  | refl => exact h
  | step _ ih => exact makeArtifacts_succ env _ _ _ _ ih

theorem MakeArtifacts_mono (env : Env) {fuel fuel' : Nat} (hle : fuel ≤ fuel')
    {sub : profilesv1.ProfileSubscription} {rootDir ns name : String} {r : Result}
    (h : MakeArtifacts env fuel sub rootDir ns name = some r) :
    MakeArtifacts env fuel' sub rootDir ns name = some r := by
  unfold MakeArtifacts at h ⊢
  dsimp only at h ⊢
  split
  · rename_i e he
    rw [he] at h
    exact h
  · rename_i d hd
    rw [hd] at h
    exact makeArtifacts_mono env hle h

/-- If the iteration at an entry reached by `MakeArtifacts` returns, then
`MakeArtifacts` returns an error and no artifacts, with that root cause, for
the fuel at hand and for any larger fuel. -/
theorem reach_fail (env : Env) {fuel : Nat} {sub : profilesv1.ProfileSubscription}
    {rootDir ns name : String} {path : List Nat} {arr : Arrival} {r : Result}
    (h : reach env fuel sub rootDir ns name path = some arr)
    (hit : arr.iteration env = some (.ret r)) :
    ∃ e e0, r = ([], some e0) ∧ e.rootCause = e0.rootCause ∧
      ∀ fuel', fuel ≤ fuel' → MakeArtifacts env fuel' sub rootDir ns name = some ([], some e) := by
  unfold reach at h
  dsimp only at h
  split at h
  · cases h
  · rename_i d hd
    obtain ⟨e, e0, hm, hr, hroot⟩ := arrive_fail env _ _ _ _ _ _ _ _ h hit
    refine ⟨e, e0, hr, hroot, fun fuel' hle => ?_⟩
    apply MakeArtifacts_mono env hle
    unfold MakeArtifacts
    dsimp only
    rw [hd]
    exact hm

theorem reach_ancestors (env : Env) {fuel : Nat} {sub : profilesv1.ProfileSubscription}
    {rootDir ns name : String} {path : List Nat} {arr : Arrival}
    (h : reach env fuel sub rootDir ns name path = some arr) :
    arr.ancestors ⊆ arr.st.profileRepos := by
  unfold reach at h
  dsimp only at h
  split at h
  · cases h
  · exact arrive_ancestors env _ _ _ _ _ _ _ h (fun x hx => hx)

/-! ## C1: the output is the flattening of the definition -/

theorem loop_flatten (env : Env) (rootDir ns name : String)
    (recurse : Profile → List String → Option Result)
    (fl : profilesv1.ProfileSubscription → profilesv1.ProfileDefinition → List Leaf)
    (hrec : ∀ (q : Profile) (repos : List String) (arts : List Artifact),
      q.rootDir = rootDir → q.gitRepositoryNamespace = ns → q.gitRepositoryName = name →
      recurse q repos = some (arts, none) →
      List.Forall₂ (BuiltFrom env rootDir ns name) arts (fl q.subscription q.definition)) :
    ∀ (l : List profilesv1.Artifact) (st : LoopState) (arts : List Artifact),
      st.p.rootDir = rootDir → st.p.gitRepositoryNamespace = ns → st.p.gitRepositoryName = name →
      loop env recurse st l = some (arts, none) →
      ∃ more, arts = st.artifacts ++ more ∧
        List.Forall₂ (BuiltFrom env rootDir ns name) more
          (flattenEntries env fl st.p.subscription st.p.definition l)
  | [], st, arts, _, _, _, h => by
    simp only [loop] at h
    injection h with h
    injection h with h1 _
    exact ⟨[], by simp [h1], by simp [flattenEntries]⟩
  | a :: rest, st, arts, h1, h2, h3, h => by
    simp only [loop] at h
    split at h
    · cases h
    · rename_i r hr
      injection h with h
      obtain ⟨e, he⟩ := iteration_ret hr
      rw [he] at h
      cases h
    · rename_i st1 hit
      obtain ⟨hv, hcase | hcase⟩ := iteration_next hit
      · obtain ⟨hk, q, repos, nestedArtifacts, hq, hcall, rfl⟩ := hcase
        obtain ⟨d, hd, hqd, _, _⟩ := nestedCall_ok hq
        simp only [qualify_Profile, nestedBranchOrTag_qualify, nestedFetchPath_qualify] at hd
        obtain ⟨more, hmore, hall⟩ := loop_flatten env rootDir ns name recurse fl hrec rest
          { p := { st.p with nestedName := "" }, profileRepos := repos,
            artifacts := st.artifacts ++ nestedArtifacts } arts h1 h2 h3 h
        have hsub : q.subscription = nestedSubscription st.p.subscription a := by
          rw [hqd]; simp [nestedSub, newProfile]
        have hdef : q.definition = d := by rw [hqd]; simp [nestedSub, newProfile]
        have hnested := hrec q repos nestedArtifacts (by rw [hqd]; simpa [nestedSub, newProfile] using h1)
          (by rw [hqd]; simpa [nestedSub, newProfile] using h2)
          (by rw [hqd]; simpa [nestedSub, newProfile] using h3) hcall
        rw [hsub, hdef] at hnested
        refine ⟨nestedArtifacts ++ more, by simpa [List.append_assoc] using hmore, ?_⟩
        simp only [flattenEntries, hk, if_true, hd]
        exact List.rel_append hnested hall
      · obtain ⟨hk, hleaf, art, rfl⟩ := hcase
        obtain ⟨more, hmore, hall⟩ := loop_flatten env rootDir ns name recurse fl hrec rest
          { st with artifacts := st.artifacts ++ [art] } arts h1 h2 h3 h
        refine ⟨[art] ++ more, by simpa [List.append_assoc] using hmore, ?_⟩
        simp only [flattenEntries, hk, if_false]
        refine List.rel_append (List.Forall₂.cons ?_ List.Forall₂.nil) hall
        exact ⟨hleaf, hk, st, recurse, rfl, rfl, h1, h2, h3, hit⟩

theorem makeArtifacts_flatten (env : Env) (rootDir ns name : String) :
    ∀ (fuel : Nat) (p : Profile) (repos : List String) (arts : List Artifact),
      p.rootDir = rootDir → p.gitRepositoryNamespace = ns → p.gitRepositoryName = name →
      p.makeArtifacts env fuel repos = some (arts, none) →
      List.Forall₂ (BuiltFrom env rootDir ns name) arts (flatten env fuel p.subscription p.definition)
  | 0, _, _, _, _, _, _, h => by simp [Profile.makeArtifacts] at h
  | fuel + 1, p, repos, arts, h1, h2, h3, h => by
    simp only [Profile.makeArtifacts] at h
    obtain ⟨more, hmore, hall⟩ := loop_flatten env rootDir ns name (Profile.makeArtifacts env fuel)
      (flatten env fuel) (makeArtifacts_flatten env rootDir ns name fuel) _ _ arts h1 h2 h3 h
    simp only [List.nil_append] at hmore
    subst hmore
    simpa only [flatten] using hall

/-- C1.  Whenever `MakeArtifacts` succeeds, the root definition was fetched and
the returned artifact sequence matches, element by element and in order, the
depth-first flattening of that definition in document order: every helm-chart
or kustomize entry stands for exactly one artifact (the one the loop body
builds for it in its enclosing profile), and a nested-profile entry stands for
no artifact of its own but for the flattened leaves of its nested definition,
in place.  The flattening is taken to the nesting depth of the call or to any
greater depth. -/
theorem MakeArtifacts_flattens_in_document_order (env : Env) (fuel : Nat)
    (sub : profilesv1.ProfileSubscription) (rootDir gitRepoNamespace gitRepoName : String)
    (arts : List Artifact)
    (h : MakeArtifacts env fuel sub rootDir gitRepoNamespace gitRepoName = some (arts, none)) :
    ∃ definition,
      env.getProfileDefinition sub.Spec.ProfileURL
        (if sub.Spec.Tag = "" then sub.Spec.Branch else sub.Spec.Tag) sub.Spec.Path = .ok definition ∧
      ∀ depth, fuel ≤ depth →
        List.Forall₂ (BuiltFrom env rootDir gitRepoNamespace gitRepoName) arts
          (flatten env depth sub definition) := by
  have hall : ∀ depth, fuel ≤ depth →
      MakeArtifacts env depth sub rootDir gitRepoNamespace gitRepoName = some (arts, none) :=
    fun depth hle => MakeArtifacts_mono env hle h
  unfold MakeArtifacts at hall
  dsimp only at hall
  split at hall
  · have := hall fuel (Nat.le_refl _)
    cases this
  · rename_i d hd
    refine ⟨d, hd, fun depth hle => ?_⟩
    exact makeArtifacts_flatten env rootDir gitRepoNamespace gitRepoName depth _ _ arts rfl rfl rfl
      (hall depth hle)

/-- C1 at the demonstration root profile: five leaves, two of them inside
nested profiles, come out in document order. -/
theorem MakeArtifacts_flattens_in_document_order_witness :
    MakeArtifacts demo.env 3 (demo.sub demo.rootURL "nginx") "root" "flux-system" "repo"
        = some (demo.resolved, none) ∧
      demo.resolved.map (fun a => a.PathsToCopy) =
        [["overlay"], ["a-path"], ["leaf-path"], ["k-path"], []] ∧
      (flatten demo.env 3 (demo.sub demo.rootURL "nginx") (demo.definitionAt demo.rootURL)).map
          (fun l => (l.definition.Name, l.artifact.Name))
        = [("nginx-1", "foo"), ("p-def", "a"), ("q-def", "leaf"), ("p-def", "k"), ("nginx-1", "redis")] ∧
      ∃ definition,
        demo.env.getProfileDefinition demo.rootURL "main" "nginx" = .ok definition ∧
        ∀ depth, 3 ≤ depth →
          List.Forall₂ (BuiltFrom demo.env "root" "flux-system" "repo") demo.resolved
            (flatten demo.env depth (demo.sub demo.rootURL "nginx") definition) :=
  ⟨by decide, by decide, by decide,
    MakeArtifacts_flattens_in_document_order demo.env 3 (demo.sub demo.rootURL "nginx") "root"
      "flux-system" "repo" demo.resolved (by decide)⟩

/-! ## C2: a nested profile whose key is the key of an ancestor is rejected -/

/-- The iteration on a validated nested-profile entry whose definition is
fetched and whose key is already in `profileRepos` returns the
cyclic-reference error. -/
theorem iteration_recursive {env : Env} {recurse : Profile → List String → Option Result}
    {st : LoopState} {artifact : profilesv1.Artifact} {nestedDef : profilesv1.ProfileDefinition}
    (hvalid : env.Validate artifact = none)
    (hkind : artifact.Kind = profilesv1.ProfileKind)
    (hfetch : env.getProfileDefinition artifact.Profile.URL (nestedBranchOrTag artifact)
      (nestedFetchPath artifact) = .ok nestedDef)
    (hkey : (nestedSub st.p (qualify st.p artifact) nestedDef).profileRepo ∈ st.profileRepos) :
    iteration env recurse st artifact =
      some (.ret ([], some (.recursive artifact.Profile.URL artifact.Profile.Branch))) := by
  unfold iteration
  simp only [hvalid, qualify_Kind, hkind, if_true]
  unfold profileCase nestedCall
  simp only [qualify_Profile, nestedBranchOrTag_qualify, nestedFetchPath_qualify, hfetch,
    (containsKey_iff _ _).2 hkey, if_true]

theorem cycle_rejected (env : Env) {fuel : Nat} {sub : profilesv1.ProfileSubscription}
    {rootDir ns name : String} {path : List Nat} {arr : Arrival}
    {nestedDef : profilesv1.ProfileDefinition}
    (hreach : reach env fuel sub rootDir ns name path = some arr)
    (hvalid : env.Validate arr.artifact = none)
    (hkind : arr.artifact.Kind = profilesv1.ProfileKind)
    (hfetch : env.getProfileDefinition arr.artifact.Profile.URL (nestedBranchOrTag arr.artifact)
      (nestedFetchPath arr.artifact) = .ok nestedDef)
    (hkey : (nestedSub arr.st.p (qualify arr.st.p arr.artifact) nestedDef).profileRepo
      ∈ arr.st.profileRepos) :
    ∃ e, e.rootCause = .recursive arr.artifact.Profile.URL arr.artifact.Profile.Branch ∧
      ∀ fuel', fuel ≤ fuel' → MakeArtifacts env fuel' sub rootDir ns name = some ([], some e) := by
  obtain ⟨e, e0, hr, hroot, hall⟩ := reach_fail env hreach
    (iteration_recursive hvalid hkind hfetch hkey)
  injection hr with _ hr
  injection hr with hr
  subst hr
  exact ⟨e, by simpa [Err.rootCause] using hroot, hall⟩

/-- C2.  Let a resolution reach a nested-profile entry (the entries before it
resolve, its own validation passes) whose definition the Fetcher returns and
whose repo key, the `profileRepo` of its nested subscription, is the key of the
root profile or of a profile entered on the way to it.  Then `MakeArtifacts`
returns no artifacts and an error whose cause is the cyclic-reference error
naming the entry's URL and branch, with the fuel at hand and with any larger
fuel. -/
theorem MakeArtifacts_rejects_ancestor_cycle (env : Env) (fuel : Nat)
    (sub : profilesv1.ProfileSubscription) (rootDir gitRepoNamespace gitRepoName : String)
    (path : List Nat) (arr : Arrival) (nestedDef : profilesv1.ProfileDefinition)
    (hreach : reach env fuel sub rootDir gitRepoNamespace gitRepoName path = some arr)
    (hvalid : env.Validate arr.artifact = none)
    (hkind : arr.artifact.Kind = profilesv1.ProfileKind)
    (hfetch : env.getProfileDefinition arr.artifact.Profile.URL (nestedBranchOrTag arr.artifact)
      (nestedFetchPath arr.artifact) = .ok nestedDef)
    (hkey : (nestedSub arr.st.p (qualify arr.st.p arr.artifact) nestedDef).profileRepo
      ∈ arr.ancestors) :
    ∃ e, e.rootCause = .recursive arr.artifact.Profile.URL arr.artifact.Profile.Branch ∧
      ∀ fuel', fuel ≤ fuel' →
        MakeArtifacts env fuel' sub rootDir gitRepoNamespace gitRepoName = some ([], some e) :=
  cycle_rejected env hreach hvalid hkind hfetch (reach_ancestors env hreach hkey)

/-- C2 at a profile two levels down that points back at the root: the root
`deep` nests `back`, which nests `deep` again. -/
theorem MakeArtifacts_rejects_ancestor_cycle_witness :
    reach demo.env 3 (demo.sub "https://example.com/deep" "deep-path") "root" "" "" [0, 0]
        = some (demo.arrival "https://example.com/deep" "deep-path" "" "" [0, 0]) ∧
      (demo.arrival "https://example.com/deep" "deep-path" "" "" [0, 0]).ancestors
        = ["https://example.com/deep:main:deep-path", "https://example.com/back:main:back-path"] ∧
      ∃ e, e.rootCause = .recursive "https://example.com/deep" "main" ∧
        ∀ fuel', 3 ≤ fuel' →
          MakeArtifacts demo.env fuel' (demo.sub "https://example.com/deep" "deep-path") "root" "" ""
            = some ([], some e) :=
  ⟨by decide, by decide,
    MakeArtifacts_rejects_ancestor_cycle demo.env 3 (demo.sub "https://example.com/deep" "deep-path")
      "root" "" "" [0, 0] (demo.arrival "https://example.com/deep" "deep-path" "" "" [0, 0])
      (demo.definitionAt "https://example.com/deep")
      (by decide) (by decide) (by decide) rfl (by decide)⟩

/-- The particular case of C2: a root profile on a branch that declares a
nested profile with its own URL, branch and path is rejected with the
cyclic-reference error itself. -/
theorem root_self_reference_rejected (env : Env) (fuel : Nat)
    (sub : profilesv1.ProfileSubscription) (rootDir gitRepoNamespace gitRepoName : String)
    (i : Nat) (arr : Arrival) (nestedDef : profilesv1.ProfileDefinition)
    (hbranch : sub.Spec.Tag = "")
    (hreach : reach env fuel sub rootDir gitRepoNamespace gitRepoName [i] = some arr)
    (hvalid : env.Validate arr.artifact = none)
    (hkind : arr.artifact.Kind = profilesv1.ProfileKind)
    (hfetch : env.getProfileDefinition arr.artifact.Profile.URL (nestedBranchOrTag arr.artifact)
      (nestedFetchPath arr.artifact) = .ok nestedDef)
    (hurl : arr.artifact.Profile.URL = sub.Spec.ProfileURL)
    (hb : arr.artifact.Profile.Branch = sub.Spec.Branch)
    (hp : arr.artifact.Profile.Path = sub.Spec.Path)
    (hv : arr.artifact.Profile.Version = "") :
    ∀ fuel', fuel ≤ fuel' →
      MakeArtifacts env fuel' sub rootDir gitRepoNamespace gitRepoName
        = some ([], some (.recursive sub.Spec.ProfileURL sub.Spec.Branch)) := by
  have hanc : arr.ancestors ⊆ arr.st.profileRepos := reach_ancestors env hreach
  have hit := @iteration_recursive env (Profile.makeArtifacts env arr.fuel) arr.st arr.artifact
    nestedDef hvalid hkind hfetch
  unfold reach at hreach
  dsimp only at hreach
  split at hreach
  · cases hreach
  · rename_i d hd
    cases fuel with
    | zero => simp [Profile.arrive] at hreach
    | succ n =>
      simp only [Profile.arrive] at hreach
      split at hreach
      · cases hreach
      · rename_i st a hup
        injection hreach with hreach
        subst hreach
        simp only at hanc hit hurl hb hp hv
        have hkey : (nestedSub st.p (qualify st.p a) nestedDef).profileRepo ∈ st.profileRepos := by
          apply hanc
          simp [nestedSub, newProfile, Profile.profileRepo, nestedSubscription, hv, hbranch, hurl,
            hb, hp]
        have hit' := hit hkey
        intro fuel' hle
        apply MakeArtifacts_mono env hle
        unfold MakeArtifacts
        dsimp only
        rw [hd]
        simp only [Profile.makeArtifacts]
        rw [← hurl, ← hb]
        exact loop_of_loopUpTo _ _ _ _ _ _ hup hit'

/-- The particular case of C2 at the demonstration profile `self`, whose second
entry points at `self` again. -/
theorem root_self_reference_rejected_demo :
    MakeArtifacts demo.env 3 (demo.sub "https://example.com/self" "self-path") "root" "flux-system" "repo"
      = some ([], some (.recursive "https://example.com/self" "main")) := by
  decide

/-! ## C3: the same key on two sibling entries -/

/-- C3, the code at the failing input.  The definition `twice` declares two
sibling nested profiles with the same URL, branch and path; that profile
resolves on its own, and neither sibling is an ancestor of the other (on
arrival at the second one its only ancestor is the root).  All the same the
key of the first sibling is in the `profileRepos` the second one is checked
against, and `MakeArtifacts` returns the cyclic-reference error. -/
theorem sibling_key_reuse_is_rejected :
    (MakeArtifacts demo.env 3 (demo.sub "https://example.com/q" "q-path") "root" "flux-system"
          "repo").map (fun r => (r.1.map (fun a => a.Name), r.2)) = some (["leaf"], none) ∧
      (demo.arrival "https://example.com/twice" "twice-path" "flux-system" "repo" [1]).ancestors
        = ["https://example.com/twice:main:twice-path"] ∧
      (demo.arrival "https://example.com/twice" "twice-path" "flux-system" "repo" [1]).st.profileRepos
        = ["https://example.com/twice:main:twice-path", "https://example.com/q:main:q-path"] ∧
      MakeArtifacts demo.env 3 (demo.sub "https://example.com/twice" "twice-path") "root" "flux-system"
          "repo"
        = some ([], some (.recursive "https://example.com/q" "main")) := by
  decide

/-! ## C4: qualified names -/

/-- C4, the code at the failing input.  The nested profile `p` of the
demonstration root declares the leaf `a`, the nested profile `q` and the leaf
`k`, in this order.  The leaf before the nested sibling is named `p/a` and the
leaf inside `q` is named `p/q/leaf`, but the leaf `k`, which comes after the
nested sibling, is emitted under the unqualified name `k`: line 99 has reset
the prefix of `p` itself. -/
theorem name_after_nested_sibling_is_unqualified :
    (demo.definitionAt "https://example.com/p").Spec.Artifacts.map (fun a => a.Name) = ["a", "q", "k"] ∧
      demo.resolved.map (fun a => a.Name) = ["foo", "p/a", "p/q/leaf", "k", "redis"] ∧
      (demo.arrival demo.rootURL "nginx" "flux-system" "repo" [1, 0]).st.p.nestedName = "p" ∧
      (demo.arrival demo.rootURL "nginx" "flux-system" "repo" [1, 2]).st.p.nestedName = "" := by
  decide

/-! ## C5: object names -/

theorem dropWhile_head_false {α : Type} (p : α → Bool) :
    ∀ (l : List α) (x : α) (xs : List α), l.dropWhile p = x :: xs → p x = false
  | [], _, _, h => by simp at h
  | a :: t, x, xs, h => by
    rw [List.dropWhile_cons] at h
    by_cases ha : p a = true
    · rw [if_pos ha] at h
      exact dropWhile_head_false p t x xs h
    · rw [if_neg ha] at h
      injection h with h1 _
      subst h1
      simpa using ha

/-- The shape of a character list with respect to `filepath.Base`: when it has a
character other than `/`, it is a prefix that is empty or ends in `/`, then a
non-empty `/`-free element, then trailing `/` characters only; the element is
what `lastElement` returns after `stripTrailingSlashes`. -/
theorem lastElement_stripTrailingSlashes (cs : List Char) (hne : ∃ c ∈ cs, c ≠ '/') :
    ∃ pre trail,
      cs = pre ++ filepath.lastElement (filepath.stripTrailingSlashes cs) ++ trail ∧
      (∀ c ∈ trail, c = '/') ∧ (pre = [] ∨ pre.getLast? = some '/') ∧
      '/' ∉ filepath.lastElement (filepath.stripTrailingSlashes cs) ∧
      filepath.lastElement (filepath.stripTrailingSlashes cs) ≠ [] := by
  unfold filepath.lastElement filepath.stripTrailingSlashes
  simp only [List.reverse_reverse]
  set r := cs.reverse with hr
  set r' := r.dropWhile (fun c => decide (c = '/')) with hr'
  have hsplit1 : r = r.takeWhile (fun c => decide (c = '/')) ++ r' :=
    (List.takeWhile_append_dropWhile _ _).symm
  have hsplit2 : r' = r'.takeWhile (fun c => decide (c ≠ '/')) ++ r'.dropWhile (fun c => decide (c ≠ '/')) :=
    (List.takeWhile_append_dropWhile _ _).symm
  have hcs : cs = r.reverse := by rw [hr, List.reverse_reverse]
  refine ⟨(r'.dropWhile (fun c => decide (c ≠ '/'))).reverse,
    (r.takeWhile (fun c => decide (c = '/'))).reverse, ?_, ?_, ?_, ?_, ?_⟩
  · rw [← List.reverse_append, ← hsplit2, ← List.reverse_append, ← hsplit1, hcs]
  · intro c hc
    have := List.mem_takeWhile_imp (List.mem_reverse.1 hc)
    simpa using this
  · cases hd : r'.dropWhile (fun c => decide (c ≠ '/')) with
    | nil => left; rfl
    | cons x xs =>
      right
      have hx := dropWhile_head_false _ _ _ _ hd
      have hx' : x = '/' := by simpa using hx
      simp [hx']
  · intro hmem
    have := List.mem_takeWhile_imp (List.mem_reverse.1 hmem)
    simp at this
  · intro hnil
    have hnil' : r'.takeWhile (fun c => decide (c ≠ '/')) = [] := by simpa using hnil
    have hr'ne : r' ≠ [] := by
      intro h0
      obtain ⟨c, hc, hcne⟩ := hne
      have hcr : c ∈ r := by rw [hr]; exact List.mem_reverse.2 hc
      rw [hsplit1, h0, List.append_nil] at hcr
      have := List.mem_takeWhile_imp hcr
      simp at this
      exact hcne this
    cases hcase : r' with
    | nil => exact hr'ne hcase
    | cons x xs =>
      have hx := dropWhile_head_false _ _ _ _ (hr'.symm.trans hcase)
      have hx' : x ≠ '/' := by simpa using hx
      rw [hcase, List.takeWhile_cons] at hnil'
      simp [hx'] at hnil'

theorem stripTrailingSlashes_all_slashes (cs : List Char) (h : ∀ c ∈ cs, c = '/') :
    filepath.stripTrailingSlashes cs = [] := by
  unfold filepath.stripTrailingSlashes
  rw [List.reverse_eq_nil_iff, List.dropWhile_eq_nil_iff]
  intro c hc
  simpa using h c (List.mem_reverse.1 hc)

theorem makeArtifactName_eq (p : Profile) (n : String) :
    p.makeArtifactName n = p.subscription.Name ++ "-" ++ p.definition.Name ++ "-" ++
      (if '/' ∈ n.data then filepath.Base n else n) := by
  unfold Profile.makeArtifactName join strings.Contains
  simp only [strings.Join, String.append_assoc, decide_eq_true_eq]

/-- C5, as amended.  `makeArtifactName(n)` is `s-d-b` for the subscription name
`s`, the definition name `d` and a base name `b`: `b` is `n` when `n` has no
`/`; when `n` has a `/` and some other character, `b` is the last non-empty
`/`-separated element of `n` (trailing `/` characters are dropped first), and
has no `/`; when `n` consists of `/` characters only, `b` is `/`. -/
theorem makeArtifactName_base (p : Profile) (n : String) :
    ∃ b : String,
      p.makeArtifactName n = p.subscription.Name ++ "-" ++ p.definition.Name ++ "-" ++ b ∧
      ('/' ∉ n.data → b = n) ∧
      ('/' ∈ n.data → (∃ c ∈ n.data, c ≠ '/') →
        ∃ pre trail, n.data = pre ++ b.data ++ trail ∧ (∀ c ∈ trail, c = '/') ∧
          (pre = [] ∨ pre.getLast? = some '/') ∧ '/' ∉ b.data ∧ b ≠ "") ∧
      ('/' ∈ n.data → (∀ c ∈ n.data, c = '/') → b = "/") := by
  refine ⟨if '/' ∈ n.data then filepath.Base n else n, makeArtifactName_eq p n, ?_, ?_, ?_⟩
  · intro h
    rw [if_neg h]
  · intro h hne
    rw [if_pos h]
    obtain ⟨pre, trail, hcs, htrail, hpre, hno, hnonempty⟩ :=
      lastElement_stripTrailingSlashes n.data hne
    have hn : n ≠ "" := by
      intro h0
      rw [h0] at h
      simp at h
    have hbase : filepath.Base n
        = String.mk (filepath.lastElement (filepath.stripTrailingSlashes n.data)) := by
      unfold filepath.Base
      simp only [hn, if_false, hnonempty]
    rw [hbase]
    refine ⟨pre, trail, hcs, htrail, hpre, hno, ?_⟩
    intro h0
    exact hnonempty (congrArg String.data h0)
  · intro h hall
    rw [if_pos h]
    have hn : n ≠ "" := by
      intro h0
      rw [h0] at h
      simp at h
    unfold filepath.Base
    simp [hn, stripTrailingSlashes_all_slashes n.data hall, filepath.lastElement]

/-- C5 as amended, at the names of the specification's scenario: `foo` and the
nested `p/foo` both give `mysub-nginx-1-foo`. -/
theorem makeArtifactName_base_witness :
    demo.rootProfile.makeArtifactName "foo" = "mysub-nginx-1-foo" ∧
      demo.rootProfile.makeArtifactName "p/foo" = "mysub-nginx-1-foo" ∧
      ∃ b : String,
        demo.rootProfile.makeArtifactName "p/foo" = "mysub" ++ "-" ++ "nginx-1" ++ "-" ++ b ∧
        ('/' ∉ "p/foo".data → b = "p/foo") ∧
        ('/' ∈ "p/foo".data → (∃ c ∈ "p/foo".data, c ≠ '/') →
          ∃ pre trail, "p/foo".data = pre ++ b.data ++ trail ∧ (∀ c ∈ trail, c = '/') ∧
            (pre = [] ∨ pre.getLast? = some '/') ∧ '/' ∉ b.data ∧ b ≠ "") ∧
        ('/' ∈ "p/foo".data → (∀ c ∈ "p/foo".data, c = '/') → b = "/") :=
  ⟨by decide, by decide, makeArtifactName_base demo.rootProfile "p/foo"⟩

/-- C5 as stated fails.  For the name `/` no base name without a `/` fits:
the object name ends in a `/`.  And for the name `p/foo/` the base name
is `foo`, while the final `/`-separated segment of `p/foo/` is empty. -/
theorem artifact_name_base_may_contain_slash :
    (¬ ∃ b : String,
        demo.rootProfile.makeArtifactName "/" = "mysub" ++ "-" ++ "nginx-1" ++ "-" ++ b ∧
        '/' ∉ b.data) ∧
      demo.rootProfile.makeArtifactName "p/foo/" = "mysub" ++ "-" ++ "nginx-1" ++ "-" ++ "foo" ∧
      (strings.Split "p/foo/" '/').getLast? = some "" := by
  refine ⟨?_, by decide, by decide⟩
  rintro ⟨b, hb, hno⟩
  have hname : demo.rootProfile.makeArtifactName "/" = "mysub-nginx-1-" ++ "/" := by decide
  have hpre : "mysub" ++ "-" ++ "nginx-1" ++ "-" ++ b = "mysub-nginx-1-" ++ b := by
    simp only [String.append_assoc]
    rfl
  rw [hname, hpre] at hb
  have hdata := congrArg String.data hb
  simp only [String.data_append] at hdata
  have hb' : b.data = "/".data := (List.append_cancel_left hdata).symm
  apply hno
  rw [hb']
  decide

/-! ## C6 and C7: the git-source requirement -/

/-- The root directory and the git-source of the profile at an arrival are those
of the call the arrival is computed in. -/
theorem arrive_frame (env : Env) :
    ∀ (fuel : Nat) (p : Profile) (repos anc nest : List String) (path : List Nat) (arr : Arrival),
      p.arrive env fuel repos anc nest path = some arr →
      arr.st.p.rootDir = p.rootDir ∧ arr.st.p.gitRepositoryNamespace = p.gitRepositoryNamespace ∧
        arr.st.p.gitRepositoryName = p.gitRepositoryName
  | 0, _, _, _, _, _, _, h => by simp [Profile.arrive] at h
  | _ + 1, _, _, _, _, [], _, h => by simp [Profile.arrive] at h
  | fuel + 1, p, repos, anc, nest, i :: rest, arr, h => by
    simp only [Profile.arrive] at h
    split at h
    · cases h
    · rename_i st a hup
      obtain ⟨⟨n, hn⟩, _⟩ := loopUpTo_frame _ _ _ _ _ hup
      simp only at hn
      split at h
      · injection h with h
        subst h
        simp only [hn, and_self]
      · rename_i j rest'
        split_ifs at h with hc
        split at h
        · rename_i q repos' hq
          obtain ⟨d, _, hqd, _, _⟩ := nestedCall_ok hq
          obtain ⟨h1, h2, h3⟩ := arrive_frame env fuel q repos' _ _ (j :: rest') arr h
          rw [h1, h2, h3, hqd]
          simp [nestedSub, newProfile, hn]
        · cases h

theorem reach_frame (env : Env) {fuel : Nat} {sub : profilesv1.ProfileSubscription}
    {rootDir ns name : String} {path : List Nat} {arr : Arrival}
    (h : reach env fuel sub rootDir ns name path = some arr) :
    arr.st.p.rootDir = rootDir ∧ arr.st.p.gitRepositoryNamespace = ns ∧
      arr.st.p.gitRepositoryName = name := by
  unfold reach at h
  dsimp only at h
  split at h
  · cases h
  · exact arrive_frame env _ _ _ _ _ _ _ h

/-- The iteration on a validated kustomize entry, or helm-chart entry with a
local path, returns the missing-source error when neither the namespace nor the
name of the git-source is set. -/
theorem iteration_missingSource {env : Env} {recurse : Profile → List String → Option Result}
    {st : LoopState} {artifact : profilesv1.Artifact}
    (hvalid : env.Validate artifact = none)
    (hleaf : artifact.Kind = profilesv1.KustomizeKind ∨
      (artifact.Kind = profilesv1.HelmChartKind ∧ artifact.Path ≠ ""))
    (hns : st.p.gitRepositoryNamespace = "") (hname : st.p.gitRepositoryName = "") :
    iteration env recurse st artifact = some (.ret ([], some .missingSource)) := by
  unfold iteration
  simp only [hvalid, qualify_Kind]
  rcases hleaf with hk | ⟨hk, hp⟩
  · have h1 : ¬ profilesv1.KustomizeKind = profilesv1.ProfileKind := by decide
    have h2 : ¬ profilesv1.KustomizeKind = profilesv1.HelmChartKind := by decide
    rw [hk, if_neg h1, if_neg h2, if_pos rfl]
    unfold kustomizeCase
    simp only [hns, hname, and_self, if_true]
  · have h1 : ¬ profilesv1.HelmChartKind = profilesv1.ProfileKind := by decide
    rw [hk, if_neg h1, if_pos rfl]
    unfold helmChartCase
    simp only [qualify_Path, hns, hname, and_self, if_true, ne_eq, hp, not_false_eq_true]

/-- The iteration on a validated kustomize or helm-chart entry goes on with
one more artifact, unless the entry is path-based (kustomize, or helm-chart
with a local path) and neither part of the git-source is set. -/
theorem iteration_leaf_next {env : Env} {recurse : Profile → List String → Option Result}
    {st : LoopState} {artifact : profilesv1.Artifact}
    (hvalid : env.Validate artifact = none)
    (hleaf : artifact.Kind = profilesv1.KustomizeKind ∨ artifact.Kind = profilesv1.HelmChartKind)
    (hsource : (artifact.Kind = profilesv1.HelmChartKind ∧ artifact.Path = "") ∨
      ¬ (st.p.gitRepositoryNamespace = "" ∧ st.p.gitRepositoryName = "")) :
    ∃ art, iteration env recurse st artifact
      = some (.next { st with artifacts := st.artifacts ++ [art] }) := by
  have hk1 : ¬ profilesv1.KustomizeKind = profilesv1.ProfileKind := by decide
  have hk2 : ¬ profilesv1.KustomizeKind = profilesv1.HelmChartKind := by decide
  have hh1 : ¬ profilesv1.HelmChartKind = profilesv1.ProfileKind := by decide
  unfold iteration
  simp only [hvalid, qualify_Kind]
  rcases hleaf with hk | hk
  · rw [hk, if_neg hk1, if_neg hk2, if_pos rfl]
    have hs : ¬ (st.p.gitRepositoryNamespace = "" ∧ st.p.gitRepositoryName = "") := by
      rcases hsource with ⟨h, _⟩ | h
      · rw [hk] at h
        exact absurd h hk2
      · exact h
    unfold kustomizeCase
    simp only [hs, if_false]
    exact ⟨_, rfl⟩
  · rw [hk, if_neg hh1, if_pos rfl]
    unfold helmChartCase
    by_cases hp : artifact.Path = ""
    · simp only [qualify_Path, hp, ne_eq, not_true_eq_false, if_false]
      exact ⟨_, rfl⟩
    · have hs : ¬ (st.p.gitRepositoryNamespace = "" ∧ st.p.gitRepositoryName = "") := by
        rcases hsource with ⟨_, h⟩ | h
        · exact absurd h hp
        · exact h
      simp only [qualify_Path, hp, ne_eq, not_false_eq_true, if_true, hs, if_false]
      exact ⟨_, rfl⟩

/-- C6.  Let a resolution with no git-source (namespace and name both empty)
reach the kind dispatch of a kustomize entry or of a helm-chart entry with a
non-empty local path (the entries before it resolve, its own validation
passes).  Then `MakeArtifacts` returns no artifacts and an error whose cause
is the missing-source error, whatever the root directory and the other fields
of the entry.  A reached, validated helm-chart entry with an empty path never
returns: whatever the git-source, its iteration adds one artifact and goes
on. -/
theorem MakeArtifacts_missing_source (env : Env) (fuel : Nat)
    (sub : profilesv1.ProfileSubscription) (rootDir : String) :
    (∀ (path : List Nat) (arr : Arrival),
      reach env fuel sub rootDir "" "" path = some arr →
      env.Validate arr.artifact = none →
      (arr.artifact.Kind = profilesv1.KustomizeKind ∨
        (arr.artifact.Kind = profilesv1.HelmChartKind ∧ arr.artifact.Path ≠ "")) →
      ∃ e, e.rootCause = .missingSource ∧
        ∀ fuel', fuel ≤ fuel' → MakeArtifacts env fuel' sub rootDir "" "" = some ([], some e)) ∧
    (∀ (gitRepoNamespace gitRepoName : String) (path : List Nat) (arr : Arrival),
      reach env fuel sub rootDir gitRepoNamespace gitRepoName path = some arr →
      env.Validate arr.artifact = none →
      arr.artifact.Kind = profilesv1.HelmChartKind → arr.artifact.Path = "" →
      ∃ art, arr.iteration env
        = some (.next { arr.st with artifacts := arr.st.artifacts ++ [art] })) := by
  constructor
  · intro path arr hreach hvalid hleaf
    obtain ⟨_, hns, hname⟩ := reach_frame env hreach
    obtain ⟨e, e0, hr, hroot, hall⟩ := reach_fail env hreach
      (iteration_missingSource hvalid hleaf hns hname)
    injection hr with _ hr
    injection hr with hr
    subst hr
    exact ⟨e, by simpa [Err.rootCause] using hroot, hall⟩
  · intro ns name path arr _ hvalid hk hp
    exact iteration_leaf_next hvalid (Or.inr hk) (Or.inl ⟨hk, hp⟩)

/-- C6 at the demonstration root: without a git-source its first entry, the
kustomize artifact `foo`, makes the resolution fail; with one, its third entry,
the remote chart `redis` with no local path, is reached and adds an
artifact. -/
theorem MakeArtifacts_missing_source_witness :
    (reach demo.env 3 (demo.sub demo.rootURL "nginx") "root" "" "" [0]
        = some (demo.arrival demo.rootURL "nginx" "" "" [0]) ∧
      ∃ e, e.rootCause = .missingSource ∧
        ∀ fuel', 3 ≤ fuel' →
          MakeArtifacts demo.env fuel' (demo.sub demo.rootURL "nginx") "root" "" ""
            = some ([], some e)) ∧
    (reach demo.env 3 (demo.sub demo.rootURL "nginx") "root" "flux-system" "repo" [2]
        = some (demo.arrival demo.rootURL "nginx" "flux-system" "repo" [2]) ∧
      ∃ art, (demo.arrival demo.rootURL "nginx" "flux-system" "repo" [2]).iteration demo.env
        = some (.next { (demo.arrival demo.rootURL "nginx" "flux-system" "repo" [2]).st with
            artifacts := (demo.arrival demo.rootURL "nginx" "flux-system" "repo" [2]).st.artifacts
              ++ [art] })) :=
  ⟨⟨by decide,
    (MakeArtifacts_missing_source demo.env 3 (demo.sub demo.rootURL "nginx") "root").1 [0]
      (demo.arrival demo.rootURL "nginx" "" "" [0]) (by decide) (by decide) (Or.inl (by decide))⟩,
   ⟨by decide,
    (MakeArtifacts_missing_source demo.env 3 (demo.sub demo.rootURL "nginx") "root").2
      "flux-system" "repo" [2] (demo.arrival demo.rootURL "nginx" "flux-system" "repo" [2])
      (by decide) (by decide) (by decide) (by decide)⟩⟩

/-- C7, as amended.  Let a resolution reach the kind dispatch of a kustomize
entry or of a helm-chart entry with a non-empty local path.  If the namespace
and the name of the git-source are both empty, `MakeArtifacts` fails fast with
the missing-source error.  If at least one of the two is set, there is no such
failure: the iteration on the entry adds one artifact and goes on. -/
theorem missing_source_iff_both_empty (env : Env) (fuel : Nat)
    (sub : profilesv1.ProfileSubscription) (rootDir gitRepoNamespace gitRepoName : String)
    (path : List Nat) (arr : Arrival)
    (hreach : reach env fuel sub rootDir gitRepoNamespace gitRepoName path = some arr)
    (hvalid : env.Validate arr.artifact = none)
    (hleaf : arr.artifact.Kind = profilesv1.KustomizeKind ∨
      (arr.artifact.Kind = profilesv1.HelmChartKind ∧ arr.artifact.Path ≠ "")) :
    ((gitRepoNamespace = "" ∧ gitRepoName = "") →
      ∃ e, e.rootCause = .missingSource ∧
        ∀ fuel', fuel ≤ fuel' →
          MakeArtifacts env fuel' sub rootDir gitRepoNamespace gitRepoName = some ([], some e)) ∧
    (¬ (gitRepoNamespace = "" ∧ gitRepoName = "") →
      ∃ art, arr.iteration env
        = some (.next { arr.st with artifacts := arr.st.artifacts ++ [art] })) := by
  obtain ⟨_, hns, hname⟩ := reach_frame env hreach
  constructor
  · rintro ⟨h1, h2⟩
    obtain ⟨e, e0, hr, hroot, hall⟩ := reach_fail env hreach
      (iteration_missingSource hvalid hleaf (hns.trans h1) (hname.trans h2))
    injection hr with _ hr
    injection hr with hr
    subst hr
    exact ⟨e, by simpa [Err.rootCause] using hroot, hall⟩
  · intro hsome
    refine iteration_leaf_next hvalid (hleaf.imp_right (fun h => h.1)) (Or.inr ?_)
    rw [hns, hname]
    exact hsome

/-- C7 as amended, at the demonstration root with a git-source namespace and no
git-source name: the kustomize entry `foo` is reached and adds an artifact. -/
theorem missing_source_iff_both_empty_witness :
    reach demo.env 3 (demo.sub demo.rootURL "nginx") "root" "flux-system" "" [0]
        = some (demo.arrival demo.rootURL "nginx" "flux-system" "" [0]) ∧
      (demo.arrival demo.rootURL "nginx" "flux-system" "" [0]).artifact.Kind
        = profilesv1.KustomizeKind ∧
      ∃ art, (demo.arrival demo.rootURL "nginx" "flux-system" "" [0]).iteration demo.env
        = some (.next { (demo.arrival demo.rootURL "nginx" "flux-system" "" [0]).st with
            artifacts := (demo.arrival demo.rootURL "nginx" "flux-system" "" [0]).st.artifacts
              ++ [art] }) :=
  ⟨by decide, by decide,
    (missing_source_iff_both_empty demo.env 3 (demo.sub demo.rootURL "nginx") "root" "flux-system" ""
      [0] (demo.arrival demo.rootURL "nginx" "flux-system" "" [0]) (by decide) (by decide)
      (Or.inl (by decide))).2 (by decide)⟩

/-- C7 as stated fails.  With a git-source namespace and an empty git-source
name (or the other way round) the demonstration root, whose first entry is a
validated kustomize artifact, resolves without error: all five artifacts are
returned. -/
theorem one_empty_git_source_part_is_accepted :
    (demo.arrival demo.rootURL "nginx" "flux-system" "" [0]).artifact.Kind = profilesv1.KustomizeKind ∧
      demo.env.Validate (demo.arrival demo.rootURL "nginx" "flux-system" "" [0]).artifact = none ∧
      (MakeArtifacts demo.env 3 (demo.sub demo.rootURL "nginx") "root" "flux-system" "").map
          (fun r => (r.1.map (fun a => a.Name), r.2))
        = some (["foo", "p/a", "p/q/leaf", "k", "redis"], none) ∧
      (MakeArtifacts demo.env 3 (demo.sub demo.rootURL "nginx") "root" "" "repo").map
          (fun r => (r.1.map (fun a => a.Name), r.2))
        = some (["foo", "p/a", "p/q/leaf", "k", "redis"], none) := by
  decide

/-! ## C8: all or nothing -/

/-- C8.  Whatever `MakeArtifacts` returns is either a list of artifacts with
no error, or no artifact with an error, never an error together with
artifacts.  And when the iteration on an entry reached at any nesting depth
returns (validation, fetch, cycle, missing source, unknown kind, or a failure
further down), `MakeArtifacts` returns no artifact and an error with the same
root cause, whatever had been built for the entries before it. -/
theorem MakeArtifacts_all_or_nothing (env : Env) (sub : profilesv1.ProfileSubscription)
    (rootDir gitRepoNamespace gitRepoName : String) :
    (∀ (fuel : Nat) (arts : List Artifact) (err : Option Err),
      MakeArtifacts env fuel sub rootDir gitRepoNamespace gitRepoName = some (arts, err) →
      err = none ∨ (arts = [] ∧ err ≠ none)) ∧
    (∀ (fuel : Nat) (path : List Nat) (arr : Arrival) (r : Result),
      reach env fuel sub rootDir gitRepoNamespace gitRepoName path = some arr →
      arr.iteration env = some (.ret r) →
      ∃ e e0, r = ([], some e0) ∧ e.rootCause = e0.rootCause ∧
        ∀ fuel', fuel ≤ fuel' →
          MakeArtifacts env fuel' sub rootDir gitRepoNamespace gitRepoName = some ([], some e)) := by
  constructor
  · intro fuel arts err h
    unfold MakeArtifacts at h
    dsimp only at h
    split at h
    · injection h with h
      injection h with h1 h2
      exact Or.inr ⟨h1.symm, by rw [← h2]; simp⟩
    · exact makeArtifacts_shape h
  · intro fuel path arr r hreach hit
    exact reach_fail env hreach hit

/-- C8 at the demonstration profile `odd`: its first entry has been built (one
artifact is in the loop state) when its second entry, of an unknown kind,
fails; nothing of it is returned. -/
theorem MakeArtifacts_all_or_nothing_witness :
    reach demo.env 3 (demo.sub "https://example.com/odd" "odd-path") "root" "flux-system" "repo" [1]
        = some (demo.arrival "https://example.com/odd" "odd-path" "flux-system" "repo" [1]) ∧
      (demo.arrival "https://example.com/odd" "odd-path" "flux-system" "repo" [1]).st.artifacts.map
          (fun a => a.Name) = ["foo"] ∧
      ([] = ([] : List Artifact) ∧ some (Err.unknownKind "unknown") ≠ none) ∧
      ∃ e e0, (([], some (Err.unknownKind "unknown")) : Result) = ([], some e0) ∧
        e.rootCause = e0.rootCause ∧
        ∀ fuel', 3 ≤ fuel' →
          MakeArtifacts demo.env fuel' (demo.sub "https://example.com/odd" "odd-path") "root"
            "flux-system" "repo" = some ([], some e) :=
  ⟨by decide, by decide,
    ((MakeArtifacts_all_or_nothing demo.env (demo.sub "https://example.com/odd" "odd-path") "root"
      "flux-system" "repo").1 3 [] (some (Err.unknownKind "unknown")) (by decide)).resolve_left
      (by decide),
    (MakeArtifacts_all_or_nothing demo.env (demo.sub "https://example.com/odd" "odd-path") "root"
      "flux-system" "repo").2 3 [1]
      (demo.arrival "https://example.com/odd" "odd-path" "flux-system" "repo" [1])
      ([], some (Err.unknownKind "unknown")) (by decide) (by decide)⟩

/-! ## C9: what the repo key identifies -/

/-- Cancellation at a separator: two lists that agree, each being a
separator-free prefix, the separator and a suffix, have the same prefix and
suffix. -/
theorem append_sep_cancel {α : Type} (c : α) :
    ∀ (b b' a a' : List α), c ∉ b → c ∉ b' → b ++ c :: a = b' ++ c :: a' → b = b' ∧ a = a'
  | [], [], _, _, _, _, h => by
    simp only [List.nil_append, List.cons.injEq, true_and] at h
    exact ⟨rfl, h⟩
  | [], x :: xs, _, _, _, hb', h => by
    simp only [List.nil_append, List.cons_append, List.cons.injEq] at h
    exact absurd (h.1 ▸ List.mem_cons_self _ _) hb'
  | x :: xs, [], _, _, hb, _, h => by
    simp only [List.nil_append, List.cons_append, List.cons.injEq] at h
    exact absurd (h.1 ▸ List.mem_cons_self _ _) hb
  | x :: xs, y :: ys, a, a', hb, hb', h => by
    simp only [List.cons_append, List.cons.injEq] at h
    obtain ⟨h1, h2⟩ := append_sep_cancel c xs ys a a'
      (fun hm => hb (List.mem_cons_of_mem _ hm)) (fun hm => hb' (List.mem_cons_of_mem _ hm)) h.2
    exact ⟨by rw [h.1, h1], h2⟩

theorem append_sep_cancel_right {α : Type} (c : α) (a a' b b' : List α)
    (hb : c ∉ b) (hb' : c ∉ b') (h : a ++ c :: b = a' ++ c :: b') : a = a' ∧ b = b' := by
  have hrev := congrArg List.reverse h
  simp only [List.reverse_append, List.reverse_cons, List.append_assoc, List.singleton_append]
    at hrev
  obtain ⟨h1, h2⟩ := append_sep_cancel c b.reverse b'.reverse a.reverse a'.reverse
    (by simpa using hb) (by simpa using hb') hrev
  exact ⟨List.reverse_injective h2, List.reverse_injective h1⟩

theorem profileRepo_data (p : Profile) :
    p.profileRepo.data =
      if p.subscription.Spec.Tag ≠ "" then
        p.subscription.Spec.ProfileURL.data ++ ':' :: p.subscription.Spec.Tag.data
      else
        (p.subscription.Spec.ProfileURL.data ++ ':' :: p.subscription.Spec.Branch.data)
          ++ ':' :: p.subscription.Spec.Path.data := by
  unfold Profile.profileRepo
  split <;> simp [String.data_append]

/-- C9, as amended.  The key is `url:tag` for a tag subscription (its path is
not part of the key) and `url:branch:path` for a branch subscription.  For two
subscriptions whose tag, branch and path contain no `:` and whose keys are
equal: if both are branch subscriptions, they have the same URL, branch and
path; if both are tag subscriptions, they have the same URL and tag; and if
they have the same URL, both are of the same sort. -/
theorem profileRepo_identifies (p₁ p₂ : Profile)
    (h₁ : ':' ∉ p₁.subscription.Spec.Tag.data ∧ ':' ∉ p₁.subscription.Spec.Branch.data ∧
      ':' ∉ p₁.subscription.Spec.Path.data)
    (h₂ : ':' ∉ p₂.subscription.Spec.Tag.data ∧ ':' ∉ p₂.subscription.Spec.Branch.data ∧
      ':' ∉ p₂.subscription.Spec.Path.data)
    (hkey : p₁.profileRepo = p₂.profileRepo) :
    (p₁.subscription.Spec.Tag = "" → p₂.subscription.Spec.Tag = "" →
      p₁.subscription.Spec.ProfileURL = p₂.subscription.Spec.ProfileURL ∧
      p₁.subscription.Spec.Branch = p₂.subscription.Spec.Branch ∧
      p₁.subscription.Spec.Path = p₂.subscription.Spec.Path) ∧
    (p₁.subscription.Spec.Tag ≠ "" → p₂.subscription.Spec.Tag ≠ "" →
      p₁.subscription.Spec.ProfileURL = p₂.subscription.Spec.ProfileURL ∧
      p₁.subscription.Spec.Tag = p₂.subscription.Spec.Tag) ∧
    (p₁.subscription.Spec.ProfileURL = p₂.subscription.Spec.ProfileURL →
      (p₁.subscription.Spec.Tag = "" ↔ p₂.subscription.Spec.Tag = "")) := by
  have hdata := congrArg String.data hkey
  rw [profileRepo_data, profileRepo_data] at hdata
  refine ⟨?_, ?_, ?_⟩
  · intro t1 t2
    simp only [t1, t2, ne_eq, not_true_eq_false, if_false] at hdata
    obtain ⟨h, hp⟩ := append_sep_cancel_right ':' _ _ _ _ h₁.2.2 h₂.2.2 hdata
    obtain ⟨hu, hb⟩ := append_sep_cancel_right ':' _ _ _ _ h₁.2.1 h₂.2.1 h
    exact ⟨String.ext hu, String.ext hb, String.ext hp⟩
  · intro t1 t2
    simp only [t1, t2, ne_eq, not_false_eq_true, if_true] at hdata
    obtain ⟨hu, ht⟩ := append_sep_cancel_right ':' _ _ _ _ h₁.1 h₂.1 hdata
    exact ⟨String.ext hu, String.ext ht⟩
  · intro hurl
    constructor
    · intro t1
      by_contra t2
      simp only [t1, t2, ne_eq, not_true_eq_false, not_false_eq_true, if_true, if_false, hurl,
        List.append_assoc, List.cons_append] at hdata
      have := List.append_cancel_left hdata
      injection this with _ this
      apply h₂.1
      rw [← this]
      simp
    · intro t2
      by_contra t1
      simp only [t1, t2, ne_eq, not_true_eq_false, not_false_eq_true, if_true, if_false, hurl,
        List.append_assoc, List.cons_append] at hdata
      have := List.append_cancel_left hdata
      injection this with _ this
      apply h₁.1
      rw [this]
      simp

/-- C9 as amended, at two tag subscriptions of the same URL and tag. -/
theorem profileRepo_identifies_witness :
    (demo.profileOf (demo.tagSub "v1" "a")).profileRepo = "https://example.com/q:v1" ∧
      ((demo.profileOf (demo.tagSub "v1" "a")).subscription.Spec.Tag ≠ "" →
        (demo.profileOf (demo.tagSub "v1" "b")).subscription.Spec.Tag ≠ "" →
        (demo.profileOf (demo.tagSub "v1" "a")).subscription.Spec.ProfileURL
          = (demo.profileOf (demo.tagSub "v1" "b")).subscription.Spec.ProfileURL ∧
        (demo.profileOf (demo.tagSub "v1" "a")).subscription.Spec.Tag
          = (demo.profileOf (demo.tagSub "v1" "b")).subscription.Spec.Tag) :=
  ⟨by decide,
    (profileRepo_identifies (demo.profileOf (demo.tagSub "v1" "a"))
      (demo.profileOf (demo.tagSub "v1" "b")) (by decide) (by decide) (by decide)).2.1⟩

/-- C9 as stated fails.  Two tag subscriptions of one URL and tag with
different paths have different (URL, ref, path) tuples and the same key; so do
a branch subscription and a tag subscription when a `:` falls differently. -/
theorem profileRepo_not_injective :
    (subscriptionTuple (demo.tagSub "v1" "a") ≠ subscriptionTuple (demo.tagSub "v1" "b") ∧
      (demo.profileOf (demo.tagSub "v1" "a")).profileRepo
        = (demo.profileOf (demo.tagSub "v1" "b")).profileRepo) ∧
    (subscriptionTuple (demo.sub "https://example.com/q" "q-path")
        ≠ subscriptionTuple (demo.tagSub "main:q-path" "") ∧
      (demo.profileOf (demo.sub "https://example.com/q" "q-path")).profileRepo
        = (demo.profileOf (demo.tagSub "main:q-path" "")).profileRepo) := by
  decide

/-! ## C10: ref and path of a nested profile -/

/-- The fetched path and the recorded path of a nested profile with a version
tag that has no `/`: the Fetcher is given the tag itself as path (line 67), the
nested subscription records `.` (lines 79-84). -/
theorem nested_paths_without_slash (sub : profilesv1.ProfileSubscription)
    (artifact : profilesv1.Artifact) (hv : artifact.Profile.Version ≠ "")
    (hs : '/' ∉ artifact.Profile.Version.data) :
    nestedFetchPath artifact = artifact.Profile.Version ∧
      (nestedSubscription sub artifact).Spec.Path = "." := by
  have hsplit : ∀ cs : List Char, '/' ∉ cs → strings.splitChars '/' cs = [cs] := by
    intro cs
    induction cs with
    | nil => intro _; rfl
    | cons c t ih =>
      intro h
      have hc : c ≠ '/' := fun h0 => h (h0 ▸ List.mem_cons_self _ _)
      have ht := ih (fun hm => h (List.mem_cons_of_mem _ hm))
      simp [strings.splitChars, hc, ht]
  unfold nestedFetchPath nestedSubscription strings.Split
  simp [hv, hsplit _ hs]

/-- C10, the code at the failing input.  For a nested profile with the version
tag `v1` the ref is `v1` in the fetch and in the nested subscription, but the
paths differ: the Fetcher is asked for the path `v1`, the nested subscription
records the path `.`.  With the tag `nginx-1/v0.0.1` both paths are
`nginx-1`.  So a Fetcher that serves the nested profile at the recorded path
`.` only makes the resolution of the profile `tagged` fail. -/
theorem nested_fetch_path_differs_from_recorded_path :
    nestedBranchOrTag (demo.nestedTag "t" "https://example.com/q" "v1") = "v1" ∧
      (nestedSubscription (demo.sub demo.rootURL "nginx")
        (demo.nestedTag "t" "https://example.com/q" "v1")).Spec.Tag = "v1" ∧
      nestedFetchPath (demo.nestedTag "t" "https://example.com/q" "v1") = "v1" ∧
      (nestedSubscription (demo.sub demo.rootURL "nginx")
        (demo.nestedTag "t" "https://example.com/q" "v1")).Spec.Path = "." ∧
      nestedFetchPath (demo.nestedTag "t" "https://example.com/q" "nginx-1/v0.0.1") = "nginx-1" ∧
      (nestedSubscription (demo.sub demo.rootURL "nginx")
        (demo.nestedTag "t" "https://example.com/q" "nginx-1/v0.0.1")).Spec.Path = "nginx-1" ∧
      MakeArtifacts demo.pathEnv 3 (demo.sub "https://example.com/tagged" "tagged-path") "root"
          "flux-system" "repo"
        = some ([], some (.nestedDefinition "https://example.com/q" "v1"
            (.external "no profile definition at path v1"))) := by
  decide

/-! ## C11 and C19: the error returned for a failure at a reached entry -/

/-- If the iteration at a reached entry returns an error, the enclosing call
returns that error wrapped once for each nested profile entered on the way
from the call to the entry. -/
theorem arrive_fail_exact (env : Env) :
    ∀ (fuel : Nat) (p : Profile) (repos anc nest : List String) (path : List Nat) (arr : Arrival)
      (r : Result), p.arrive env fuel repos anc nest path = some arr →
      arr.iteration env = some (.ret r) →
      ∃ names e0, arr.nesting = nest ++ names ∧ r = ([], some e0) ∧
        names.length + 1 = path.length ∧
        p.makeArtifacts env fuel repos = some ([], some (wrapNested names e0))
  | 0, _, _, _, _, _, _, _, h, _ => by simp [Profile.arrive] at h
  | _ + 1, _, _, _, _, [], _, _, h, _ => by simp [Profile.arrive] at h
  | fuel + 1, p, repos, anc, nest, i :: rest, arr, r, h, hit => by
    simp only [Profile.arrive] at h
    split at h
    · cases h
    · rename_i st a hup
      split at h
      · injection h with h
        subst h
        obtain ⟨e0, he0⟩ := iteration_ret hit
        refine ⟨[], e0, by simp, he0, rfl, ?_⟩
        simp only [Profile.makeArtifacts, wrapNested, List.foldr_nil]
        rw [← he0]
        exact loop_of_loopUpTo _ _ _ _ _ _ hup hit
      · rename_i j rest'
        split_ifs at h with hc
        split at h
        · rename_i q repos' hq
          obtain ⟨names, e0, hn, hr, hlen, hm⟩ :=
            arrive_fail_exact env fuel q repos' _ _ (j :: rest') arr r h hit
          refine ⟨(qualify st.p a).Name :: names, e0, ?_, hr, ?_, ?_⟩
          · rw [hn, List.append_assoc, List.singleton_append]
          · simp only [List.length_cons] at hlen ⊢
            omega
          · simp only [Profile.makeArtifacts]
            apply loop_of_loopUpTo _ _ _ _ _ _ hup
            unfold iteration
            simp only [hc.1, hc.2, if_true]
            unfold profileCase
            simp only [hq, hm, wrapNested, List.foldr_cons]
        · cases h

theorem reach_fail_exact (env : Env) {fuel : Nat} {sub : profilesv1.ProfileSubscription}
    {rootDir ns name : String} {path : List Nat} {arr : Arrival} {r : Result}
    (h : reach env fuel sub rootDir ns name path = some arr)
    (hit : arr.iteration env = some (.ret r)) :
    ∃ e0, r = ([], some e0) ∧ arr.nesting.length + 1 = path.length ∧
      ∀ fuel', fuel ≤ fuel' →
        MakeArtifacts env fuel' sub rootDir ns name
          = some ([], some (wrapNested arr.nesting e0)) := by
  unfold reach at h
  dsimp only at h
  split at h
  · cases h
  · rename_i d hd
    obtain ⟨names, e0, hn, hr, hlen, hm⟩ := arrive_fail_exact env _ _ _ _ _ _ _ _ h hit
    rw [List.nil_append] at hn
    rw [hn]
    refine ⟨e0, hr, hlen, fun fuel' hle => ?_⟩
    apply MakeArtifacts_mono env hle
    unfold MakeArtifacts
    dsimp only
    rw [hd]
    exact hm

/-- The text of a wrapped error: the context of its layers, then the text of
the wrapped error. -/
theorem wrapNested_message (table : Char → Bool) (e : Err) :
    ∀ names : List String,
      (wrapNested names e).message table = nestedContext table names ++ e.message table
  | [] => by simp [wrapNested, nestedContext]
  | n :: names => by
    have ih := wrapNested_message table e names
    simp only [wrapNested, List.foldr_cons] at ih ⊢
    simp only [Err.message, ih, nestedContext, String.append_assoc]

theorem wrapNested_rootCause (e : Err) :
    ∀ names : List String, (wrapNested names e).rootCause = e.rootCause
  | [] => rfl
  | n :: names => by
    have ih := wrapNested_rootCause e names
    simpa [wrapNested, Err.rootCause] using ih

/-- The iteration on a validated entry whose kind is none of the three known
kinds returns the unrecognized-kind error naming the kind. -/
theorem iteration_unknownKind {env : Env} {recurse : Profile → List String → Option Result}
    {st : LoopState} {artifact : profilesv1.Artifact}
    (hvalid : env.Validate artifact = none)
    (h1 : artifact.Kind ≠ profilesv1.ProfileKind) (h2 : artifact.Kind ≠ profilesv1.HelmChartKind)
    (h3 : artifact.Kind ≠ profilesv1.KustomizeKind) :
    iteration env recurse st artifact = some (.ret ([], some (.unknownKind artifact.Kind))) := by
  unfold iteration
  simp only [hvalid, qualify_Kind]
  rw [if_neg h1, if_neg h2, if_neg h3]

/-- C11.  Let a resolution reach an entry that passes validation and whose kind
is none of profile, helm-chart and kustomize.  Then `MakeArtifacts` returns no
artifacts and, with the fuel at hand and with any larger fuel, the
unrecognized-kind error for that kind, wrapped once for each nested profile
entered on the way; its text ends with `artifact kind "<kind>" not recognized`
(the kind printed by `%q`), and is exactly that for an entry of the root
definition. -/
theorem MakeArtifacts_rejects_unknown_kind (env : Env) (fuel : Nat)
    (sub : profilesv1.ProfileSubscription) (rootDir gitRepoNamespace gitRepoName : String)
    (path : List Nat) (arr : Arrival)
    (hreach : reach env fuel sub rootDir gitRepoNamespace gitRepoName path = some arr)
    (hvalid : env.Validate arr.artifact = none)
    (h1 : arr.artifact.Kind ≠ profilesv1.ProfileKind)
    (h2 : arr.artifact.Kind ≠ profilesv1.HelmChartKind)
    (h3 : arr.artifact.Kind ≠ profilesv1.KustomizeKind) :
    (∀ fuel', fuel ≤ fuel' →
      MakeArtifacts env fuel' sub rootDir gitRepoNamespace gitRepoName
        = some ([], some (wrapNested arr.nesting (.unknownKind arr.artifact.Kind)))) ∧
    (wrapNested arr.nesting (.unknownKind arr.artifact.Kind)).rootCause
      = .unknownKind arr.artifact.Kind ∧
    (∀ table, (wrapNested arr.nesting (.unknownKind arr.artifact.Kind)).message table
      = nestedContext table arr.nesting
        ++ ("artifact kind " ++ strconv.Quote table arr.artifact.Kind ++ " not recognized")) ∧
    (path.length = 1 →
      wrapNested arr.nesting (.unknownKind arr.artifact.Kind) = .unknownKind arr.artifact.Kind) := by
  obtain ⟨e0, hr, hlen, hall⟩ := reach_fail_exact env hreach
    (iteration_unknownKind hvalid h1 h2 h3)
  injection hr with _ hr
  injection hr with hr
  subst hr
  refine ⟨hall, ?_, ?_, ?_⟩
  · rw [wrapNested_rootCause]
    rfl
  · intro table
    rw [wrapNested_message]
    rfl
  · intro hp
    have hnil : arr.nesting = [] := List.length_eq_zero.1 (by omega)
    rw [hnil]
    rfl

/-- C11 at the demonstration profiles `odd`, whose second entry has the kind
`unknown`, and `outer`, which nests `odd` under the name `inner`. -/
theorem MakeArtifacts_rejects_unknown_kind_witness :
    (reach demo.env 3 (demo.sub "https://example.com/odd" "odd-path") "root" "flux-system" "repo" [1]
        = some (demo.arrival "https://example.com/odd" "odd-path" "flux-system" "repo" [1]) ∧
      MakeArtifacts demo.env 3 (demo.sub "https://example.com/odd" "odd-path") "root" "flux-system"
          "repo" = some ([], some (.unknownKind "unknown")) ∧
      (Err.unknownKind "unknown").message (fun _ => true)
        = "artifact kind \"unknown\" not recognized") ∧
    (reach demo.env 3 (demo.sub "https://example.com/outer" "outer-path") "root" "flux-system" "repo"
          [1, 1]
        = some (demo.arrival "https://example.com/outer" "outer-path" "flux-system" "repo" [1, 1]) ∧
      MakeArtifacts demo.env 3 (demo.sub "https://example.com/outer" "outer-path") "root"
          "flux-system" "repo"
        = some ([], some (.nestedProfile "inner" (.unknownKind "unknown"))) ∧
      (Err.nestedProfile "inner" (.unknownKind "unknown")).message (fun _ => true)
        = "failed to generate resources for nested profile \"inner\": "
          ++ "artifact kind \"unknown\" not recognized") :=
  ⟨⟨by decide,
    (MakeArtifacts_rejects_unknown_kind demo.env 3 (demo.sub "https://example.com/odd" "odd-path")
      "root" "flux-system" "repo" [1]
      (demo.arrival "https://example.com/odd" "odd-path" "flux-system" "repo" [1])
      (by decide) (by decide) (by decide) (by decide) (by decide)).1 3 (Nat.le_refl 3),
    by decide⟩,
   ⟨by decide,
    (MakeArtifacts_rejects_unknown_kind demo.env 3 (demo.sub "https://example.com/outer" "outer-path")
      "root" "flux-system" "repo" [1, 1]
      (demo.arrival "https://example.com/outer" "outer-path" "flux-system" "repo" [1, 1])
      (by decide) (by decide) (by decide) (by decide) (by decide)).1 3 (Nat.le_refl 3),
    (MakeArtifacts_rejects_unknown_kind demo.env 3 (demo.sub "https://example.com/outer" "outer-path")
      "root" "flux-system" "repo" [1, 1]
      (demo.arrival "https://example.com/outer" "outer-path" "flux-system" "repo" [1, 1])
      (by decide) (by decide) (by decide) (by decide) (by decide)).2.2.1 (fun _ => true)⟩⟩

/-- C19.  Let the iteration on an entry reached at any nesting depth return an
error `e0`.  Then `MakeArtifacts` fails, with the fuel at hand and with any
larger fuel, and its error is `e0` wrapped once for each nested-profile entry
entered on the way (one less than the length of the index path), the outermost
first; each layer prints `failed to generate resources for nested profile
"<qualified name>": ` before its cause, so the text of the error is the context
of the layers followed by the text of `e0`. -/
theorem nested_failure_is_wrapped_once_per_level (env : Env) (fuel : Nat)
    (sub : profilesv1.ProfileSubscription) (rootDir gitRepoNamespace gitRepoName : String)
    (path : List Nat) (arr : Arrival) (e0 : Err)
    (hreach : reach env fuel sub rootDir gitRepoNamespace gitRepoName path = some arr)
    (hit : arr.iteration env = some (.ret ([], some e0))) :
    (∀ fuel', fuel ≤ fuel' →
      MakeArtifacts env fuel' sub rootDir gitRepoNamespace gitRepoName
        = some ([], some (wrapNested arr.nesting e0))) ∧
    arr.nesting.length + 1 = path.length ∧
    (∀ table, (wrapNested arr.nesting e0).message table
      = nestedContext table arr.nesting ++ e0.message table) ∧
    (wrapNested arr.nesting e0).rootCause = e0.rootCause := by
  obtain ⟨e1, hr, hlen, hall⟩ := reach_fail_exact env hreach hit
  injection hr with _ hr
  injection hr with hr
  subst hr
  exact ⟨hall, hlen, fun table => wrapNested_message table _ _, wrapNested_rootCause _ _⟩

/-- C19 at the demonstration profile `top`, which nests `outer` under the name
`lvl`, which nests `odd` under the name `inner`, whose second entry fails. -/
theorem nested_failure_is_wrapped_once_per_level_witness :
    reach demo.env 3 (demo.sub "https://example.com/top" "top-path") "root" "flux-system" "repo"
        [0, 1, 1]
      = some (demo.arrival "https://example.com/top" "top-path" "flux-system" "repo" [0, 1, 1]) ∧
    (demo.arrival "https://example.com/top" "top-path" "flux-system" "repo" [0, 1, 1]).nesting
      = ["lvl", "lvl/inner"] ∧
    MakeArtifacts demo.env 3 (demo.sub "https://example.com/top" "top-path") "root" "flux-system"
        "repo"
      = some ([], some (.nestedProfile "lvl" (.nestedProfile "lvl/inner" (.unknownKind "unknown")))) ∧
    (Err.nestedProfile "lvl" (.nestedProfile "lvl/inner" (.unknownKind "unknown"))).message
        (fun _ => true)
      = "failed to generate resources for nested profile \"lvl\": "
        ++ "failed to generate resources for nested profile \"lvl/inner\": "
        ++ "artifact kind \"unknown\" not recognized" :=
  ⟨by decide, by decide,
    (nested_failure_is_wrapped_once_per_level demo.env 3
      (demo.sub "https://example.com/top" "top-path") "root" "flux-system" "repo" [0, 1, 1]
      (demo.arrival "https://example.com/top" "top-path" "flux-system" "repo" [0, 1, 1])
      (.unknownKind "unknown") (by decide) (by decide)).1 3 (Nat.le_refl 3),
    by decide⟩

/-! ## C14: the visited-set invariant -/

theorem profileRepo_congr {p q : Profile} (h : q.subscription = p.subscription) :
    q.profileRepo = p.profileRepo := by
  unfold Profile.profileRepo
  rw [h]

theorem nodup_append_key {repos : List String} {key : String} (h : repos.Nodup)
    (hk : containsKey repos key = false) : (repos ++ [key]).Nodup := by
  have hnot : key ∉ repos := by
    intro hm
    rw [(containsKey_iff _ _).2 hm] at hk
    cases hk
  rw [List.nodup_append]
  refine ⟨h, List.nodup_singleton _, ?_⟩
  intro x hx hx'
  rw [List.mem_singleton] at hx'
  exact hnot (hx' ▸ hx)

/-- An iteration that goes on keeps `profileRepos` free of duplicates and keeps
the subscription of the profile. -/
theorem iteration_next_inv {env : Env} {recurse : Profile → List String → Option Result}
    {st st' : LoopState} {artifact : profilesv1.Artifact}
    (h : iteration env recurse st artifact = some (.next st')) (hn : st.profileRepos.Nodup) :
    st'.profileRepos.Nodup ∧ st'.p.subscription = st.p.subscription ∧
      st'.p.definition = st.p.definition := by
  obtain ⟨_, h | h⟩ := iteration_next h
  · obtain ⟨_, q, repos, nestedArtifacts, hq, _, rfl⟩ := h
    obtain ⟨d, _, _, hc, hrepos⟩ := nestedCall_ok hq
    exact ⟨by rw [hrepos]; exact nodup_append_key hn hc, rfl, rfl⟩
  · obtain ⟨_, _, art, rfl⟩ := h
    exact ⟨hn, rfl, rfl⟩

theorem loopUpTo_inv {env : Env} {recurse : Profile → List String → Option Result} :
    ∀ (l : List profilesv1.Artifact) (i : Nat) (st st' : LoopState) (a : profilesv1.Artifact),
      loopUpTo env recurse st l i = some (st', a) → st.profileRepos.Nodup →
      st'.profileRepos.Nodup ∧ st'.p.subscription = st.p.subscription ∧
        st'.p.definition = st.p.definition
  | [], _, _, _, _, h, _ => by simp [loopUpTo] at h
  | x :: _, 0, st, st', a, h, hn => by
    simp only [loopUpTo] at h
    injection h with h
    injection h with h1 h2
    subst h1
    exact ⟨hn, rfl, rfl⟩
  | x :: rest, i + 1, st, st', a, h, hn => by
    simp only [loopUpTo] at h
    split at h
    · rename_i st1 hit
      obtain ⟨hn1, hs1, hd1⟩ := iteration_next_inv hit hn
      obtain ⟨hn2, hs2, hd2⟩ := loopUpTo_inv rest i st1 st' a h hn1
      exact ⟨hn2, hs2.trans hs1, hd2.trans hd1⟩
    · cases h

/-- On arrival at an entry the `profileRepos` of the loop has no duplicates and
holds the key of the profile being resolved, provided the call the arrival is
computed in was entered so. -/
theorem arrive_inv (env : Env) :
    ∀ (fuel : Nat) (p : Profile) (repos anc nest : List String) (path : List Nat) (arr : Arrival),
      p.arrive env fuel repos anc nest path = some arr →
      repos.Nodup → p.profileRepo ∈ repos →
      arr.st.profileRepos.Nodup ∧ arr.st.p.profileRepo ∈ arr.st.profileRepos
  | 0, _, _, _, _, _, _, h, _, _ => by simp [Profile.arrive] at h
  | _ + 1, _, _, _, _, [], _, h, _, _ => by simp [Profile.arrive] at h
  | fuel + 1, p, repos, anc, nest, i :: rest, arr, h, hn, hm => by
    simp only [Profile.arrive] at h
    split at h
    · cases h
    · rename_i st a hup
      obtain ⟨hn1, hs1, _⟩ := loopUpTo_inv _ _ _ _ _ hup hn
      obtain ⟨_, ⟨extra, hextra⟩⟩ := loopUpTo_frame _ _ _ _ _ hup
      simp only at hextra hs1
      have hm1 : st.p.profileRepo ∈ st.profileRepos := by
        rw [profileRepo_congr hs1, hextra]
        exact List.mem_append_left _ hm
      split at h
      · injection h with h
        subst h
        exact ⟨hn1, hm1⟩
      · rename_i j rest'
        split_ifs at h with hc
        split at h
        · rename_i q repos' hq
          obtain ⟨d, _, _, hck, hrepos⟩ := nestedCall_ok hq
          apply arrive_inv env fuel q repos' _ _ (j :: rest') arr h
          · rw [hrepos]
            exact nodup_append_key hn1 hck
          · rw [hrepos]
            exact List.mem_append_right _ (List.mem_singleton_self _)
        · cases h

theorem reach_inv (env : Env) {fuel : Nat} {sub : profilesv1.ProfileSubscription}
    {rootDir ns name : String} {path : List Nat} {arr : Arrival}
    (h : reach env fuel sub rootDir ns name path = some arr) :
    arr.st.profileRepos.Nodup ∧ arr.st.p.profileRepo ∈ arr.st.profileRepos := by
  unfold reach at h
  dsimp only at h
  split at h
  · cases h
  · exact arrive_inv env _ _ _ _ _ _ _ h (List.nodup_singleton _) (List.mem_singleton_self _)

/-- C14.  For every call of `makeArtifacts` made in a resolution, the one of
`MakeArtifacts` and the ones for nested profiles, the `profileRepos` list
passed in has no duplicate and contains the repo key of the receiver.  The
same holds of the list in the loop whenever it arrives at an entry, and the
list passed to a nested call is the list of the loop with one key appended that
`containsKey` has reported absent from it. -/
theorem visited_set_invariant (env : Env) (fuel : Nat) (sub : profilesv1.ProfileSubscription)
    (rootDir gitRepoNamespace gitRepoName : String) :
    (∀ (path : List Nat) (q : Profile) (repos : List String),
      call env fuel sub rootDir gitRepoNamespace gitRepoName path = some (q, repos) →
      repos.Nodup ∧ q.profileRepo ∈ repos) ∧
    (∀ (path : List Nat) (arr : Arrival),
      reach env fuel sub rootDir gitRepoNamespace gitRepoName path = some arr →
      arr.st.profileRepos.Nodup ∧ arr.st.p.profileRepo ∈ arr.st.profileRepos ∧
      ∀ (q : Profile) (repos : List String),
        nestedCall env arr.st (qualify arr.st.p arr.artifact) = .ok (q, repos) →
        containsKey arr.st.profileRepos q.profileRepo = false ∧
          repos = arr.st.profileRepos ++ [q.profileRepo]) := by
  constructor
  · intro path q repos h
    cases path with
    | nil =>
      simp only [call] at h
      split at h
      · cases h
      · injection h with h
        injection h with h1 h2
        subst h1; subst h2
        exact ⟨List.nodup_singleton _, List.mem_singleton_self _⟩
    | cons i rest =>
      simp only [call] at h
      split at h
      · cases h
      · rename_i arr harr
        split_ifs at h with hc
        split at h
        · rename_i c hcall
          injection h with h
          subst h
          obtain ⟨hn, _⟩ := reach_inv env harr
          obtain ⟨d, _, _, hck, hrepos⟩ := nestedCall_ok hcall
          rw [hrepos]
          exact ⟨nodup_append_key hn hck, List.mem_append_right _ (List.mem_singleton_self _)⟩
        · cases h
  · intro path arr h
    obtain ⟨hn, hm⟩ := reach_inv env h
    refine ⟨hn, hm, fun q repos hq => ?_⟩
    obtain ⟨d, _, _, hck, hrepos⟩ := nestedCall_ok hq
    exact ⟨hck, hrepos⟩

/-- C14 at the demonstration root: the call for the nested profile `q` inside
`p` gets the keys of the root, of `p` and of `q`. -/
theorem visited_set_invariant_witness :
    (call demo.env 3 (demo.sub demo.rootURL "nginx") "root" "flux-system" "repo" [1, 1]).map
        (fun c => c.2)
      = some ["https://example.com/root:main:nginx", "https://example.com/p:main:p-path",
          "https://example.com/q:main:q-path"] ∧
    (∀ (q : Profile) (repos : List String),
      call demo.env 3 (demo.sub demo.rootURL "nginx") "root" "flux-system" "repo" [1, 1]
        = some (q, repos) →
      repos.Nodup ∧ q.profileRepo ∈ repos) ∧
    (reach demo.env 3 (demo.sub demo.rootURL "nginx") "root" "flux-system" "repo" [1, 1]
        = some (demo.arrival demo.rootURL "nginx" "flux-system" "repo" [1, 1]) ∧
      (demo.arrival demo.rootURL "nginx" "flux-system" "repo" [1, 1]).st.profileRepos.Nodup) :=
  ⟨by decide,
    (visited_set_invariant demo.env 3 (demo.sub demo.rootURL "nginx") "root" "flux-system"
      "repo").1 [1, 1],
    by decide,
    ((visited_set_invariant demo.env 3 (demo.sub demo.rootURL "nginx") "root" "flux-system"
      "repo").2 [1, 1] (demo.arrival demo.rootURL "nginx" "flux-system" "repo" [1, 1])
      (by decide)).1⟩

/-! ## C12: the cycle guard bounds the recursion -/

theorem length_le_card_of_nodup {repos : List String} {K : Finset String} (hn : repos.Nodup)
    (hs : ∀ k ∈ repos, k ∈ K) : repos.length ≤ K.card := by
  rw [← List.toFinset_card_of_nodup hn]
  exact Finset.card_le_card (fun k hk => hs k (List.mem_toFinset.1 hk))

theorem profileRepo_eq_repoKey (p : Profile) : p.profileRepo = repoKey p.subscription := by
  unfold repoKey
  exact (profileRepo_congr (by simp [newProfile])).symm

/-- The receiver of a nested call is a reachable profile when the enclosing
profile is. -/
theorem nestedCall_reachable {env : Env} {root : profilesv1.ProfileSubscription} {st : LoopState}
    {artifact : profilesv1.Artifact} {q : Profile} {repos : List String}
    (hr : Reachable env root st.p.subscription st.p.definition)
    (hmem : artifact ∈ st.p.definition.Spec.Artifacts)
    (hk : artifact.Kind = profilesv1.ProfileKind)
    (hq : nestedCall env st (qualify st.p artifact) = .ok (q, repos)) :
    Reachable env root q.subscription q.definition := by
  obtain ⟨d, hd, hqd, _, _⟩ := nestedCall_ok hq
  simp only [qualify_Profile, nestedBranchOrTag_qualify, nestedFetchPath_qualify] at hd
  have hs : q.subscription = nestedSubscription st.p.subscription artifact := by
    rw [hqd]; simp [nestedSub, newProfile]
  have hdef : q.definition = d := by rw [hqd]; simp [nestedSub, newProfile]
  rw [hs, hdef]
  exact Reachable.nested hr hmem hk hd

/-- An iteration returns or goes on, provided the nested call it may make
returns. -/
theorem iteration_some {env : Env} {recurse : Profile → List String → Option Result}
    {st : LoopState} {artifact : profilesv1.Artifact}
    (hrec : ∀ q repos, artifact.Kind = profilesv1.ProfileKind →
      nestedCall env st (qualify st.p artifact) = .ok (q, repos) → ∃ r, recurse q repos = some r) :
    ∃ s, iteration env recurse st artifact = some s := by
  unfold iteration
  split
  · exact ⟨_, rfl⟩
  · simp only [qualify_Kind]
    split_ifs with h1 h2 h3
    · unfold profileCase
      split
      · exact ⟨_, rfl⟩
      · rename_i q repos hq
        obtain ⟨r, hr⟩ := hrec q repos h1 hq
        rw [hr]
        obtain ⟨arts, err⟩ := r
        cases err with
        | none => exact ⟨_, rfl⟩
        | some e => exact ⟨_, rfl⟩
    · exact ⟨_, rfl⟩
    · exact ⟨_, rfl⟩
    · exact ⟨_, rfl⟩

/-- An iteration that goes on keeps the keys of `profileRepos` among the keys
of the reachable profiles. -/
theorem iteration_next_keys {env : Env} {recurse : Profile → List String → Option Result}
    {root : profilesv1.ProfileSubscription} {K : Finset String}
    (hK : ∀ s d, Reachable env root s d → repoKey s ∈ K)
    {st st' : LoopState} {artifact : profilesv1.Artifact}
    (hr : Reachable env root st.p.subscription st.p.definition)
    (hmem : artifact ∈ st.p.definition.Spec.Artifacts)
    (hs : ∀ k ∈ st.profileRepos, k ∈ K)
    (h : iteration env recurse st artifact = some (.next st')) :
    ∀ k ∈ st'.profileRepos, k ∈ K := by
  obtain ⟨_, h | h⟩ := iteration_next h
  · obtain ⟨hk, q, repos, nestedArtifacts, hq, _, rfl⟩ := h
    obtain ⟨d, _, _, _, hrepos⟩ := nestedCall_ok hq
    have hqr := nestedCall_reachable hr hmem hk hq
    intro k hkm
    simp only [hrepos, List.mem_append, List.mem_singleton] at hkm
    rcases hkm with hkm | hkm
    · exact hs k hkm
    · rw [hkm, profileRepo_eq_repoKey]
      exact hK _ _ hqr
  · obtain ⟨_, _, art, rfl⟩ := h
    exact hs

theorem loop_terminates {env : Env} {root : profilesv1.ProfileSubscription} {K : Finset String}
    (hK : ∀ s d, Reachable env root s d → repoKey s ∈ K) (n m : Nat) (hcard : K.card ≤ m + n)
    (ih : ∀ (q : Profile) (repos : List String),
      Reachable env root q.subscription q.definition → repos.Nodup → (∀ k ∈ repos, k ∈ K) →
      K.card < repos.length + n → ∃ r, q.makeArtifacts env n repos = some r) :
    ∀ (l : List profilesv1.Artifact) (st : LoopState),
      (∀ a ∈ l, a ∈ st.p.definition.Spec.Artifacts) →
      Reachable env root st.p.subscription st.p.definition →
      st.profileRepos.Nodup → (∀ k ∈ st.profileRepos, k ∈ K) → m ≤ st.profileRepos.length →
      ∃ r, loop env (Profile.makeArtifacts env n) st l = some r
  | [], st, _, _, _, _, _ => ⟨_, rfl⟩
  | a :: rest, st, hl, hr, hn, hs, hm => by
    have hmem : a ∈ st.p.definition.Spec.Artifacts := hl a (List.mem_cons_self _ _)
    have hstep : ∃ s, iteration env (Profile.makeArtifacts env n) st a = some s := by
      apply iteration_some
      intro q repos hk hq
      obtain ⟨d, _, _, hck, hrepos⟩ := nestedCall_ok hq
      have hqr := nestedCall_reachable hr hmem hk hq
      apply ih q repos hqr
      · rw [hrepos]
        exact nodup_append_key hn hck
      · intro k hkm
        simp only [hrepos, List.mem_append, List.mem_singleton] at hkm
        rcases hkm with hkm | hkm
        · exact hs k hkm
        · rw [hkm, profileRepo_eq_repoKey]
          exact hK _ _ hqr
      · rw [hrepos, List.length_append, List.length_singleton]
        omega
    obtain ⟨s, hs'⟩ := hstep
    simp only [loop, hs']
    cases s with
    | ret r => exact ⟨r, rfl⟩
    | next st' =>
      obtain ⟨hn', hsub', hdef'⟩ := iteration_next_inv hs' hn
      obtain ⟨_, ⟨extra, hextra⟩, _⟩ := iteration_next_frame hs'
      apply loop_terminates hK n m hcard ih rest st'
      · intro x hx
        rw [hdef']
        exact hl x (List.mem_cons_of_mem _ hx)
      · rw [hsub', hdef']
        exact hr
      · exact hn'
      · exact iteration_next_keys hK hr hmem hs hs'
      · rw [hextra, List.length_append]
        omega

theorem makeArtifacts_returns {env : Env} {root : profilesv1.ProfileSubscription}
    {K : Finset String} (hK : ∀ s d, Reachable env root s d → repoKey s ∈ K) :
    ∀ (n : Nat) (q : Profile) (repos : List String),
      Reachable env root q.subscription q.definition → repos.Nodup → (∀ k ∈ repos, k ∈ K) →
      K.card < repos.length + n → ∃ r, q.makeArtifacts env n repos = some r
  | 0, _, repos, _, hn, hs, hc => by
    have := length_le_card_of_nodup hn hs
    omega
  | n + 1, q, repos, hr, hn, hs, hc => by
    simp only [Profile.makeArtifacts]
    exact loop_terminates hK n repos.length (by omega) (makeArtifacts_returns hK n) _
      { p := q, profileRepos := repos, artifacts := [] } (fun a ha => ha) hr hn hs (Nat.le_refl _)

theorem loopUpTo_keys {env : Env} {recurse : Profile → List String → Option Result}
    {root : profilesv1.ProfileSubscription} {K : Finset String}
    (hK : ∀ s d, Reachable env root s d → repoKey s ∈ K) :
    ∀ (l : List profilesv1.Artifact) (i : Nat) (st st' : LoopState) (a : profilesv1.Artifact),
      (∀ x ∈ l, x ∈ st.p.definition.Spec.Artifacts) →
      Reachable env root st.p.subscription st.p.definition →
      st.profileRepos.Nodup → (∀ k ∈ st.profileRepos, k ∈ K) →
      loopUpTo env recurse st l i = some (st', a) →
      (∀ k ∈ st'.profileRepos, k ∈ K) ∧ a ∈ st.p.definition.Spec.Artifacts
  | [], _, _, _, _, _, _, _, _, h => by simp [loopUpTo] at h
  | x :: _, 0, st, st', a, hl, _, _, hs, h => by
    simp only [loopUpTo] at h
    injection h with h
    injection h with h1 h2
    subst h1; subst h2
    exact ⟨hs, hl _ (List.mem_cons_self _ _)⟩
  | x :: rest, i + 1, st, st', a, hl, hr, hn, hs, h => by
    simp only [loopUpTo] at h
    split at h
    · rename_i st1 hit
      obtain ⟨hn1, hs1, hd1⟩ := iteration_next_inv hit hn
      have hk1 := iteration_next_keys hK hr (hl x (List.mem_cons_self _ _)) hs hit
      obtain ⟨h1, h2⟩ := loopUpTo_keys hK rest i st1 st' a
        (fun y hy => by rw [hd1]; exact hl y (List.mem_cons_of_mem _ hy))
        (by rw [hs1, hd1]; exact hr) hn1 hk1 h
      exact ⟨h1, by rw [← hd1]; exact h2⟩
    · cases h

/-- On arrival at an entry the list of the loop has at least as many keys as
the entry is deep, all of them keys of reachable profiles. -/
theorem arrive_depth {env : Env} {root : profilesv1.ProfileSubscription} {K : Finset String}
    (hK : ∀ s d, Reachable env root s d → repoKey s ∈ K) :
    ∀ (fuel : Nat) (p : Profile) (repos anc nest : List String) (path : List Nat) (arr : Arrival),
      p.arrive env fuel repos anc nest path = some arr →
      Reachable env root p.subscription p.definition → repos.Nodup → (∀ k ∈ repos, k ∈ K) →
      (∀ k ∈ arr.st.profileRepos, k ∈ K) ∧
        repos.length + path.length ≤ arr.st.profileRepos.length + 1
  | 0, _, _, _, _, _, _, h, _, _, _ => by simp [Profile.arrive] at h
  | _ + 1, _, _, _, _, [], _, h, _, _, _ => by simp [Profile.arrive] at h
  | fuel + 1, p, repos, anc, nest, i :: rest, arr, h, hr, hn, hs => by
    simp only [Profile.arrive] at h
    split at h
    · cases h
    · rename_i st a hup
      obtain ⟨hn1, hs1, hd1⟩ := loopUpTo_inv _ _ _ _ _ hup hn
      obtain ⟨_, ⟨extra, hextra⟩⟩ := loopUpTo_frame _ _ _ _ _ hup
      obtain ⟨hk1, hmem⟩ := loopUpTo_keys hK _ _ _ _ _ (fun x hx => hx) hr hn hs hup
      simp only at hextra hs1 hd1 hmem
      split at h
      · injection h with h
        subst h
        refine ⟨hk1, ?_⟩
        simp only [hextra, List.length_append, List.length_cons, List.length_nil]
        omega
      · rename_i j rest'
        split_ifs at h with hc
        split at h
        · rename_i q repos' hq
          obtain ⟨d, _, _, hck, hrepos⟩ := nestedCall_ok hq
          have hr1 : Reachable env root st.p.subscription st.p.definition := by
            rw [hs1, hd1]; exact hr
          have hqr := nestedCall_reachable hr1 (by rw [hd1]; exact hmem)
            (by simpa using hc.2) hq
          obtain ⟨h1, h2⟩ := arrive_depth hK fuel q repos' _ _ (j :: rest') arr h hqr
            (by rw [hrepos]; exact nodup_append_key hn1 hck)
            (by
              intro k hkm
              simp only [hrepos, List.mem_append, List.mem_singleton] at hkm
              rcases hkm with hkm | hkm
              · exact hk1 k hkm
              · rw [hkm, profileRepo_eq_repoKey]
                exact hK _ _ hqr)
          refine ⟨h1, ?_⟩
          simp only [hrepos, hextra, List.length_append, List.length_cons, List.length_nil] at h2 ⊢
          omega
        · cases h

/-- C12.  Let `K` be a finite set holding the repo key of every profile
reachable from the root subscription through the Fetcher.  Then `MakeArtifacts`
returns as soon as nested calls may go as deep as `K` has keys (and with any
greater allowance), and no entry it ever reaches lies deeper than the number
of keys in `K`. -/
theorem MakeArtifacts_terminates (env : Env) (sub : profilesv1.ProfileSubscription)
    (rootDir gitRepoNamespace gitRepoName : String) (K : Finset String)
    (hK : ∀ s d, Reachable env sub s d → repoKey s ∈ K) :
    (∀ fuel, K.card ≤ fuel →
      ∃ r, MakeArtifacts env fuel sub rootDir gitRepoNamespace gitRepoName = some r) ∧
    (∀ (fuel : Nat) (path : List Nat) (arr : Arrival),
      reach env fuel sub rootDir gitRepoNamespace gitRepoName path = some arr →
      path.length ≤ K.card) := by
  constructor
  · intro fuel hfuel
    unfold MakeArtifacts
    dsimp only
    split
    · exact ⟨_, rfl⟩
    · rename_i d hd
      have hroot : Reachable env sub sub d := Reachable.root hd
      apply makeArtifacts_returns hK fuel _ _ (by simpa [newProfile] using hroot)
        (List.nodup_singleton _)
      · intro k hk
        rw [List.mem_singleton] at hk
        rw [hk, profileRepo_eq_repoKey]
        exact hK _ _ hroot
      · simp only [List.length_singleton]
        omega
  · intro fuel path arr h
    obtain ⟨hn, _⟩ := reach_inv env h
    unfold reach at h
    dsimp only at h
    split at h
    · cases h
    · rename_i d hd
      have hroot : Reachable env sub sub d := Reachable.root hd
      obtain ⟨hk, hlen⟩ := arrive_depth hK _ _ _ _ _ _ _ h (by simpa [newProfile] using hroot)
        (List.nodup_singleton _)
        (by
          intro k hk
          rw [List.mem_singleton] at hk
          rw [hk, profileRepo_eq_repoKey]
          exact hK _ _ hroot)
      have := length_le_card_of_nodup hn hk
      simp only [List.length_singleton] at hlen
      omega

/-- The profiles reachable from the demonstration profile `self`: itself. -/
theorem demo_self_reachable (s : profilesv1.ProfileSubscription) (d : profilesv1.ProfileDefinition)
    (h : Reachable demo.env (demo.sub "https://example.com/self" "self-path") s d) :
    s = demo.sub "https://example.com/self" "self-path" ∧
      d = demo.definitionAt "https://example.com/self" := by
  induction h with
  | root hd =>
    have hfetch : demo.env.getProfileDefinition
        (demo.sub "https://example.com/self" "self-path").Spec.ProfileURL
        (if (demo.sub "https://example.com/self" "self-path").Spec.Tag = "" then
          (demo.sub "https://example.com/self" "self-path").Spec.Branch
        else (demo.sub "https://example.com/self" "self-path").Spec.Tag)
        (demo.sub "https://example.com/self" "self-path").Spec.Path
        = .ok (demo.definitionAt "https://example.com/self") := rfl
    rw [hfetch] at hd
    injection hd with hd
    exact ⟨rfl, hd.symm⟩
  | nested _ hmem hk hd ih =>
    obtain ⟨hs, hdef⟩ := ih
    subst hs; subst hdef
    have hcases : ∀ a ∈ (demo.definitionAt "https://example.com/self").Spec.Artifacts,
        a.Kind = profilesv1.ProfileKind →
        a = demo.nested "again" "https://example.com/self" "main" "self-path" := by decide
    have ha := hcases _ hmem hk
    subst ha
    have hfetch : demo.env.getProfileDefinition
        (demo.nested "again" "https://example.com/self" "main" "self-path").Profile.URL
        (nestedBranchOrTag (demo.nested "again" "https://example.com/self" "main" "self-path"))
        (nestedFetchPath (demo.nested "again" "https://example.com/self" "main" "self-path"))
        = .ok (demo.definitionAt "https://example.com/self") := rfl
    rw [hfetch] at hd
    injection hd with hd
    exact ⟨by decide, hd.symm⟩

/-- C12 at the demonstration profile `self`, which declares itself: one key is
reachable, and the resolution returns with nested calls one level deep. -/
theorem MakeArtifacts_terminates_witness :
    (∃ r, MakeArtifacts demo.env 1 (demo.sub "https://example.com/self" "self-path") "root"
        "flux-system" "repo" = some r) ∧
      MakeArtifacts demo.env 1 (demo.sub "https://example.com/self" "self-path") "root"
        "flux-system" "repo" = some ([], some (.recursive "https://example.com/self" "main")) ∧
      reach demo.env 1 (demo.sub "https://example.com/self" "self-path") "root" "flux-system" "repo"
        [1, 0] = none :=
  ⟨(MakeArtifacts_terminates demo.env (demo.sub "https://example.com/self" "self-path") "root"
      "flux-system" "repo" {"https://example.com/self:main:self-path"}
      (fun s d h => by
        rw [(demo_self_reachable s d h).1]
        decide)).1 1 (by decide),
    by decide, by decide⟩

/-! ## C13: determinism -/

/-- The store after the receiver of a recursive call was created: one object
more, the new one being the receiver of the value-passing model, every other
one untouched. -/
theorem heap_nestedSub (σ : Store) (p : Nat) (artifact : profilesv1.Artifact)
    (nestedProfileDef : profilesv1.ProfileDefinition) :
    (heap.nestedSub σ p artifact nestedProfileDef).1 = σ.size ∧
      (heap.nestedSub σ p artifact nestedProfileDef).2.size = σ.size + 1 ∧
      (heap.nestedSub σ p artifact nestedProfileDef).2.obj σ.size =
        nestedSub (σ.obj p) artifact nestedProfileDef ∧
      ∀ b, b ≠ σ.size → (heap.nestedSub σ p artifact nestedProfileDef).2.obj b = σ.obj b := by
  refine ⟨rfl, rfl, ?_, ?_⟩
  · simp [heap.nestedSub, heap.newProfile, Store.write, nestedSub]
  · intro b hb
    simp [heap.nestedSub, heap.newProfile, Store.write, hb]

/-- Frames compose along a call that allocates a receiver and runs on it. -/
theorem heap_frame_nested (σ σ2 σ3 : Store)
    (hsize : σ2.size = σ.size + 1) (hsame : ∀ b, b ≠ σ.size → σ2.obj b = σ.obj b)
    (hframe : heap.Frame σ.size σ2 σ3) :
    σ.size ≤ σ3.size ∧ (∀ b, b < σ.size → σ3.obj b = σ.obj b) := by
  refine ⟨by have := hframe.1; omega, fun b hb => ?_⟩
  rw [hframe.2 b (by omega) (by omega), hsame b (by omega)]

/-- The `ProfileKind` case on a receiver in the store does what it does on the
receiver as a value, provided the recursive calls do. -/
theorem heap_profileCase_sim (env : Env)
    (recS : Nat → List String → Store → Option (Result × Store))
    (rec : Profile → List String → Option Result)
    (hrec : ∀ q repos τ, q < τ.size →
      (rec (τ.obj q) repos = none → recS q repos τ = none) ∧
      (∀ r, rec (τ.obj q) repos = some r →
        ∃ τ', recS q repos τ = some (r, τ') ∧ heap.Frame q τ τ'))
    (p : Nat) (st : LoopState) (artifact : profilesv1.Artifact) (σ : Store)
    (hp : p < σ.size) (hobj : σ.obj p = st.p) :
    (profileCase env rec st artifact = none →
        heap.profileCase env recS p st.profileRepos st.artifacts artifact σ = none) ∧
      (∀ s, profileCase env rec st artifact = some s →
        ∃ σ', heap.profileCase env recS p st.profileRepos st.artifacts artifact σ
            = some (heap.Step.ofStep s, σ') ∧ heap.Frame p σ σ' ∧
          ∀ st', s = .next st' → σ'.obj p = st'.p) := by
  unfold profileCase heap.profileCase nestedCall
  dsimp only
  cases hf : env.getProfileDefinition artifact.Profile.URL (nestedBranchOrTag artifact)
      (nestedFetchPath artifact) with
  | error err =>
    refine ⟨fun h => by simp at h, fun s hs => ?_⟩
    simp only [Option.some.injEq] at hs
    subst hs
    exact ⟨σ, rfl, ⟨le_refl _, fun _ _ _ => rfl⟩, fun st' h => by cases h⟩
  | ok d =>
    obtain ⟨h1, h2, h3, h4⟩ := heap_nestedSub σ p artifact d
    rw [hobj] at h3
    simp only
    generalize heap.nestedSub σ p artifact d = created at h1 h2 h3 h4 ⊢
    obtain ⟨q, σ2⟩ := created
    simp only at h1 h2 h3 h4 ⊢
    subst h1
    rw [h3]
    by_cases hc : containsKey st.profileRepos (nestedSub st.p artifact d).profileRepo = true
    · rw [if_pos hc, if_pos hc]
      refine ⟨fun h => by simp at h, fun s hs => ?_⟩
      simp only [Option.some.injEq] at hs
      subst hs
      exact ⟨σ2, rfl, ⟨by omega, fun b hb _ => h4 b (by omega)⟩, fun st' h => by cases h⟩
    · rw [if_neg hc, if_neg hc]
      simp only
      have hq := hrec σ.size (st.profileRepos ++ [(nestedSub st.p artifact d).profileRepo]) σ2
        (by omega)
      rw [h3] at hq
      cases hr : rec (nestedSub st.p artifact d)
          (st.profileRepos ++ [(nestedSub st.p artifact d).profileRepo]) with
      | none =>
        rw [hq.1 hr]
        exact ⟨fun _ => rfl, fun s hs => by simp at hs⟩
      | some r =>
        obtain ⟨σ3, hS, hframe⟩ := hq.2 r hr
        obtain ⟨hsz, hsame⟩ := heap_frame_nested σ σ2 σ3 h2 h4 hframe
        rw [hS]
        obtain ⟨arts, e⟩ := r
        cases e with
        | some err =>
          refine ⟨fun h => by simp at h, fun s hs => ?_⟩
          simp only [Option.some.injEq] at hs
          subst hs
          exact ⟨σ3, rfl, ⟨hsz, fun b hb _ => hsame b hb⟩, fun st' h => by cases h⟩
        | none =>
          refine ⟨fun h => by simp at h, fun s hs => ?_⟩
          simp only [Option.some.injEq] at hs
          subst hs
          refine ⟨_, rfl, ⟨hsz, fun b hb hne => ?_⟩, fun st' h => ?_⟩
          · simp only [Store.write, if_neg hne]
            exact hsame b hb
          · cases h
            simp only [Store.write, if_true]
            rw [hsame p hp, hobj]

/-- One iteration on a receiver in the store does what it does on the receiver
as a value, provided the recursive calls do. -/
theorem heap_iteration_sim (env : Env)
    (recS : Nat → List String → Store → Option (Result × Store))
    (rec : Profile → List String → Option Result)
    (hrec : ∀ q repos τ, q < τ.size →
      (rec (τ.obj q) repos = none → recS q repos τ = none) ∧
      (∀ r, rec (τ.obj q) repos = some r →
        ∃ τ', recS q repos τ = some (r, τ') ∧ heap.Frame q τ τ'))
    (p : Nat) (st : LoopState) (artifact : profilesv1.Artifact) (σ : Store)
    (hp : p < σ.size) (hobj : σ.obj p = st.p) :
    (iteration env rec st artifact = none →
        heap.iteration env recS p st.profileRepos st.artifacts artifact σ = none) ∧
      (∀ s, iteration env rec st artifact = some s →
        ∃ σ', heap.iteration env recS p st.profileRepos st.artifacts artifact σ
            = some (heap.Step.ofStep s, σ') ∧ heap.Frame p σ σ' ∧
          ∀ st', s = .next st' → σ'.obj p = st'.p) := by
  have hst : ({ p := st.p, profileRepos := st.profileRepos, artifacts := st.artifacts } : LoopState)
      = st := rfl
  unfold iteration heap.iteration
  cases hv : env.Validate artifact with
  | some err =>
    refine ⟨fun h => by simp at h, fun s hs => ?_⟩
    simp only [Option.some.injEq] at hs
    subst hs
    exact ⟨σ, rfl, ⟨le_refl _, fun _ _ _ => rfl⟩, fun st' h => by cases h⟩
  | none =>
    dsimp only
    rw [hobj, hst]
    by_cases h1 : (qualify st.p artifact).Kind = profilesv1.ProfileKind
    · rw [if_pos h1, if_pos h1]
      exact heap_profileCase_sim env recS rec hrec p st (qualify st.p artifact) σ hp hobj
    · rw [if_neg h1, if_neg h1]
      by_cases h2 : (qualify st.p artifact).Kind = profilesv1.HelmChartKind
      · rw [if_pos h2, if_pos h2]
        refine ⟨fun h => by simp at h, fun s hs => ?_⟩
        simp only [Option.some.injEq] at hs
        subst hs
        refine ⟨σ, rfl, ⟨le_refl _, fun _ _ _ => rfl⟩, fun st' h => ?_⟩
        obtain ⟨art, hart⟩ := helmChartCase_next h
        rw [hart, hobj]
      · rw [if_neg h2, if_neg h2]
        by_cases h3 : (qualify st.p artifact).Kind = profilesv1.KustomizeKind
        · rw [if_pos h3, if_pos h3]
          refine ⟨fun h => by simp at h, fun s hs => ?_⟩
          simp only [Option.some.injEq] at hs
          subst hs
          refine ⟨σ, rfl, ⟨le_refl _, fun _ _ _ => rfl⟩, fun st' h => ?_⟩
          obtain ⟨art, hart⟩ := kustomizeCase_next h
          rw [hart, hobj]
        · rw [if_neg h3, if_neg h3]
          refine ⟨fun h => by simp at h, fun s hs => ?_⟩
          simp only [Option.some.injEq] at hs
          subst hs
          exact ⟨σ, rfl, ⟨le_refl _, fun _ _ _ => rfl⟩, fun st' h => by cases h⟩

/-- The loop on a receiver in the store returns what it returns on the receiver
as a value, provided the recursive calls do. -/
theorem heap_loop_sim (env : Env)
    (recS : Nat → List String → Store → Option (Result × Store))
    (rec : Profile → List String → Option Result)
    (hrec : ∀ q repos τ, q < τ.size →
      (rec (τ.obj q) repos = none → recS q repos τ = none) ∧
      (∀ r, rec (τ.obj q) repos = some r →
        ∃ τ', recS q repos τ = some (r, τ') ∧ heap.Frame q τ τ'))
    (p : Nat) (todo : List profilesv1.Artifact) :
    ∀ (st : LoopState) (σ : Store), p < σ.size → σ.obj p = st.p →
      (loop env rec st todo = none →
          heap.loop env recS p st.profileRepos st.artifacts todo σ = none) ∧
        (∀ r, loop env rec st todo = some r →
          ∃ σ', heap.loop env recS p st.profileRepos st.artifacts todo σ = some (r, σ') ∧
            heap.Frame p σ σ') := by
  induction todo with
  | nil =>
    intro st σ _ _
    refine ⟨fun h => by simp [loop] at h, fun r hr => ?_⟩
    simp only [loop, Option.some.injEq] at hr
    subst hr
    exact ⟨σ, rfl, le_refl _, fun _ _ _ => rfl⟩
  | cons artifact rest ih =>
    intro st σ hp hobj
    obtain ⟨hnone, hsome⟩ := heap_iteration_sim env recS rec hrec p st artifact σ hp hobj
    unfold loop heap.loop
    cases hit : iteration env rec st artifact with
    | none =>
      rw [hnone hit]
      exact ⟨fun _ => rfl, fun r hr => by simp at hr⟩
    | some s =>
      obtain ⟨σ1, hS, hframe, hnext⟩ := hsome s hit
      rw [hS]
      cases s with
      | ret r0 =>
        refine ⟨fun h => by simp at h, fun r hr => ?_⟩
        simp only [Option.some.injEq] at hr
        subst hr
        exact ⟨σ1, rfl, hframe⟩
      | next st1 =>
        simp only [heap.Step.ofStep]
        obtain ⟨ihnone, ihsome⟩ := ih st1 σ1 (lt_of_lt_of_le hp hframe.1) (hnext st1 rfl)
        refine ⟨ihnone, fun r hr => ?_⟩
        obtain ⟨σ2, hS2, hframe2⟩ := ihsome r hr
        refine ⟨σ2, hS2, le_trans hframe.1 hframe2.1, fun b hb hne => ?_⟩
        rw [hframe2.2 b (lt_of_lt_of_le hb hframe.1) hne, hframe.2 b hb hne]

/-- The call `makeArtifacts` on a receiver in the store returns what it returns on the
receiver as a value (and runs out of fuel when that does); the store it leaves
has every other object that was there unchanged. -/
theorem heap_makeArtifacts_sim (env : Env) (fuel : Nat) :
    ∀ q repos (τ : Store), q < τ.size →
      ((τ.obj q).makeArtifacts env fuel repos = none → heap.makeArtifacts env fuel q repos τ = none) ∧
      (∀ r, (τ.obj q).makeArtifacts env fuel repos = some r →
        ∃ τ', heap.makeArtifacts env fuel q repos τ = some (r, τ') ∧ heap.Frame q τ τ') := by
  induction fuel with
  | zero =>
    intro q repos τ _
    exact ⟨fun _ => rfl, fun r hr => by simp [Profile.makeArtifacts] at hr⟩
  | succ fuel ih =>
    intro q repos τ hq
    unfold Profile.makeArtifacts heap.makeArtifacts
    exact heap_loop_sim env _ _ ih q _ { p := τ.obj q, profileRepos := repos, artifacts := [] } τ hq rfl

/-- The function `MakeArtifacts` run in any store returns what the
value-passing `MakeArtifacts` returns, and runs out of fuel when that does. -/
theorem heap_MakeArtifacts_result (env : Env) (fuel : Nat) (sub : profilesv1.ProfileSubscription)
    (rootDir gitRepoNamespace gitRepoName : String) (σ : Store) :
    (heap.MakeArtifacts env fuel sub rootDir gitRepoNamespace gitRepoName σ).map Prod.fst =
      MakeArtifacts env fuel sub rootDir gitRepoNamespace gitRepoName := by
  unfold heap.MakeArtifacts MakeArtifacts
  dsimp only
  cases hf : env.getProfileDefinition sub.Spec.ProfileURL
      (if sub.Spec.Tag = "" then sub.Spec.Branch else sub.Spec.Tag) sub.Spec.Path with
  | error err => rfl
  | ok d =>
    simp only
    have hobj : (heap.newProfile σ d sub rootDir gitRepoNamespace gitRepoName).2.obj
        (heap.newProfile σ d sub rootDir gitRepoNamespace gitRepoName).1
          = newProfile d sub rootDir gitRepoNamespace gitRepoName := by
      simp [heap.newProfile]
    have hlt : (heap.newProfile σ d sub rootDir gitRepoNamespace gitRepoName).1
        < (heap.newProfile σ d sub rootDir gitRepoNamespace gitRepoName).2.size := by
      simp [heap.newProfile]
    have hsim := heap_makeArtifacts_sim env fuel _
      [(newProfile d sub rootDir gitRepoNamespace gitRepoName).profileRepo] _ hlt
    rw [hobj] at hsim ⊢
    cases hr : (newProfile d sub rootDir gitRepoNamespace gitRepoName).makeArtifacts env fuel
        [(newProfile d sub rootDir gitRepoNamespace gitRepoName).profileRepo] with
    | none => rw [hsim.1 hr]; rfl
    | some r =>
      obtain ⟨τ, hτ, _⟩ := hsim.2 r hr
      rw [hτ]; rfl

/-- C13.  `MakeArtifacts` is run in a store of `Profile` objects and leaves a
store behind, in which the resets of the nested-name field (line 99) are
recorded.  A later invocation on the same subscription, root directory and
git-source, against collaborators that give the same responses, started in the
store the first one left, returns, and returns the identical result (the same
error, or the same artifacts in the same order), however much deeper it is
allowed to nest; and whatever store and nesting depth an invocation is given,
if it returns, it returns that result. -/
theorem MakeArtifacts_deterministic (env env' : Env)
    (sub : profilesv1.ProfileSubscription) (rootDir gitRepoNamespace gitRepoName : String)
    (fuel : Nat) (σ σ1 : Store) (r : Result)
    (hfetch : ∀ url ref path,
      env.getProfileDefinition url ref path = env'.getProfileDefinition url ref path)
    (hvalidate : ∀ artifact, env.Validate artifact = env'.Validate artifact)
    (h : heap.MakeArtifacts env fuel sub rootDir gitRepoNamespace gitRepoName σ = some (r, σ1)) :
    (∀ fuel', fuel ≤ fuel' →
        ∃ σ2, heap.MakeArtifacts env' fuel' sub rootDir gitRepoNamespace gitRepoName σ1
          = some (r, σ2)) ∧
      (∀ fuel' τ r' τ',
        heap.MakeArtifacts env' fuel' sub rootDir gitRepoNamespace gitRepoName τ = some (r', τ') →
          r' = r) := by
  have henv : env' = env := by
    cases env
    cases env'
    simp only [Env.mk.injEq]
    exact ⟨funext fun url => funext fun ref => funext fun path => (hfetch url ref path).symm,
      funext fun a => (hvalidate a).symm⟩
  subst henv
  have hval : MakeArtifacts env' fuel sub rootDir gitRepoNamespace gitRepoName = some r := by
    rw [← heap_MakeArtifacts_result env' fuel sub rootDir gitRepoNamespace gitRepoName σ, h]
    rfl
  refine ⟨fun fuel' hle => ?_, fun fuel' τ r' τ' h' => ?_⟩
  · have h2 := heap_MakeArtifacts_result env' fuel' sub rootDir gitRepoNamespace gitRepoName σ1
    rw [MakeArtifacts_mono env' hle hval] at h2
    cases hx : heap.MakeArtifacts env' fuel' sub rootDir gitRepoNamespace gitRepoName σ1 with
    | none => rw [hx] at h2; cases h2
    | some x =>
      rw [hx] at h2
      obtain ⟨r2, σ2⟩ := x
      simp only [Option.map_some', Option.some.injEq] at h2
      subst h2
      exact ⟨σ2, rfl⟩
  · have h2 := heap_MakeArtifacts_result env' fuel' sub rootDir gitRepoNamespace gitRepoName τ
    rw [h'] at h2
    have h3 := MakeArtifacts_mono env' (Nat.le_max_left fuel fuel') hval
    have h4 := MakeArtifacts_mono env' (Nat.le_max_right fuel fuel') h2.symm
    rw [h3] at h4
    simp only [Option.map_some', Option.some.injEq] at h4
    exact h4.symm

/-- C13 at the demonstration root.  The first invocation runs in a store that
holds two objects already and leaves five; the object of the nested profile
`p` (definition `p-def`), created with the prefix `p`, is left with the prefix
reset, the one of `q` inside it keeps `p/q`.  A second invocation started in
that store, allowed to nest deeper, returns the same artifacts. -/
theorem MakeArtifacts_deterministic_witness :
    heap.MakeArtifacts demo.env 3 (demo.sub demo.rootURL "nginx") "root" "flux-system" "repo"
        demo.store = some ((demo.resolved, none), demo.storeAfter) ∧
      (demo.store.size, demo.storeAfter.size) = (2, 5) ∧
      ((demo.storeAfter.obj 3).definition.Name, (demo.storeAfter.obj 3).nestedName) = ("p-def", "") ∧
      ((demo.storeAfter.obj 4).definition.Name, (demo.storeAfter.obj 4).nestedName)
        = ("q-def", "p/q") ∧
      ∃ σ2, heap.MakeArtifacts demo.env 5 (demo.sub demo.rootURL "nginx") "root" "flux-system"
        "repo" demo.storeAfter = some ((demo.resolved, none), σ2) :=
  have key : ∀ (x : Option (Result × Store)) (r : Result) (d : Result × Store),
      x.map Prod.fst = some r → x = some (r, (x.getD d).2) := by
    intro x r d hx
    cases x with
    | none => cases hx
    | some y =>
      obtain ⟨a, b⟩ := y
      simp only [Option.map_some', Option.some.injEq] at hx
      subst hx
      rfl
  have h : heap.MakeArtifacts demo.env 3 (demo.sub demo.rootURL "nginx") "root" "flux-system"
      "repo" demo.store = some ((demo.resolved, none), demo.storeAfter) :=
    key _ _ (([], none), demo.store) (by decide)
  ⟨h, by decide, by decide, by decide,
    (MakeArtifacts_deterministic demo.env demo.env (demo.sub demo.rootURL "nginx") "root"
      "flux-system" "repo" 3 demo.store demo.storeAfter (demo.resolved, none)
      (fun _ _ _ => rfl) (fun _ => rfl) h).1 5 (by decide)⟩

/-- The store matters to the method `makeArtifacts`: called a second time on
the same receiver, in the store its first call left, it returns other names,
the first call having reset the prefix of the receiver.  `MakeArtifacts` never
does this: it creates the receiver of every call it makes. -/
theorem makeArtifacts_twice_on_one_receiver :
    ((heap.makeArtifacts demo.env 2 0 [] demo.nestedStore).map
        fun x => (x.1.1.map fun a => a.Name, x.1.2, (x.2.obj 0).nestedName))
        = some (["p/a", "p/q/leaf", "k"], none, "") ∧
      ((heap.makeArtifacts demo.env 2 0 []
          ((heap.makeArtifacts demo.env 2 0 [] demo.nestedStore).getD
            (([], none), demo.nestedStore)).2).map
        fun x => (x.1.1.map fun a => a.Name, x.1.2))
        = some (["a", "q/leaf", "k"], none) := by
  decide

/-! ## C15, C16 and C17: what a leaf artifact carries -/

/-- The artifact built for a kustomize leaf, field by field. -/
theorem builtFrom_kustomize {env : Env} {rootDir ns name : String} {art : Artifact} {leaf : Leaf}
    (h : BuiltFrom env rootDir ns name art leaf)
    (hk : leaf.artifact.Kind = profilesv1.KustomizeKind) :
    ∃ p : Profile, p.subscription = leaf.subscription ∧ p.definition = leaf.definition ∧
      p.rootDir = rootDir ∧ p.gitRepositoryNamespace = ns ∧ p.gitRepositoryName = name ∧
      art.Name = (qualify p leaf.artifact).Name ∧
      art.Objects = [Object.kustomization (p.makeKustomization (qualify p leaf.artifact)
        (filepath.Join [rootDir, "artifacts", art.Name, leaf.artifact.Path]))] ∧
      art.RepoURL = leaf.subscription.Spec.ProfileURL ∧
      art.Branch = (if leaf.subscription.Spec.Tag ≠ "" then leaf.subscription.Spec.Tag
        else leaf.subscription.Spec.Branch) ∧
      art.SparseFolder = leaf.definition.Name ∧
      art.PathsToCopy = [leaf.artifact.Path] := by
  obtain ⟨_, _, st, recurse, hs, hd, h1, h2, h3, hit⟩ := h
  refine ⟨st.p, hs, hd, h1, h2, h3, ?_⟩
  have hk1 : ¬ profilesv1.KustomizeKind = profilesv1.ProfileKind := by decide
  have hk2 : ¬ profilesv1.KustomizeKind = profilesv1.HelmChartKind := by decide
  unfold iteration at hit
  split at hit
  · cases hit
  · simp only [qualify_Kind] at hit
    rw [hk, if_neg hk1, if_neg hk2, if_pos rfl] at hit
    injection hit with hit
    unfold kustomizeCase at hit
    by_cases hg : st.p.gitRepositoryNamespace = "" ∧ st.p.gitRepositoryName = ""
    · simp only [hg, and_self, if_true] at hit
      cases hit
    · simp only [hg, if_false] at hit
      injection hit with hit
      injection hit with _ _ hit
      have hart := List.append_cancel_left hit
      injection hart with hart _
      subst hart
      simp [hs, hd, h1]

/-- The artifact built for a helm-chart leaf, field by field. -/
theorem builtFrom_helmChart {env : Env} {rootDir ns name : String} {art : Artifact} {leaf : Leaf}
    (h : BuiltFrom env rootDir ns name art leaf)
    (hk : leaf.artifact.Kind = profilesv1.HelmChartKind) :
    ∃ p : Profile, p.subscription = leaf.subscription ∧ p.definition = leaf.definition ∧
      p.rootDir = rootDir ∧ p.gitRepositoryNamespace = ns ∧ p.gitRepositoryName = name ∧
      art.Name = (qualify p leaf.artifact).Name ∧
      art.Objects =
        Object.helmRelease
          (if leaf.artifact.Path ≠ "" then
            { p.makeHelmRelease (qualify p leaf.artifact) leaf.subscription.Spec.Path with
              Chart := filepath.Join [rootDir, "artifacts", art.Name, leaf.artifact.Path] }
          else p.makeHelmRelease (qualify p leaf.artifact) leaf.subscription.Spec.Path)
        :: (match leaf.artifact.Chart with
          | some chart => [Object.helmRepository (p.makeHelmRepository chart.URL chart.Name)]
          | none => []) ∧
      (leaf.artifact.Path ≠ "" →
        art.RepoURL = leaf.subscription.Spec.ProfileURL ∧
        art.Branch = (if leaf.subscription.Spec.Tag ≠ "" then leaf.subscription.Spec.Tag
          else leaf.subscription.Spec.Branch) ∧
        art.SparseFolder = leaf.definition.Name ∧
        art.PathsToCopy = [leaf.artifact.Path]) ∧
      (leaf.artifact.Path = "" →
        art.RepoURL = "" ∧ art.Branch = "" ∧ art.SparseFolder = "" ∧ art.PathsToCopy = []) := by
  obtain ⟨_, _, st, recurse, hs, hd, h1, h2, h3, hit⟩ := h
  refine ⟨st.p, hs, hd, h1, h2, h3, ?_⟩
  have hh1 : ¬ profilesv1.HelmChartKind = profilesv1.ProfileKind := by decide
  unfold iteration at hit
  split at hit
  · cases hit
  · simp only [qualify_Kind] at hit
    rw [hk, if_neg hh1, if_pos rfl] at hit
    injection hit with hit
    unfold helmChartCase at hit
    simp only [qualify_Path, qualify_Chart] at hit
    by_cases hp : leaf.artifact.Path = ""
    · simp only [hp, ne_eq, not_true_eq_false, if_false] at hit
      injection hit with hit
      injection hit with _ _ hit
      have hart := List.append_cancel_left hit
      injection hart with hart _
      subst hart
      cases hc : leaf.artifact.Chart <;> simp [hs, hp]
    · by_cases hg : st.p.gitRepositoryNamespace = "" ∧ st.p.gitRepositoryName = ""
      · simp only [hp, hg, ne_eq, not_false_eq_true, and_self, if_true] at hit
        cases hit
      · simp only [hp, hg, ne_eq, not_false_eq_true, if_true, if_false] at hit
        injection hit with hit
        injection hit with _ _ hit
        have hart := List.append_cancel_left hit
        injection hart with hart _
        subst hart
        cases hc : leaf.artifact.Chart <;> simp [hs, hd, h1, hp]

/-- The artifacts of a successful resolution are built, one by one and in
order, from the leaves of the flattened root definition. -/
theorem MakeArtifacts_builtFrom {env : Env} {fuel : Nat} {sub : profilesv1.ProfileSubscription}
    {rootDir ns name : String} {arts : List Artifact}
    (h : MakeArtifacts env fuel sub rootDir ns name = some (arts, none)) :
    ∃ definition,
      env.getProfileDefinition sub.Spec.ProfileURL
        (if sub.Spec.Tag = "" then sub.Spec.Branch else sub.Spec.Tag) sub.Spec.Path = .ok definition ∧
      List.Forall₂ (BuiltFrom env rootDir ns name) arts (flatten env fuel sub definition) := by
  unfold MakeArtifacts at h
  dsimp only at h
  split at h
  · cases h
  · rename_i d hd
    exact ⟨d, hd, makeArtifacts_flatten env rootDir ns name fuel _ _ arts rfl rfl rfl h⟩

/-- C15.  In a successful resolution every emitted artifact is built from a
leaf of the flattened root definition, in order, and carries this source-copy
metadata: for a kustomize leaf and for a helm-chart leaf with a non-empty local
path, `RepoURL` is the profile URL of the enclosing subscription, `Branch` its
tag if that is non-empty and its branch otherwise, `SparseFolder` the name of
the enclosing definition and `PathsToCopy` the declared path alone; for a
helm-chart leaf with an empty path, `RepoURL`, `Branch` and `SparseFolder` are
empty and so is `PathsToCopy`. -/
theorem source_copy_metadata (env : Env) (fuel : Nat) (sub : profilesv1.ProfileSubscription)
    (rootDir gitRepoNamespace gitRepoName : String) (arts : List Artifact)
    (h : MakeArtifacts env fuel sub rootDir gitRepoNamespace gitRepoName = some (arts, none)) :
    ∃ definition,
      env.getProfileDefinition sub.Spec.ProfileURL
        (if sub.Spec.Tag = "" then sub.Spec.Branch else sub.Spec.Tag) sub.Spec.Path = .ok definition ∧
      List.Forall₂ (fun (art : Artifact) (leaf : Leaf) =>
        ((leaf.artifact.Kind = profilesv1.KustomizeKind ∨
            (leaf.artifact.Kind = profilesv1.HelmChartKind ∧ leaf.artifact.Path ≠ "")) →
          art.RepoURL = leaf.subscription.Spec.ProfileURL ∧
          art.Branch = (if leaf.subscription.Spec.Tag ≠ "" then leaf.subscription.Spec.Tag
            else leaf.subscription.Spec.Branch) ∧
          art.SparseFolder = leaf.definition.Name ∧
          art.PathsToCopy = [leaf.artifact.Path]) ∧
        ((leaf.artifact.Kind = profilesv1.HelmChartKind ∧ leaf.artifact.Path = "") →
          art.RepoURL = "" ∧ art.Branch = "" ∧ art.SparseFolder = "" ∧ art.PathsToCopy = []))
        arts (flatten env fuel sub definition) := by
  obtain ⟨d, hd, hall⟩ := MakeArtifacts_builtFrom h
  refine ⟨d, hd, hall.imp ?_⟩
  intro art leaf hb
  constructor
  · rintro (hk | ⟨hk, hp⟩)
    · obtain ⟨_, _, _, _, _, _, _, _, h1, h2, h3, h4⟩ := builtFrom_kustomize hb hk
      exact ⟨h1, h2, h3, h4⟩
    · obtain ⟨_, _, _, _, _, _, _, _, h1, _⟩ := builtFrom_helmChart hb hk
      exact h1 hp
  · rintro ⟨hk, hp⟩
    obtain ⟨_, _, _, _, _, _, _, _, _, h2⟩ := builtFrom_helmChart hb hk
    exact h2 hp

/-- C15 at the demonstration root: four kustomize leaves with metadata, and the
remote chart `redis` without. -/
theorem source_copy_metadata_witness :
    demo.resolved.map (fun a => (a.RepoURL, a.Branch, a.SparseFolder, a.PathsToCopy)) =
        [("https://example.com/root", "main", "nginx-1", ["overlay"]),
         ("https://example.com/p", "main", "p-def", ["a-path"]),
         ("https://example.com/q", "main", "q-def", ["leaf-path"]),
         ("https://example.com/p", "main", "p-def", ["k-path"]),
         ("", "", "", [])] ∧
      ∃ definition,
        demo.env.getProfileDefinition demo.rootURL "main" "nginx" = .ok definition ∧
        List.Forall₂ (fun (art : Artifact) (leaf : Leaf) =>
          ((leaf.artifact.Kind = profilesv1.KustomizeKind ∨
              (leaf.artifact.Kind = profilesv1.HelmChartKind ∧ leaf.artifact.Path ≠ "")) →
            art.RepoURL = leaf.subscription.Spec.ProfileURL ∧
            art.Branch = (if leaf.subscription.Spec.Tag ≠ "" then leaf.subscription.Spec.Tag
              else leaf.subscription.Spec.Branch) ∧
            art.SparseFolder = leaf.definition.Name ∧
            art.PathsToCopy = [leaf.artifact.Path]) ∧
          ((leaf.artifact.Kind = profilesv1.HelmChartKind ∧ leaf.artifact.Path = "") →
            art.RepoURL = "" ∧ art.Branch = "" ∧ art.SparseFolder = "" ∧ art.PathsToCopy = []))
          demo.resolved (flatten demo.env 3 (demo.sub demo.rootURL "nginx") definition) :=
  ⟨by decide,
    source_copy_metadata demo.env 3 (demo.sub demo.rootURL "nginx") "root" "flux-system" "repo"
      demo.resolved (by decide)⟩

/-- C16.  In a successful resolution every emitted artifact is built from a
leaf of the flattened root definition, in order, and carries these objects: for
a kustomize leaf exactly one overlay object; for a helm-chart leaf the release
object first, alone when the leaf names no remote chart, and followed by
exactly one chart-repository object when it does, whether or not a local path
is set. -/
theorem objects_per_leaf (env : Env) (fuel : Nat) (sub : profilesv1.ProfileSubscription)
    (rootDir gitRepoNamespace gitRepoName : String) (arts : List Artifact)
    (h : MakeArtifacts env fuel sub rootDir gitRepoNamespace gitRepoName = some (arts, none)) :
    ∃ definition,
      env.getProfileDefinition sub.Spec.ProfileURL
        (if sub.Spec.Tag = "" then sub.Spec.Branch else sub.Spec.Tag) sub.Spec.Path = .ok definition ∧
      List.Forall₂ (fun (art : Artifact) (leaf : Leaf) =>
        (leaf.artifact.Kind = profilesv1.KustomizeKind ∨
          leaf.artifact.Kind = profilesv1.HelmChartKind) ∧
        (leaf.artifact.Kind = profilesv1.KustomizeKind →
          ∃ overlay, art.Objects = [Object.kustomization overlay]) ∧
        (leaf.artifact.Kind = profilesv1.HelmChartKind →
          ∃ release,
            (leaf.artifact.Chart = none → art.Objects = [Object.helmRelease release]) ∧
            (∀ chart, leaf.artifact.Chart = some chart →
              ∃ repository,
                art.Objects = [Object.helmRelease release, Object.helmRepository repository])))
        arts (flatten env fuel sub definition) := by
  obtain ⟨d, hd, hall⟩ := MakeArtifacts_builtFrom h
  refine ⟨d, hd, hall.imp ?_⟩
  intro art leaf hb
  refine ⟨hb.1.symm, ?_, ?_⟩
  · intro hk
    obtain ⟨_, _, _, _, _, _, _, hobj, _⟩ := builtFrom_kustomize hb hk
    exact ⟨_, hobj⟩
  · intro hk
    obtain ⟨_, _, _, _, _, _, _, hobj, _⟩ := builtFrom_helmChart hb hk
    cases hc : leaf.artifact.Chart with
    | none =>
      simp only [hc] at hobj
      exact ⟨_, fun _ => hobj, fun chart hchart => by cases hchart⟩
    | some c =>
      simp only [hc] at hobj
      refine ⟨_, ?_, fun chart _ => ⟨_, hobj⟩⟩
      intro hnone
      cases hnone

/-- C16 at the demonstration root: one object for each kustomize leaf, two for
the remote chart `redis`. -/
theorem objects_per_leaf_witness :
    demo.resolved.map (fun a => a.Objects.length) = [1, 1, 1, 1, 2] ∧
      ∃ definition,
        demo.env.getProfileDefinition demo.rootURL "main" "nginx" = .ok definition ∧
        List.Forall₂ (fun (art : Artifact) (leaf : Leaf) =>
          (leaf.artifact.Kind = profilesv1.KustomizeKind ∨
            leaf.artifact.Kind = profilesv1.HelmChartKind) ∧
          (leaf.artifact.Kind = profilesv1.KustomizeKind →
            ∃ overlay, art.Objects = [Object.kustomization overlay]) ∧
          (leaf.artifact.Kind = profilesv1.HelmChartKind →
            ∃ release,
              (leaf.artifact.Chart = none → art.Objects = [Object.helmRelease release]) ∧
              (∀ chart, leaf.artifact.Chart = some chart →
                ∃ repository,
                  art.Objects = [Object.helmRelease release, Object.helmRepository repository])))
          demo.resolved (flatten demo.env 3 (demo.sub demo.rootURL "nginx") definition) :=
  ⟨by decide,
    objects_per_leaf demo.env 3 (demo.sub demo.rootURL "nginx") "root" "flux-system" "repo"
      demo.resolved (by decide)⟩

/-! ### `filepath.Join` below a directory -/

theorem splitChars_ne_nil (sep : Char) : ∀ cs : List Char, strings.splitChars sep cs ≠ []
  | [] => by simp [strings.splitChars]
  | c :: cs => by
    unfold strings.splitChars
    split <;> simp

theorem splitChars_append (sep : Char) (b : List Char) :
    ∀ a : List Char,
      strings.splitChars sep (a ++ sep :: b) = strings.splitChars sep a ++ strings.splitChars sep b
  | [] => by simp [strings.splitChars]
  | c :: t => by
    have ih := splitChars_append sep b t
    have hne := splitChars_ne_nil sep t
    by_cases hc : c = sep
    · simp [strings.splitChars, hc, ih]
    · simp only [List.cons_append, strings.splitChars, hc, if_false, List.append_eq]
      rw [ih]
      cases hsplit : strings.splitChars sep t with
      | nil => exact absurd hsplit hne
      | cons x xs => simp

theorem splitChars_no_sep (sep : Char) :
    ∀ cs : List Char, sep ∉ cs → strings.splitChars sep cs = [cs]
  | [], _ => rfl
  | c :: t, h => by
    have hc : c ≠ sep := fun h0 => h (h0 ▸ List.mem_cons_self _ _)
    have ht := splitChars_no_sep sep t (fun hm => h (List.mem_cons_of_mem _ hm))
    simp [strings.splitChars, hc, ht]

/-- Cleaning elements none of which is `..` appends the real ones (neither empty
nor `.`) to the elements written so far. -/
theorem foldl_cleanStep_no_dotdot (rooted : Bool) :
    ∀ (segs stack : List (List Char)), ['.', '.'] ∉ segs →
      segs.foldl (filepath.cleanStep rooted) stack
        = (segs.filter (fun seg => decide (¬ (seg = [] ∨ seg = ['.'])))).reverse ++ stack
  | [], _, _ => by simp
  | seg :: rest, stack, h => by
    have hseg : seg ≠ ['.', '.'] := fun h0 => h (h0 ▸ List.mem_cons_self _ _)
    have hrest : ['.', '.'] ∉ rest := fun hm => h (List.mem_cons_of_mem _ hm)
    rw [List.foldl_cons, foldl_cleanStep_no_dotdot rooted rest _ hrest]
    by_cases hreal : seg = [] ∨ seg = ['.']
    · rcases hreal with hreal | hreal <;> subst hreal <;> simp [filepath.cleanStep]
    · obtain ⟨hr1, hr2⟩ := not_or.1 hreal
      simp [filepath.cleanStep, hr1, hr2, hseg, List.filter_cons]

theorem intercalate_append_cons (sep : List Char) (b : List Char) (B : List (List Char)) :
    ∀ A : List (List Char), A ≠ [] →
      List.intercalate sep (A ++ b :: B) = List.intercalate sep A ++ sep ++ List.intercalate sep (b :: B)
  | [], h => absurd rfl h
  | [a], _ => by
    simp [List.intercalate, List.intersperse]
  | a :: a' :: A, _ => by
    have ih := intercalate_append_cons sep b B (a' :: A) (List.cons_ne_nil _ _)
    simp only [List.intercalate, List.cons_append, List.intersperse, List.flatten_cons,
      List.append_assoc, List.append_eq] at ih ⊢
    rw [ih]

/-- Cleaning the elements `P`, then a real element `art`, then elements `Q`
none of which is `..`: the result is the cleaned `P ++ [art]`, alone or followed
by `/` and more. -/
theorem cleaned_under (rooted : Bool) (P Q : List (List Char)) (art : List Char)
    (h1 : art ≠ []) (h2 : art ≠ ['.']) (h3 : art ≠ ['.', '.']) (hQ : ['.', '.'] ∉ Q) :
    List.intercalate ['/'] ((P ++ [art]).foldl (filepath.cleanStep rooted) []).reverse ≠ [] ∧
    (List.intercalate ['/'] ((P ++ [art] ++ Q).foldl (filepath.cleanStep rooted) []).reverse
        = List.intercalate ['/'] ((P ++ [art]).foldl (filepath.cleanStep rooted) []).reverse ∨
      ∃ rest,
        List.intercalate ['/'] ((P ++ [art] ++ Q).foldl (filepath.cleanStep rooted) []).reverse
          = List.intercalate ['/'] ((P ++ [art]).foldl (filepath.cleanStep rooted) []).reverse
            ++ '/' :: rest) := by
  have hstep : (P ++ [art]).foldl (filepath.cleanStep rooted) []
      = art :: P.foldl (filepath.cleanStep rooted) [] := by
    rw [List.foldl_append]
    simp [filepath.cleanStep, h1, h2, h3]
  rw [hstep, List.foldl_append, hstep, foldl_cleanStep_no_dotdot rooted Q _ hQ]
  set S0 := P.foldl (filepath.cleanStep rooted) [] with hS0
  set R := Q.filter (fun seg => decide (¬ (seg = [] ∨ seg = ['.']))) with hR
  have hbase : List.intercalate ['/'] (art :: S0).reverse ≠ [] := by
    rw [List.reverse_cons]
    cases hrev : S0.reverse with
    | nil => simpa [List.intercalate, List.intersperse] using h1
    | cons x xs =>
      rw [intercalate_append_cons _ _ _ _ (List.cons_ne_nil _ _)]
      simp [List.intercalate, List.intersperse, h1]
  refine ⟨hbase, ?_⟩
  rw [List.reverse_append, List.reverse_reverse]
  cases hRc : R with
  | nil => left; simp
  | cons r rs =>
    right
    refine ⟨List.intercalate ['/'] (r :: rs), ?_⟩
    rw [intercalate_append_cons _ _ _ _ (by simp)]
    simp

/-- `filepath.Clean` of a path `b/n/p` whose part `b` ends in a real element and
whose parts `n` and `p` have no `..` element: it is `Clean(b)` or lies under
it. -/
theorem Clean_under (b n p art : List Char) (P : List (List Char)) (hb : b ≠ [])
    (hsplit : strings.splitChars '/' b = P ++ [art])
    (h1 : art ≠ []) (h2 : art ≠ ['.']) (h3 : art ≠ ['.', '.'])
    (hn : ['.', '.'] ∉ strings.splitChars '/' n) (hp : ['.', '.'] ∉ strings.splitChars '/' p) :
    filepath.Clean (String.mk (b ++ '/' :: (n ++ '/' :: p))) = filepath.Clean (String.mk b) ∨
      liesUnder (filepath.Clean (String.mk b))
        (filepath.Clean (String.mk (b ++ '/' :: (n ++ '/' :: p)))) := by
  have hQ : ['.', '.'] ∉ strings.splitChars '/' n ++ strings.splitChars '/' p := by
    intro hm
    rcases List.mem_append.1 hm with hm | hm
    · exact hn hm
    · exact hp hm
  have hfull : strings.splitChars '/' (b ++ '/' :: (n ++ '/' :: p))
      = P ++ [art] ++ (strings.splitChars '/' n ++ strings.splitChars '/' p) := by
    rw [splitChars_append, splitChars_append, hsplit]
  have hhead : (b ++ '/' :: (n ++ '/' :: p)).head? = b.head? := by
    cases b with
    | nil => exact absurd rfl hb
    | cons x xs => rfl
  have hne1 : (String.mk b) ≠ "" := fun h => hb (congrArg String.data h)
  have hne2 : (String.mk (b ++ '/' :: (n ++ '/' :: p))) ≠ "" := fun h => by
    have := congrArg String.data h
    simp at this
  obtain ⟨hbase, hcase⟩ := cleaned_under (decide (b.head? = some '/')) P
    (strings.splitChars '/' n ++ strings.splitChars '/' p) art h1 h2 h3 hQ
  unfold filepath.Clean liesUnder
  simp only [hne1, hne2, if_false, hhead, hfull, hsplit]
  have hout1 : ∀ pre : List Char,
      pre ++ List.intercalate ['/']
        ((P ++ [art]).foldl (filepath.cleanStep (decide (b.head? = some '/'))) []).reverse ≠ [] :=
    fun pre h => hbase (List.append_eq_nil.1 h).2
  rcases hcase with heq | ⟨rest, hrest⟩
  · left
    rw [heq]
  · right
    have hout2 : ∀ pre : List Char,
        pre ++ (List.intercalate ['/']
          ((P ++ [art]).foldl (filepath.cleanStep (decide (b.head? = some '/'))) []).reverse
            ++ '/' :: rest) ≠ [] :=
      fun pre h => by simp at h
    rw [hrest, if_neg (hout1 _), if_neg (hout2 _)]
    exact ⟨rest, by simp⟩

/-- `filepath.Join(rootDir, "artifacts", name, path)` is the directory
`filepath.Join(rootDir, "artifacts")` or lies under it, when neither `name` nor
`path` has a `..` element. -/
theorem Join_artifacts_under (rootDir name path : String)
    (hn : ['.', '.'] ∉ strings.splitChars '/' name.data)
    (hp : ['.', '.'] ∉ strings.splitChars '/' path.data) :
    filepath.Join [rootDir, "artifacts", name, path] = filepath.Join [rootDir, "artifacts"] ∨
      liesUnder (filepath.Join [rootDir, "artifacts"])
        (filepath.Join [rootDir, "artifacts", name, path]) := by
  have hart : strings.splitChars '/' "artifacts".data = [] ++ ["artifacts".data] := by decide
  have ha1 : "artifacts".data ≠ [] := by decide
  have ha2 : "artifacts".data ≠ ['.'] := by decide
  have ha3 : "artifacts".data ≠ ['.', '.'] := by decide
  by_cases hr : rootDir = ""
  · subst hr
    have hfull : filepath.Join ["", "artifacts", name, path]
        = filepath.Clean (String.mk ("artifacts".data ++ '/' :: (name.data ++ '/' :: path.data))) := by
      have : (["", "artifacts", name, path].dropWhile (fun e => decide (e = "")))
          = ["artifacts", name, path] := by
        simp [List.dropWhile]
      unfold filepath.Join
      rw [this]
      simp only [strings.Join]
      congr 1
      apply String.ext
      simp [String.data_append]
    have hbase : filepath.Join ["", "artifacts"] = filepath.Clean (String.mk "artifacts".data) := by
      decide
    rw [hfull, hbase]
    exact Clean_under _ _ _ _ [] (by decide) hart ha1 ha2 ha3 hn hp
  · have hdata : rootDir.data ≠ [] := fun h => hr (String.ext h)
    have hfull : filepath.Join [rootDir, "artifacts", name, path]
        = filepath.Clean (String.mk ((rootDir.data ++ '/' :: "artifacts".data)
            ++ '/' :: (name.data ++ '/' :: path.data))) := by
      have : ([rootDir, "artifacts", name, path].dropWhile (fun e => decide (e = "")))
          = [rootDir, "artifacts", name, path] := by
        simp [List.dropWhile, hr]
      unfold filepath.Join
      rw [this]
      simp only [strings.Join]
      congr 1
      apply String.ext
      simp [String.data_append]
    have hbase : filepath.Join [rootDir, "artifacts"]
        = filepath.Clean (String.mk (rootDir.data ++ '/' :: "artifacts".data)) := by
      have : ([rootDir, "artifacts"].dropWhile (fun e => decide (e = ""))) = [rootDir, "artifacts"] := by
        simp [List.dropWhile, hr]
      unfold filepath.Join
      rw [this]
      simp only [strings.Join]
      congr 1
      apply String.ext
      simp [String.data_append]
    rw [hfull, hbase]
    refine Clean_under _ _ _ "artifacts".data (strings.splitChars '/' rootDir.data) (by simp) ?_
      ha1 ha2 ha3 hn hp
    rw [splitChars_append, splitChars_no_sep '/' "artifacts".data (by decide)]

/-- C17, as amended.  In a successful resolution every emitted artifact is
built from a leaf of the flattened root definition, in order.  For a kustomize
leaf the overlay object is built with the source path
`filepath.Join(rootDir, "artifacts", name, path)`, and for a helm-chart leaf
with a non-empty local path the chart reference of the release object is that
path, `name` being the logical name of the emitted artifact and `path` the
declared path: the path `<rootDir>/artifacts/<name>/<path>`, cleaned.  When
neither the name nor the path has a `..` element, the rewritten path is the
directory `filepath.Join(rootDir, "artifacts")` or lies under it. -/
theorem rewritten_path (env : Env) (fuel : Nat) (sub : profilesv1.ProfileSubscription)
    (rootDir gitRepoNamespace gitRepoName : String) (arts : List Artifact)
    (h : MakeArtifacts env fuel sub rootDir gitRepoNamespace gitRepoName = some (arts, none)) :
    (∃ definition,
      env.getProfileDefinition sub.Spec.ProfileURL
        (if sub.Spec.Tag = "" then sub.Spec.Branch else sub.Spec.Tag) sub.Spec.Path = .ok definition ∧
      List.Forall₂ (fun (art : Artifact) (leaf : Leaf) =>
        (leaf.artifact.Kind = profilesv1.KustomizeKind →
          ∃ (p : Profile) (entry : profilesv1.Artifact),
            art.Objects = [Object.kustomization (p.makeKustomization entry
              (filepath.Join [rootDir, "artifacts", art.Name, leaf.artifact.Path]))] ∧
            (p.makeKustomization entry
              (filepath.Join [rootDir, "artifacts", art.Name, leaf.artifact.Path])).Path
              = filepath.Join [rootDir, "artifacts", art.Name, leaf.artifact.Path]) ∧
        (leaf.artifact.Kind = profilesv1.HelmChartKind → leaf.artifact.Path ≠ "" →
          ∃ release, art.Objects.head? = some (Object.helmRelease release) ∧
            release.Chart = filepath.Join [rootDir, "artifacts", art.Name, leaf.artifact.Path]))
        arts (flatten env fuel sub definition)) ∧
    (∀ name path : String,
      ['.', '.'] ∉ strings.splitChars '/' name.data →
      ['.', '.'] ∉ strings.splitChars '/' path.data →
      filepath.Join [rootDir, "artifacts", name, path] = filepath.Join [rootDir, "artifacts"] ∨
        liesUnder (filepath.Join [rootDir, "artifacts"])
          (filepath.Join [rootDir, "artifacts", name, path])) := by
  refine ⟨?_, fun name path hn hp => Join_artifacts_under rootDir name path hn hp⟩
  obtain ⟨d, hd, hall⟩ := MakeArtifacts_builtFrom h
  refine ⟨d, hd, hall.imp ?_⟩
  intro art leaf hb
  constructor
  · intro hk
    obtain ⟨p, _, _, _, _, _, _, hobj, _⟩ := builtFrom_kustomize hb hk
    exact ⟨p, _, hobj, rfl⟩
  · intro hk hp
    obtain ⟨p, _, _, _, _, _, _, hobj, _⟩ := builtFrom_helmChart hb hk
    rw [hobj, if_pos hp]
    exact ⟨_, rfl, rfl⟩

/-- C17 as amended, at the demonstration root: the kustomize artifact `foo`
with the path `overlay` gets the source path `root/artifacts/foo/overlay`, which
lies under `root/artifacts`. -/
theorem rewritten_path_witness :
    demo.resolved.map (fun a => a.Objects.map (fun o =>
        match o with
        | .kustomization overlay => overlay.Path
        | .helmRelease release => release.Chart
        | .helmRepository repository => repository.URL))
      = [["root/artifacts/foo/overlay"], ["root/artifacts/p/a/a-path"],
         ["root/artifacts/p/q/leaf/leaf-path"], ["root/artifacts/k/k-path"],
         ["redis", "https://charts.example.com"]] ∧
    filepath.Join ["root", "artifacts"] = "root/artifacts" ∧
    (filepath.Join ["root", "artifacts", "foo", "overlay"] = filepath.Join ["root", "artifacts"] ∨
      liesUnder (filepath.Join ["root", "artifacts"])
        (filepath.Join ["root", "artifacts", "foo", "overlay"])) :=
  ⟨by decide, by decide,
    (rewritten_path demo.env 3 (demo.sub demo.rootURL "nginx") "root" "flux-system" "repo"
      demo.resolved (by decide)).2 "foo" "overlay" (by decide) (by decide)⟩

/-- C17 as stated fails.  The kustomize artifact `foo` of the demonstration
profile `escape` declares the path `../../../etc`; the source path placed in its
overlay object is `etc`, which is not under `root/artifacts`. -/
theorem cleaned_path_may_leave_artifacts_directory :
    (MakeArtifacts demo.env 3 (demo.sub "https://example.com/escape" "escape-path") "root"
        "flux-system" "repo").map (fun r => (r.1.map (fun a => a.Objects), r.2))
      = some ([[Object.kustomization
          { Name := "mysub-escape-def-foo", Namespace := "default", Path := "etc",
            SourceRefName := "repo", SourceRefNamespace := "flux-system" }]], none) ∧
    filepath.Join ["root", "artifacts", "foo", "../../../etc"] = "etc" ∧
    ¬ liesUnder "root/artifacts" "etc" := by
  refine ⟨by decide, by decide, ?_⟩
  rintro ⟨rest, hrest⟩
  have hhead : "etc".data.head? = some 'r' := by
    rw [hrest]
    rfl
  revert hhead
  decide

/-! ## C18: the frame of the nested subscription -/

/-- The profile at an arrival has the object name and namespace of the
subscription of the call the arrival is computed in. -/
theorem arrive_subscription (env : Env) :
    ∀ (fuel : Nat) (p : Profile) (repos anc nest : List String) (path : List Nat) (arr : Arrival),
      p.arrive env fuel repos anc nest path = some arr →
      arr.st.p.subscription.Name = p.subscription.Name ∧
        arr.st.p.subscription.Namespace = p.subscription.Namespace
  | 0, _, _, _, _, _, _, h => by simp [Profile.arrive] at h
  | _ + 1, _, _, _, _, [], _, h => by simp [Profile.arrive] at h
  | fuel + 1, p, repos, anc, nest, i :: rest, arr, h => by
    simp only [Profile.arrive] at h
    split at h
    · cases h
    · rename_i st a hup
      obtain ⟨⟨n, hn⟩, _⟩ := loopUpTo_frame _ _ _ _ _ hup
      simp only at hn
      split at h
      · injection h with h
        subst h
        simp only [hn, and_self]
      · rename_i j rest'
        split_ifs at h with hc
        split at h
        · rename_i q repos' hq
          obtain ⟨d, _, hqd, _, _⟩ := nestedCall_ok hq
          obtain ⟨h1, h2⟩ := arrive_subscription env fuel q repos' _ _ (j :: rest') arr h
          rw [h1, h2, hqd]
          simp [nestedSub, newProfile, nestedSubscription, hn]
        · cases h

/-- C18.  At every entry a resolution reaches, the enclosing profile has the
object name and namespace of the root subscription and the root directory and
git-source given to `MakeArtifacts`.  The receiver of the nested call made for
a nested-profile entry has the enclosing subscription with `ProfileURL`,
`Branch`, `Tag` and `Path` replaced and nothing else changed, and the same root
directory and git-source.  An iteration that goes on leaves the subscription of
the enclosing profile as it was. -/
theorem nested_subscription_frame (env : Env) (fuel : Nat) (sub : profilesv1.ProfileSubscription)
    (rootDir gitRepoNamespace gitRepoName : String) (path : List Nat) (arr : Arrival)
    (hreach : reach env fuel sub rootDir gitRepoNamespace gitRepoName path = some arr) :
    (arr.st.p.subscription.Name = sub.Name ∧ arr.st.p.subscription.Namespace = sub.Namespace ∧
      arr.st.p.rootDir = rootDir ∧ arr.st.p.gitRepositoryNamespace = gitRepoNamespace ∧
      arr.st.p.gitRepositoryName = gitRepoName) ∧
    (∀ (q : Profile) (repos : List String),
      nestedCall env arr.st (qualify arr.st.p arr.artifact) = .ok (q, repos) →
      q.subscription =
        { arr.st.p.subscription with
          Spec := { ProfileURL := arr.artifact.Profile.URL
                    Branch := arr.artifact.Profile.Branch
                    Tag := arr.artifact.Profile.Version
                    Path := q.subscription.Spec.Path } } ∧
      q.subscription.Name = sub.Name ∧ q.subscription.Namespace = sub.Namespace ∧
      q.rootDir = rootDir ∧ q.gitRepositoryNamespace = gitRepoNamespace ∧
      q.gitRepositoryName = gitRepoName) ∧
    (∀ st', arr.iteration env = some (.next st') →
      st'.p.subscription = arr.st.p.subscription ∧ st'.p.rootDir = arr.st.p.rootDir ∧
      st'.p.gitRepositoryNamespace = arr.st.p.gitRepositoryNamespace ∧
      st'.p.gitRepositoryName = arr.st.p.gitRepositoryName) := by
  obtain ⟨hf1, hf2, hf3⟩ := reach_frame env hreach
  have hsub : arr.st.p.subscription.Name = sub.Name ∧
      arr.st.p.subscription.Namespace = sub.Namespace := by
    unfold reach at hreach
    dsimp only at hreach
    split at hreach
    · cases hreach
    · exact arrive_subscription env _ _ _ _ _ _ _ hreach
  refine ⟨⟨hsub.1, hsub.2, hf1, hf2, hf3⟩, ?_, ?_⟩
  · intro q repos hq
    obtain ⟨d, _, hqd, _, _⟩ := nestedCall_ok hq
    subst hqd
    simp only [nestedSub, newProfile, nestedSubscription, qualify_Profile]
    exact ⟨trivial, hsub.1, hsub.2, hf1, hf2, hf3⟩
  · intro st' hit
    obtain ⟨⟨n, hn⟩, _, _⟩ := iteration_next_frame hit
    rw [hn]
    exact ⟨rfl, rfl, rfl, rfl⟩

/-- C18 at the demonstration root: the nested profile `q`, two levels down, is
resolved under the name `mysub` and the namespace `default` of the root
subscription. -/
theorem nested_subscription_frame_witness :
    (call demo.env 3 (demo.sub demo.rootURL "nginx") "root" "flux-system" "repo" [1, 1]).map
        (fun c => c.1.subscription)
      = some { Name := "mysub", Namespace := "default",
               Spec := { ProfileURL := "https://example.com/q", Branch := "main", Tag := "",
                         Path := "q-path" } } ∧
    (demo.arrival demo.rootURL "nginx" "flux-system" "repo" [1, 1]).st.p.subscription.Name
      = (demo.sub demo.rootURL "nginx").Name ∧
    (demo.arrival demo.rootURL "nginx" "flux-system" "repo" [1, 1]).st.p.rootDir = "root" :=
  ⟨by decide,
    (nested_subscription_frame demo.env 3 (demo.sub demo.rootURL "nginx") "root" "flux-system"
      "repo" [1, 1] (demo.arrival demo.rootURL "nginx" "flux-system" "repo" [1, 1])
      (by decide)).1.1,
    (nested_subscription_frame demo.env 3 (demo.sub demo.rootURL "nginx") "root" "flux-system"
      "repo" [1, 1] (demo.arrival demo.rootURL "nginx" "flux-system" "repo" [1, 1])
      (by decide)).1.2.2.1⟩

/-! ## C20: the contents of the cycle-guard list -/

theorem nestedKey_eq (sub : profilesv1.ProfileSubscription) (artifact : profilesv1.Artifact) :
    repoKey (nestedSubscription sub artifact) = nestedKey artifact := by
  simp [repoKey, nestedKey, newProfile, Profile.profileRepo, nestedSubscription]

theorem nestedKeys_cons (a : profilesv1.Artifact) (rest : List profilesv1.Artifact) :
    nestedKeys (a :: rest) = nestedKeys [a] ++ nestedKeys rest := by
  unfold nestedKeys
  by_cases hk : a.Kind = profilesv1.ProfileKind <;> simp [List.filter_cons, hk]

theorem nestedKeys_append (l₁ l₂ : List profilesv1.Artifact) :
    nestedKeys (l₁ ++ l₂) = nestedKeys l₁ ++ nestedKeys l₂ := by
  unfold nestedKeys
  simp

/-- An iteration that goes on appends to `profileRepos` the key of the entry
if the entry is a nested profile, and nothing otherwise. -/
theorem iteration_next_repos {env : Env} {recurse : Profile → List String → Option Result}
    {st st' : LoopState} {artifact : profilesv1.Artifact}
    (h : iteration env recurse st artifact = some (.next st')) :
    st'.profileRepos = st.profileRepos ++ nestedKeys [artifact] := by
  obtain ⟨_, h | h⟩ := iteration_next h
  · obtain ⟨hk, q, repos, nestedArtifacts, hq, _, rfl⟩ := h
    obtain ⟨d, _, hqd, _, hrepos⟩ := nestedCall_ok hq
    have hkey : q.profileRepo = nestedKey artifact := by
      rw [profileRepo_eq_repoKey, hqd]
      simp only [nestedSub, newProfile, nestedSubscription_qualify]
      exact nestedKey_eq _ _
    simp [hrepos, hkey, nestedKeys, hk]
  · obtain ⟨hk, _, art, rfl⟩ := h
    simp [nestedKeys, hk]

theorem loopUpTo_repos {env : Env} {recurse : Profile → List String → Option Result} :
    ∀ (l : List profilesv1.Artifact) (i : Nat) (st st' : LoopState) (a : profilesv1.Artifact),
      loopUpTo env recurse st l i = some (st', a) →
      st'.profileRepos = st.profileRepos ++ nestedKeys (l.take i) ∧ l.get? i = some a
  | [], _, _, _, _, h => by simp [loopUpTo] at h
  | x :: _, 0, st, st', a, h => by
    simp only [loopUpTo] at h
    injection h with h
    injection h with h1 h2
    subst h1; subst h2
    simp [nestedKeys]
  | x :: rest, i + 1, st, st', a, h => by
    simp only [loopUpTo] at h
    split at h
    · rename_i st1 hit
      obtain ⟨h1, h2⟩ := loopUpTo_repos rest i st1 st' a h
      rw [h1, iteration_next_repos hit, List.take_succ_cons,
        nestedKeys_cons x (List.take i rest), List.append_assoc]
      exact ⟨rfl, by simpa using h2⟩
    · cases h

/-- On arrival at an entry the list of the loop is the list the call was
entered with, followed by the expected guard keys. -/
theorem arrive_guardKeys (env : Env) :
    ∀ (fuel : Nat) (p : Profile) (repos anc nest : List String) (path : List Nat) (arr : Arrival),
      p.arrive env fuel repos anc nest path = some arr →
      arr.st.profileRepos = repos ++ guardKeys env p.definition path
  | 0, _, _, _, _, _, _, h => by simp [Profile.arrive] at h
  | _ + 1, _, _, _, _, [], _, h => by simp [Profile.arrive] at h
  | fuel + 1, p, repos, anc, nest, i :: rest, arr, h => by
    simp only [Profile.arrive] at h
    split at h
    · cases h
    · rename_i st a hup
      obtain ⟨hrepos, hget⟩ := loopUpTo_repos _ _ _ _ _ hup
      simp only at hrepos
      split at h
      · injection h with h
        subst h
        simp only [guardKeys, hrepos]
      · rename_i j rest'
        split_ifs at h with hc
        split at h
        · rename_i q repos' hq
          obtain ⟨d, hd, hqd, _, hq'⟩ := nestedCall_ok hq
          simp only [qualify_Profile, nestedBranchOrTag_qualify, nestedFetchPath_qualify] at hd
          have hkey : q.profileRepo = nestedKey a := by
            rw [profileRepo_eq_repoKey, hqd]
            simp only [nestedSub, newProfile, nestedSubscription_qualify]
            exact nestedKey_eq _ _
          have hdef : q.definition = d := by rw [hqd]; simp [nestedSub, newProfile]
          have hk : a.Kind = profilesv1.ProfileKind := by simpa using hc.2
          have htake : nestedKeys (p.definition.Spec.Artifacts.take (i + 1))
              = nestedKeys (p.definition.Spec.Artifacts.take i) ++ [nestedKey a] := by
            rw [List.take_succ, nestedKeys_append, ← List.get?_eq_getElem?, hget]
            simp [nestedKeys, hk]
          rw [arrive_guardKeys env fuel q repos' _ _ (j :: rest') arr h, hq', hrepos, hkey, hdef]
          simp only [guardKeys, hget, hd, htake, List.append_assoc]
        · cases h

/-- The iteration on a validated nested-profile entry whose definition is
fetched returns the cyclic-reference error only if the key of the entry is in
`profileRepos`. -/
theorem iteration_recursive_only_if {env : Env} {recurse : Profile → List String → Option Result}
    {st : LoopState} {artifact : profilesv1.Artifact} {nestedDef : profilesv1.ProfileDefinition}
    (hvalid : env.Validate artifact = none)
    (hkind : artifact.Kind = profilesv1.ProfileKind)
    (hfetch : env.getProfileDefinition artifact.Profile.URL (nestedBranchOrTag artifact)
      (nestedFetchPath artifact) = .ok nestedDef)
    (hit : iteration env recurse st artifact =
      some (.ret ([], some (.recursive artifact.Profile.URL artifact.Profile.Branch)))) :
    nestedKey artifact ∈ st.profileRepos := by
  by_contra hnot
  have hkey : (nestedSub st.p (qualify st.p artifact) nestedDef).profileRepo = nestedKey artifact := by
    rw [profileRepo_eq_repoKey]
    simp only [nestedSub, newProfile, nestedSubscription_qualify]
    exact nestedKey_eq _ _
  have hc : containsKey st.profileRepos (nestedKey artifact) = false := by
    cases hcase : containsKey st.profileRepos (nestedKey artifact) with
    | false => rfl
    | true => exact absurd ((containsKey_iff _ _).1 hcase) hnot
  unfold iteration at hit
  simp only [hvalid, qualify_Kind, hkind, if_true] at hit
  unfold profileCase nestedCall at hit
  simp only [qualify_Profile, nestedBranchOrTag_qualify, nestedFetchPath_qualify, hfetch, hkey,
    hc, Bool.false_eq_true, if_false] at hit
  split at hit
  · cases hit
  · simp at hit
  · simp at hit

/-- C20.  On arrival at an entry the cycle-guard list is exactly the root key
followed by the expected guard keys: for every definition on the way the keys
of its nested-profile entries up to and including the one on the path, then the
keys of the nested-profile entries before the entry in its own definition.
Hence a validated nested-profile entry whose definition is fetched is rejected
with the cyclic-reference error if and only if its key is in that list. -/
theorem guard_list_contents (env : Env) (fuel : Nat) (sub : profilesv1.ProfileSubscription)
    (rootDir gitRepoNamespace gitRepoName : String) (path : List Nat) (arr : Arrival)
    (hreach : reach env fuel sub rootDir gitRepoNamespace gitRepoName path = some arr) :
    ∃ definition,
      env.getProfileDefinition sub.Spec.ProfileURL
        (if sub.Spec.Tag = "" then sub.Spec.Branch else sub.Spec.Tag) sub.Spec.Path = .ok definition ∧
      arr.st.profileRepos = repoKey sub :: guardKeys env definition path ∧
      ∀ nestedDef, env.Validate arr.artifact = none →
        arr.artifact.Kind = profilesv1.ProfileKind →
        env.getProfileDefinition arr.artifact.Profile.URL (nestedBranchOrTag arr.artifact)
          (nestedFetchPath arr.artifact) = .ok nestedDef →
        (arr.iteration env =
            some (.ret ([], some (.recursive arr.artifact.Profile.URL arr.artifact.Profile.Branch)))
          ↔ nestedKey arr.artifact ∈ repoKey sub :: guardKeys env definition path) := by
  have hreach' := hreach
  unfold reach at hreach'
  dsimp only at hreach'
  split at hreach'
  · cases hreach'
  · rename_i d hd
    have hlist := arrive_guardKeys env _ _ _ _ _ _ _ hreach'
    simp only [newProfile, List.singleton_append] at hlist
    have hroot : (newProfile d sub rootDir gitRepoNamespace gitRepoName).profileRepo = repoKey sub :=
      profileRepo_eq_repoKey _
    simp only [newProfile] at hroot
    rw [hroot] at hlist
    refine ⟨d, hd, hlist, ?_⟩
    intro nestedDef hvalid hkind hfetch
    rw [← hlist]
    constructor
    · intro hit
      exact iteration_recursive_only_if hvalid hkind hfetch hit
    · intro hmem
      apply iteration_recursive hvalid hkind hfetch
      have hkey : (nestedSub arr.st.p (qualify arr.st.p arr.artifact) nestedDef).profileRepo
          = nestedKey arr.artifact := by
        rw [profileRepo_eq_repoKey]
        simp only [nestedSub, newProfile, nestedSubscription_qualify]
        exact nestedKey_eq _ _
      rw [hkey]
      exact hmem

/-- C20 at the demonstration profile `twice`: on arrival at its second entry the
list holds the root key and the key of the first entry, which is the key of
the second entry too. -/
theorem guard_list_contents_witness :
    reach demo.env 3 (demo.sub "https://example.com/twice" "twice-path") "root" "flux-system" "repo"
        [1]
      = some (demo.arrival "https://example.com/twice" "twice-path" "flux-system" "repo" [1]) ∧
    repoKey (demo.sub "https://example.com/twice" "twice-path")
        :: guardKeys demo.env (demo.definitionAt "https://example.com/twice") [1]
      = ["https://example.com/twice:main:twice-path", "https://example.com/q:main:q-path"] ∧
    repoKey (demo.sub demo.rootURL "nginx") :: guardKeys demo.env (demo.definitionAt demo.rootURL) [1, 2]
      = ["https://example.com/root:main:nginx", "https://example.com/p:main:p-path",
         "https://example.com/q:main:q-path"] ∧
    ∃ definition,
      demo.env.getProfileDefinition "https://example.com/twice" "main" "twice-path"
        = .ok definition ∧
      (demo.arrival "https://example.com/twice" "twice-path" "flux-system" "repo" [1]).st.profileRepos
        = repoKey (demo.sub "https://example.com/twice" "twice-path")
          :: guardKeys demo.env definition [1] ∧
      ∀ nestedDef,
        demo.env.Validate
          (demo.arrival "https://example.com/twice" "twice-path" "flux-system" "repo" [1]).artifact
          = none →
        (demo.arrival "https://example.com/twice" "twice-path" "flux-system" "repo" [1]).artifact.Kind
          = profilesv1.ProfileKind →
        demo.env.getProfileDefinition
          (demo.arrival "https://example.com/twice" "twice-path" "flux-system" "repo"
            [1]).artifact.Profile.URL
          (nestedBranchOrTag
            (demo.arrival "https://example.com/twice" "twice-path" "flux-system" "repo" [1]).artifact)
          (nestedFetchPath
            (demo.arrival "https://example.com/twice" "twice-path" "flux-system" "repo" [1]).artifact)
          = .ok nestedDef →
        ((demo.arrival "https://example.com/twice" "twice-path" "flux-system" "repo"
              [1]).iteration demo.env
            = some (.ret ([], some (.recursive
                (demo.arrival "https://example.com/twice" "twice-path" "flux-system" "repo"
                  [1]).artifact.Profile.URL
                (demo.arrival "https://example.com/twice" "twice-path" "flux-system" "repo"
                  [1]).artifact.Profile.Branch)))
          ↔ nestedKey
              (demo.arrival "https://example.com/twice" "twice-path" "flux-system" "repo" [1]).artifact
            ∈ repoKey (demo.sub "https://example.com/twice" "twice-path")
              :: guardKeys demo.env definition [1]) :=
  ⟨by decide, by decide, by decide,
    guard_list_contents demo.env 3 (demo.sub "https://example.com/twice" "twice-path") "root"
      "flux-system" "repo" [1]
      (demo.arrival "https://example.com/twice" "twice-path" "flux-system" "repo" [1]) (by decide)⟩

end profile
